import Mathlib

/-!
# Verification of the svelte-bay CLI source-file code-modification engine

This file is a shallow embedding, over `List Char`, of the analyzer and
mutator functions of `src/lib/cli/file-utils.ts` together with the decision
logic of `initCommand` in `src/lib/cli/init-command.ts` of the `svelte-bay`
repository.  The repository contains two generations of `file-utils.ts`:

* the simple regex analyzer (the file `src/lib/cli/file-utils.ts` as given,
  whose `analyzeSvelteFile` matches the first `<script ...>` tag of the
  document, module or not) — embedded in namespace `FileUtils`;
* the module-script-aware variant (first document of `src/unnamed/part_001`,
  whose `analyzeSvelteFile` loops over script tags, skips unclosed ones,
  records `context="module"` scripts separately, and whose
  `addScriptTagWithBay` inserts the new instance script after a module
  block) — embedded in namespace `FileUtilsM`.  This variant is the one the
  current `init-command.ts` compiles against (it reads
  `analysis.hasModuleScriptTag`).

The regexes of the source are few and simple; each is implemented here as an
explicit character-level matcher with exactly the JavaScript semantics
(leftmost match, greedy quantifiers, case-insensitive flags where present).
File I/O is dropped: every function takes the document contents and returns
the new contents; the interactive prompts of `initCommand` are modelled as
answered with their default ("yes"), so the driver always applies the
mutation its decision table selects.
-/

namespace SvelteBay

/-- A document is its list of characters (JS strings are indexed by UTF-16
units; all documents considered here are ASCII, where the two coincide). -/
abbrev Doc := List Char

/-- ASCII lower-casing, for the `/i` regex flag. -/
def lowerChar (c : Char) : Char :=
  if 'A' ≤ c ∧ c ≤ 'Z' then Char.ofNat (c.toNat + 32) else c

/-- Case-insensitive character comparison (ASCII). -/
def charCI (a b : Char) : Bool := lowerChar a == lowerChar b

/-- JavaScript `\s` on the ASCII range. -/
def isWsChar (c : Char) : Bool :=
  (c == ' ') || (c == '\t') || (c == '\n') || (c == '\r') ||
  (c == '\x0b') || (c == '\x0c')

/-- `pat` is a case-sensitive prefix of `s`. -/
def prefixCS : Doc → Doc → Bool
  | [], _ => true
  | _ :: _, [] => false
  | p :: ps, c :: cs => (p == c) && prefixCS ps cs

/-- `pat` is a case-insensitive prefix of `s`. -/
def prefixCI : Doc → Doc → Bool
  | [], _ => true
  | _ :: _, [] => false
  | p :: ps, c :: cs => charCI p c && prefixCI ps cs

/-- Leftmost-match scanner: return the first position (with payload) at which
`f` matches, scanning every suffix from the left — the JS regex `match`
discipline. -/
def scanL {α : Type} (f : Doc → Option α) : Doc → Option (Nat × α)
  | [] => (f []).map (fun a => (0, a))
  | l@(_ :: rest) =>
    match f l with
    | some a => some (0, a)
    | none => (scanL f rest).map (fun p => (p.1 + 1, p.2))

/-- Index of the first occurrence of character `ch`. -/
def findCharL (ch : Char) : Doc → Option Nat
  | [] => none
  | c :: rest => if c == ch then some 0 else (findCharL ch rest).map (· + 1)

/-- Index of the last occurrence of character `ch` (JS `lastIndexOf`,
as an `Option`). -/
def lastIndexOfChar (ch : Char) (s : Doc) : Option Nat :=
  (findCharL ch s.reverse).map (fun k => s.length - 1 - k)

/-- Index of the first (case-insensitive) occurrence of `pat` in `s`. -/
def findSubCI (pat : Doc) (s : Doc) : Option Nat :=
  (scanL (fun l => if prefixCI pat l then some () else none) s).map Prod.fst

/-- Length of the leading whitespace run (how far `\s*` reaches). -/
def wsCount : Doc → Nat
  | [] => 0
  | c :: rest => if isWsChar c then wsCount rest + 1 else 0

/-- JS `String.prototype.split(',')`. -/
def splitComma : Doc → List Doc
  | [] => [[]]
  | c :: rest =>
    if c == ',' then [] :: splitComma rest
    else
      match splitComma rest with
      | h :: t => (c :: h) :: t
      | [] => [[c]]

/-- JS `trimStart`. -/
def trimStartL (s : Doc) : Doc := s.dropWhile isWsChar

/-- JS `trimEnd`. -/
def trimEndL (s : Doc) : Doc := (s.reverse.dropWhile isWsChar).reverse

/-- JS `trim`. -/
def trimL (s : Doc) : Doc := trimEndL (trimStartL s)

/-- JS `Array.prototype.join(', ')`. -/
def joinCommaSp : List Doc → Doc
  | [] => []
  | [e] => e
  | e :: rest => e ++ ", ".toList ++ joinCommaSp rest

/-- JS `String.prototype.slice` with its negative-index and clamping
semantics; `none` as second argument is JS `undefined` (slice to the end). -/
def jsSlice (s : Doc) (a : Int) (b : Option Int) : Doc :=
  let n : Int := s.length
  let lo : Int := if a < 0 then max (n + a) 0 else min a n
  let hi : Int := match b with
    | none => n
    | some bb => if bb < 0 then max (n + bb) 0 else min bb n
  if lo < hi then (s.drop lo.toNat).take (hi - lo).toNat else []

/-! ## The individual regex matchers of `file-utils.ts` -/

def scriptLit : Doc := "<script".toList
def closeLit : Doc := "</script>".toList
def importLit : Doc := "import".toList
def fromLit : Doc := "from".toList
def svelteBayLit : Doc := "svelte-bay".toList
def createBayLit : Doc := "createBay".toList
def contextLit : Doc := "context".toList
def moduleLit : Doc := "module".toList

def isQuoteChar (c : Char) : Bool := (c == '"') || (c == '\x27')

/-- Match of `/<script(\s+[^>]*)?>/i` anchored at the start of `s`: returns
the match length.  After the literal, either `>` immediately (length 8), or
one whitespace and then everything up to and including the first `>`. -/
def scriptTagHere (s : Doc) : Option Nat :=
  if prefixCI scriptLit s then
    match s.drop 7 with
    | [] => none
    | c :: rest =>
      if c == '>' then some 8
      else if isWsChar c then
        match findCharL '>' rest with
        | some k => some (9 + k)
        | none => none
      else none
  else none

/-- First match of the script-tag regex: `(index, length)`. -/
def findScriptTag (s : Doc) : Option (Nat × Nat) := scanL scriptTagHere s

/-- Match of `/import\s+{([^}]+)}\s+from\s+['"]svelte-bay['"]/` anchored at
the start of `s`: returns `(length, capture)`.  Each `\s+` run and the
`[^}]+` capture are forced by the following required literal, so the
backtracking regex is equivalent to this deterministic scan. -/
def importHere (s : Doc) : Option (Nat × Doc) :=
  if prefixCS importLit s then
    let s1 := s.drop 6
    let w1 := wsCount s1
    if w1 == 0 then none else
    match s1.drop w1 with
    | c :: s2 =>
      if c == '\x7b' then
        match findCharL '\x7d' s2 with
        | some k =>
          if k == 0 then none else
          let s3 := s2.drop (k + 1)
          let w2 := wsCount s3
          if w2 == 0 then none else
          let s4 := s3.drop w2
          if prefixCS fromLit s4 then
            let s5 := s4.drop 4
            let w3 := wsCount s5
            if w3 == 0 then none else
            match s5.drop w3 with
            | q1 :: s6 =>
              if isQuoteChar q1 then
                if prefixCS svelteBayLit s6 then
                  match s6.drop 10 with
                  | q2 :: _ =>
                    if isQuoteChar q2 then
                      some (6 + w1 + 1 + k + 1 + w2 + 4 + w3 + 1 + 10 + 1, s2.take k)
                    else none
                  | [] => none
                else none
              else none
            | [] => none
          else none
        | none => none
      else none
    | [] => none
  else none

/-- First match of the svelte-bay import regex: `(index, length, capture)`. -/
def findImport (s : Doc) : Option (Nat × Nat × Doc) := scanL importHere s

/-- Match of `/createBay\s*\(\s*\)/` anchored at the start of `s`. -/
def callHere (s : Doc) : Bool :=
  if prefixCS createBayLit s then
    let s1 := s.drop 9
    match s1.drop (wsCount s1) with
    | c :: s2 =>
      if c == '(' then
        match s2.drop (wsCount s2) with
        | c2 :: _ => c2 == ')'
        | [] => false
      else false
    | [] => false
  else false

/-- `.test` of the call regex: some suffix matches. -/
def hasCall : Doc → Bool
  | [] => false
  | l@(_ :: rest) => callHere l || hasCall rest

/-- Match of `/context\s*=\s*["']module["']/` anchored at the start of `s`. -/
def ctxHere (s : Doc) : Bool :=
  if prefixCS contextLit s then
    let s1 := s.drop 7
    match s1.drop (wsCount s1) with
    | c :: s2 =>
      if c == '=' then
        match s2.drop (wsCount s2) with
        | q :: s3 =>
          isQuoteChar q && prefixCS moduleLit s3 &&
            (match s3.drop 6 with
             | q2 :: _ => isQuoteChar q2
             | [] => false)
        | [] => false
      else false
    | [] => false
  else false

/-- `.test` of the context-module regex. -/
def anyCtx : Doc → Bool
  | [] => false
  | l@(_ :: rest) => ctxHere l || anyCtx rest

/-- Match of the mutator's module-block regex
`/<script\s+[^>]*context\s*=\s*["']module["'][^>]*>[\s\S]*?<\/script>/i`
anchored at the start of `s`: returns the match length.  The pre-`>` part of
the pattern cannot contain `>`, so the tag's `>` is the first `>` after the
literal, the `context=...` occurrence must lie before it, and the lazy body
runs to the first `</script>`. -/
def moduleBlockHere (s : Doc) : Option Nat :=
  if prefixCI scriptLit s then
    match s.drop 7 with
    | [] => none
    | c :: rest =>
      if isWsChar c then
        match findCharL '>' rest with
        | some g =>
          if anyCtx (rest.take g) then
            match findSubCI closeLit (rest.drop (g + 1)) with
            | some h => some (7 + 1 + g + 1 + h + 9)
            | none => none
          else none
        | none => none
      else none
  else none

/-- First match of the module-block regex: `(index, length)`. -/
def findModuleBlock (s : Doc) : Option (Nat × Nat) := scanL moduleBlockHere s

/-! ## `file-utils.ts`, simple generation (the file `src/lib/cli/file-utils.ts`) -/

namespace FileUtils

/-- The `SvelteFileAnalysis` interface; numeric offsets keep the source's
`-1` sentinels, the optional fields are `undefined`/`none` when unset. -/
structure SvelteFileAnalysis where
  hasScriptTag : Bool := false
  scriptTagStart : Int := -1
  scriptTagEnd : Int := -1
  scriptContentStart : Int := -1
  scriptContentEnd : Int := -1
  hasCreateBayImport : Bool := false
  hasSvelteBayImport : Bool := false
  svelteBayImportLine : Option Doc := none
  svelteBayImportStart : Option Int := none
  svelteBayImportEnd : Option Int := none
  hasCreateBayCall : Bool := false
deriving DecidableEq

/-- `analyzeSvelteFile`, simple generation: first `<script ...>` tag of the
document (module or not), then the first `</script>` after it; imports and
the call are only inspected when the closing tag exists. -/
def analyzeSvelteFile (content : Doc) : SvelteFileAnalysis :=
  match findScriptTag content with
  | none => {}
  | some (i, len) =>
    let contentStart := i + len
    match findSubCI closeLit (content.drop contentStart) with
    | none =>
      { hasScriptTag := true
        scriptTagStart := (i : Int)
        scriptContentStart := (contentStart : Int) }
    | some k =>
      let sc := (content.drop contentStart).take k
      let base : SvelteFileAnalysis :=
        { hasScriptTag := true
          scriptTagStart := (i : Int)
          scriptContentStart := (contentStart : Int)
          scriptContentEnd := ((contentStart + k : Nat) : Int)
          scriptTagEnd := ((contentStart + k + 9 : Nat) : Int)
          hasCreateBayCall := hasCall sc }
      match findImport sc with
      | none => base
      | some (j, len2, cap) =>
        { base with
          hasSvelteBayImport := true
          svelteBayImportLine := some ((sc.drop j).take len2)
          svelteBayImportStart := some ((contentStart + j : Nat) : Int)
          svelteBayImportEnd := some ((contentStart + j + len2 : Nat) : Int)
          hasCreateBayImport :=
            ((splitComma cap).map trimL).contains createBayLit }

/-- The synthesized complete script block of `addScriptTagWithBay` and
`createLayoutWithBay` (identical in both). -/
def scriptBlockText : Doc :=
  "<script>\n\timport \x7b createBay \x7d from \x27svelte-bay\x27;\n\n\tcreateBay();\n</script>\n\n".toList

/-- `createLayoutWithBay`: the full contents of a freshly created layout. -/
def createLayoutWithBayContent : Doc := scriptBlockText ++ "<slot />\n".toList

/-- `addScriptTagWithBay`, simple generation: prepend the synthesized block. -/
def addScriptTagWithBay (content : Doc) : Doc := scriptBlockText ++ content

/-- The fresh import line `addCreateBayImport` splices at the start of the
script content. -/
def newImportText : Doc :=
  "\n\timport \x7b createBay \x7d from \x27svelte-bay\x27;".toList

/-- The call text `addCreateBayCall` appends at the end of the script
content. -/
def callText : Doc := "\n\n\tcreateBay();\n".toList

/-- The merged import statement rebuilt by `addCreateBayImport`. -/
def mergedImportText (imps : List Doc) : Doc :=
  "import \x7b createBay".toList ++
    (if imps.length == 0 then [] else ", ".toList ++ joinCommaSp imps) ++
    " \x7d from \x27svelte-bay\x27".toList

/-- `addCreateBayImport`: either merge `createBay` into the existing
svelte-bay import (rewriting the import statement in place), or splice a
fresh import line at the beginning of the script content.  When the merge
branch fails to re-match the recorded import statement the file is not
written, i.e. the content is unchanged. -/
def addCreateBayImport (content : Doc) (analysis : SvelteFileAnalysis) : Doc :=
  match analysis.hasSvelteBayImport, analysis.svelteBayImportStart with
  | true, some is =>
    let before := jsSlice content 0 (some is)
    let importStatement := jsSlice content is analysis.svelteBayImportEnd
    let after := jsSlice content (analysis.svelteBayImportEnd.getD 0) none
    match findImport importStatement with
    | some (_, _, cap) =>
      let existingImports := trimL cap
      let imps := ((splitComma existingImports).map trimL).filter
        (fun e => !(e == createBayLit))
      before ++ mergedImportText imps ++ after
    | none => content
  | _, _ =>
    let before := jsSlice content 0 (some analysis.scriptContentStart)
    let rest := jsSlice content analysis.scriptContentStart none
    before ++ newImportText ++ rest

/-- `addCreateBayCall`: append the call at the end of the script content. -/
def addCreateBayCall (content : Doc) (analysis : SvelteFileAnalysis) : Doc :=
  let before := jsSlice content 0 (some analysis.scriptContentStart)
  let sc := jsSlice content analysis.scriptContentStart (some analysis.scriptContentEnd)
  let after := jsSlice content analysis.scriptContentEnd none
  before ++ sc ++ callText ++ after

/-- The convergence driver of `initCommand` (steps 4–7), over the simple
generation of `file-utils.ts`: create the script block when no script tag is
found; no-op when import and call are both present; otherwise add the
missing import, re-analyze, and add the missing call.  Prompts are modelled
as confirmed. -/
def initConvergence (content : Doc) : Doc :=
  let analysis := analyzeSvelteFile content
  if !analysis.hasScriptTag then addScriptTagWithBay content
  else if analysis.hasCreateBayImport && analysis.hasCreateBayCall then content
  else if !analysis.hasCreateBayImport then
    let c1 := addCreateBayImport content analysis
    let updated := analyzeSvelteFile c1
    if !updated.hasCreateBayCall then addCreateBayCall c1 updated else c1
  else addCreateBayCall content analysis

end FileUtils

/-! ## `file-utils.ts`, module-aware generation (`src/unnamed/part_001`) -/

namespace FileUtilsM

/-- The module-aware `SvelteFileAnalysis` interface (adds
`hasModuleScriptTag`). -/
structure SvelteFileAnalysis where
  hasScriptTag : Bool := false
  hasModuleScriptTag : Bool := false
  scriptTagStart : Int := -1
  scriptTagEnd : Int := -1
  scriptContentStart : Int := -1
  scriptContentEnd : Int := -1
  hasCreateBayImport : Bool := false
  hasSvelteBayImport : Bool := false
  svelteBayImportLine : Option Doc := none
  svelteBayImportStart : Option Int := none
  svelteBayImportEnd : Option Int := none
  hasCreateBayCall : Bool := false
deriving DecidableEq

/-- One iteration state of the analyzer's `while ((match = regex.exec(...)))`
loop: scan for the next script tag from `pos`; skip it if it has no closing
tag; record module scripts and keep going; stop at the first closed
non-module (instance) script.  The `fuel` argument bounds the iteration
count; each iteration advances `pos` by the tag length (at least 8), so
`content.length + 1` fuel can never be exhausted before the scan ends. -/
def analyzeLoop (content : Doc) : Nat → Nat → Bool → SvelteFileAnalysis
  | 0, _, hasMod => { hasModuleScriptTag := hasMod }
  | fuel + 1, pos, hasMod =>
    match (findScriptTag (content.drop pos)).map (fun p => (pos + p.1, p.2)) with
    | none => { hasModuleScriptTag := hasMod }
    | some (i, len) =>
      let contentStart := i + len
      match findSubCI closeLit (content.drop contentStart) with
      | none => analyzeLoop content fuel contentStart hasMod
      | some k =>
        if anyCtx ((content.drop i).take len) then
          analyzeLoop content fuel contentStart true
        else
          let sc := (content.drop contentStart).take k
          let base : SvelteFileAnalysis :=
            { hasScriptTag := true
              hasModuleScriptTag := hasMod
              scriptTagStart := (i : Int)
              scriptContentStart := (contentStart : Int)
              scriptContentEnd := ((contentStart + k : Nat) : Int)
              scriptTagEnd := ((contentStart + k + 9 : Nat) : Int)
              hasCreateBayCall := hasCall sc }
          match findImport sc with
          | none => base
          | some (j, len2, cap) =>
            { base with
              hasSvelteBayImport := true
              svelteBayImportLine := some ((sc.drop j).take len2)
              svelteBayImportStart := some ((contentStart + j : Nat) : Int)
              svelteBayImportEnd := some ((contentStart + j + len2 : Nat) : Int)
              hasCreateBayImport :=
                ((splitComma cap).map trimL).contains createBayLit }

/-- `analyzeSvelteFile`, module-aware generation. -/
def analyzeSvelteFile (content : Doc) : SvelteFileAnalysis :=
  analyzeLoop content (content.length + 1) 0 false

/-- `addScriptTagWithBay`, module-aware generation: insert the instance
script after the first module block when one matches, else prepend. -/
def addScriptTagWithBay (content : Doc) : Doc :=
  match findModuleBlock content with
  | some (i, len) =>
    content.take (i + len) ++ "\n\n".toList ++ FileUtils.scriptBlockText ++
      trimStartL (content.drop (i + len))
  | none => FileUtils.scriptBlockText ++ content

/-- `addCreateBayImport`, module-aware generation (same text surgery as the
simple generation). -/
def addCreateBayImport (content : Doc) (analysis : SvelteFileAnalysis) : Doc :=
  match analysis.hasSvelteBayImport, analysis.svelteBayImportStart with
  | true, some is =>
    let before := jsSlice content 0 (some is)
    let importStatement := jsSlice content is analysis.svelteBayImportEnd
    let after := jsSlice content (analysis.svelteBayImportEnd.getD 0) none
    match findImport importStatement with
    | some (_, _, cap) =>
      let existingImports := trimL cap
      let imps := ((splitComma existingImports).map trimL).filter
        (fun e => !(e == createBayLit))
      before ++ FileUtils.mergedImportText imps ++ after
    | none => content
  | _, _ =>
    let before := jsSlice content 0 (some analysis.scriptContentStart)
    let rest := jsSlice content analysis.scriptContentStart none
    before ++ FileUtils.newImportText ++ rest

/-- `addCreateBayCall`, module-aware generation. -/
def addCreateBayCall (content : Doc) (analysis : SvelteFileAnalysis) : Doc :=
  let before := jsSlice content 0 (some analysis.scriptContentStart)
  let sc := jsSlice content analysis.scriptContentStart (some analysis.scriptContentEnd)
  let after := jsSlice content analysis.scriptContentEnd none
  before ++ sc ++ FileUtils.callText ++ after

/-- The convergence driver of the current `initCommand` (steps 4–7) over the
module-aware generation; prompts modelled as confirmed. -/
def initConvergence (content : Doc) : Doc :=
  let analysis := analyzeSvelteFile content
  if !analysis.hasScriptTag then addScriptTagWithBay content
  else if analysis.hasCreateBayImport && analysis.hasCreateBayCall then content
  else if !analysis.hasCreateBayImport then
    let c1 := addCreateBayImport content analysis
    let updated := analyzeSvelteFile c1
    if !updated.hasCreateBayCall then addCreateBayCall c1 updated else c1
  else addCreateBayCall content analysis

end FileUtilsM

/-! ## The vite-config plugin injector (`addVitePlugin` in `file-utils.ts`,
identical in both generations) -/

namespace Vite

def vipLit : Doc := "svelte-bay/vite".toList

/-- Match of `from\s+['"]svelte-bay\/vite['"]` anchored at the start. -/
def vipFromHere (s : Doc) : Bool :=
  if prefixCS fromLit s then
    let r := s.drop 4
    let w := wsCount r
    if w == 0 then false else
    match r.drop w with
    | q :: r2 =>
      isQuoteChar q && prefixCS vipLit r2 &&
        (match r2.drop 15 with
         | q2 :: _ => isQuoteChar q2
         | [] => false)
    | [] => false
  else false

/-- The `.*from\s+...` part of `/import.*from\s+['"]svelte-bay\/vite['"]/`:
scan forward through non-line-terminator characters for the `from` part. -/
def vipDotScan : Doc → Bool
  | [] => false
  | l@(c :: rest) => vipFromHere l || (!(c == '\n') && !(c == '\r') && vipDotScan rest)

/-- `.test` of the svelte-bay/vite import-presence regex. -/
def hasVipImport : Doc → Bool
  | [] => false
  | l@(_ :: rest) =>
    (prefixCS importLit l && vipDotScan (l.drop 6)) || hasVipImport rest

/-- Match of `from\s+.+;` reaching exactly the end of the line whose tail is
`s` (for `/^import\s+.+from\s+.+;$/`):  after `from` and mandatory
whitespace there must remain at least two characters ending in `;`. -/
def fromCheckHere (s : Doc) : Bool :=
  if prefixCS fromLit s then
    let r := s.drop 4
    let w := wsCount r
    if w == 0 then false else
    let u := r.drop w
    decide (2 ≤ u.length) &&
      (match u.getLast? with
       | some c => c == ';'
       | none => false)
  else false

/-- Scan all positions of the line tail for the `from\s+.+;` part. -/
def fromScan : Doc → Bool
  | [] => false
  | l@(_ :: rest) => fromCheckHere l || fromScan rest

/-- Whether a whole line matches `/^import\s+.+from\s+.+;$/`: starts with
`import`, has whitespace at index 6, and a `from`-split at some index ≥ 8
(one mandatory whitespace and one mandatory `.+` character before `from`). -/
def importLineQualifies (L : Doc) : Bool :=
  prefixCS importLit L &&
    (match L.drop 6 with
     | c :: _ => isWsChar c
     | [] => false) &&
    fromScan (L.drop 8)

/-- Split a document into `(absolute start, line)` records at `\n`/`\r`
(the JS multiline `^`/`$` boundaries). -/
def lineRecords : Doc → Nat → List (Nat × Doc)
  | [], i => [(i, [])]
  | c :: rest, i =>
    if c == '\n' || c == '\r' then
      (i, []) :: lineRecords rest (i + 1)
    else
      match lineRecords rest (i + 1) with
      | (_, L) :: t => (i, c :: L) :: t
      | [] => [(i, [c])]

/-- The inserted import statement (after an existing import). -/
def vipInsertText : Doc :=
  "\nimport \x7b svelteBay \x7d from \x27svelte-bay/vite\x27;".toList

/-- The inserted import statement (at the top, when no import lines exist). -/
def vipTopText : Doc :=
  "import \x7b svelteBay \x7d from \x27svelte-bay/vite\x27;\n".toList

/-- The import half of `addVitePlugin`: if no svelte-bay/vite import is
present, splice the import statement after the last line matching
`/^import\s+.+from\s+.+;$/m`, or at the top when there is none. -/
def importStep (content : Doc) : Doc :=
  if hasVipImport content then content
  else
    match ((lineRecords content 0).filter (fun r => importLineQualifies r.2)).getLast? with
    | some (st, L) =>
      let ip := st + L.length
      content.take ip ++ vipInsertText ++ content.drop ip
    | none => vipTopText ++ content

def pluginsLit : Doc := "plugins:".toList

/-- Match of `/plugins:\s*\[([\s\S]*?)\]/` anchored at the start of `s`:
returns `(match length, offset just past the bracket, capture)`. -/
def pluginsHere (s : Doc) : Option (Nat × Nat × Doc) :=
  if prefixCS pluginsLit s then
    let r := s.drop 8
    let w := wsCount r
    match r.drop w with
    | c :: r2 =>
      if c == '[' then
        match findCharL ']' r2 with
        | some k => some (8 + w + 1 + k + 1, 8 + w + 1, r2.take k)
        | none => none
      else none
    | [] => none
  else none

/-- First match of the plugins-array regex. -/
def findPlugins (s : Doc) : Option (Nat × Nat × Nat × Doc) :=
  scanL pluginsHere s

def svelteBayCallText : Doc := "svelteBay()".toList

/-- `addVitePlugin`: run the import step, then, if a `plugins: [...]` array
is found, insert `svelteBay()` just before its closing bracket, with a
separating `, ` exactly when the trimmed existing content is non-empty and
contains a `)`.  When no plugins array is found only the import step
applies. -/
def addVitePlugin (content : Doc) : Doc :=
  let c1 := importStep content
  match findPlugins c1 with
  | none => c1
  | some (i, tot, _innerOff, inner) =>
    let trimmed := trimL inner
    let toAdd : Doc :=
      if trimmed.isEmpty then svelteBayCallText
      else if (lastIndexOfChar ')' trimmed).isSome
        then ", ".toList ++ svelteBayCallText
        else svelteBayCallText
    c1.take (i + tot - 1) ++ toAdd ++ c1.drop (i + tot - 1)

end Vite

/-- The plain instance script tag, for schematic documents in statements. -/
def plainTag : Doc := "<script>".toList

/-- The module script tag used in schematic documents. -/
def moduleTagText : Doc := "<script context=\"module\">".toList

/-- A text segment containing no `<` at all (case-insensitively, as the
matchers compare): no script-tag, closing-tag or module-block match can
start inside it. -/
def noTagStart (s : Doc) : Bool := s.all (fun ch => !(charCI '<' ch))

/-- A symbol token as the merge step of `addCreateBayImport` handles it:
free of commas (so the rebuilt statement's `split(',')` boundaries are its
literal commas) and free of closing braces (so the `[^\x7d]+` capture of a
re-match stops at the rebuilt closing brace). -/
def symbolClean (s : Doc) : Bool := s.all (fun ch => !(ch == ',') && !(ch == '\x7d'))

/-- `mergedImportText [A, B]` with its appends right-associated, the shape
the character scanners consume. -/
def mergedTwo (A B : Doc) : Doc :=
  "import \x7b createBay, ".toList ++
    (A ++ (", ".toList ++ (B ++ " \x7d from \x27svelte-bay\x27".toList)))

/-- The phase of `importHere` that runs once `import`, the whitespace and
the opening brace have been consumed, leaving suffix `s2`, and the closing
brace has been located at index `k` of `s2`; `s3` is `s2.drop (k + 1)`. -/
def importHereTail (s2 : Doc) (k : Nat) (s3 : Doc) : Option (Nat × Doc) :=
  let w2 := wsCount s3
  if w2 == 0 then none else
  let s4 := s3.drop w2
  if prefixCS fromLit s4 then
    let s5 := s4.drop 4
    let w3 := wsCount s5
    if w3 == 0 then none else
    match s5.drop w3 with
    | q1 :: s6 =>
      if isQuoteChar q1 then
        if prefixCS svelteBayLit s6 then
          match s6.drop 10 with
          | q2 :: _ =>
            if isQuoteChar q2 then
              some (6 + 1 + 1 + k + 1 + w2 + 4 + w3 + 1 + 10 + 1, s2.take k)
            else none
          | [] => none
        else none
      else none
    | [] => none
  else none

/-- The suffix of `mergedTwo A B` that follows its opening brace. -/
def mergedTwoS2 (A B : Doc) : Doc :=
  " createBay, ".toList ++ (A ++ (", ".toList ++ (B ++ " \x7d from \x27svelte-bay\x27".toList)))

/-- The continuation of `importHere` on `mergedTwo A B` once the closing
brace of the capture has been located at index `k`. -/
def importHereCont (A B : Doc) (k : Nat) : Option (Nat × Doc) :=
  if k == 0 then none else
    importHereTail (mergedTwoS2 A B) k ((mergedTwoS2 A B).drop (k + 1))

/-- No close-tag occurrence fits inside any window of `s`. -/
def closeFreeIn (s : Doc) : Prop :=
  ∀ q, q + 9 ≤ s.length → prefixCI closeLit (s.drop q) = false

/-- The positional content of a successful svelte-bay import-regex match. -/
def ImportHereSpec (s : Doc) (L : Nat) (cap : Doc) (w1 kk w2 w3 : Nat) : Prop :=
  prefixCS importLit s = true ∧
  wsCount (s.drop 6) = w1 ∧ 1 ≤ w1 ∧
  s[6 + w1]? = some '\x7b' ∧
  findCharL '\x7d' (s.drop (7 + w1)) = some kk ∧ 1 ≤ kk ∧
  wsCount (s.drop (8 + w1 + kk)) = w2 ∧ 1 ≤ w2 ∧
  prefixCS fromLit (s.drop (8 + w1 + kk + w2)) = true ∧
  wsCount (s.drop (12 + w1 + kk + w2)) = w3 ∧ 1 ≤ w3 ∧
  (∃ q1, s[12 + w1 + kk + w2 + w3]? = some q1 ∧ isQuoteChar q1 = true) ∧
  prefixCS svelteBayLit (s.drop (13 + w1 + kk + w2 + w3)) = true ∧
  (∃ q2, s[23 + w1 + kk + w2 + w3]? = some q2 ∧ isQuoteChar q2 = true) ∧
  L = 24 + w1 + kk + w2 + w3 ∧ cap = (s.drop (7 + w1)).take kk

/-- The capture region of the rebuilt import statement. -/
def mergedCap (imps : List Doc) : Doc :=
  if imps.isEmpty then " createBay ".toList
  else " createBay, ".toList ++ (joinCommaSp imps ++ [' '])

/-! ## General lemmas about the scanners -/

theorem scanL_eq_some_iff {α : Type} (f : Doc → Option α) (s : Doc) (p : Nat) (a : α) :
    scanL f s = some (p, a) ↔
      p ≤ s.length ∧ (∀ q < p, f (s.drop q) = none) ∧ f (s.drop p) = some a := by
  induction s generalizing p with
  | nil =>
    simp only [scanL, List.drop_nil, Option.map_eq_some', List.length_nil]
    constructor
    · rintro ⟨b, hb, he⟩
      obtain ⟨he1, he2⟩ := Prod.mk.injEq .. ▸ he
      subst he1 he2
      exact ⟨Nat.le_refl 0, by omega, hb⟩
    · rintro ⟨hp, _, hf⟩
      have : p = 0 := Nat.le_zero.mp hp
      subst this
      exact ⟨a, hf, rfl⟩
  | cons c rest ih =>
    simp only [scanL]
    cases hf : f (c :: rest) with
    | some b =>
      constructor
      · rintro h
        obtain ⟨h1, h2⟩ := Prod.mk.injEq .. ▸ Option.some.injEq .. ▸ h
        subst h1 h2
        exact ⟨Nat.zero_le _, by omega, hf⟩
      · rintro ⟨hp, hq, hfp⟩
        cases p with
        | zero => simp only [List.drop] at hfp; rw [hf] at hfp; rw [hfp]
        | succ p' =>
          have := hq 0 (Nat.succ_pos _)
          simp only [List.drop] at this
          rw [hf] at this
          cases this
    | none =>
      simp only [Option.map_eq_some']
      constructor
      · rintro ⟨⟨p', a'⟩, hb, he⟩
        obtain ⟨he1, he2⟩ := Prod.mk.injEq .. ▸ he
        subst he1 he2
        obtain ⟨h1, h2, h3⟩ := (ih p').mp hb
        refine ⟨by simpa using Nat.succ_le_succ h1, ?_, h3⟩
        intro q hq
        cases q with
        | zero => simpa using hf
        | succ q' => exact h2 q' (Nat.lt_of_succ_lt_succ hq)
      · rintro ⟨hp, hq, hfp⟩
        cases p with
        | zero => simp only [List.drop] at hfp; rw [hf] at hfp; cases hfp
        | succ p' =>
          refine ⟨(p', a), (ih p').mpr ⟨by simpa using hp, ?_, hfp⟩, rfl⟩
          intro q hqlt
          exact hq (q + 1) (Nat.succ_lt_succ hqlt)

theorem scanL_eq_none_iff {α : Type} (f : Doc → Option α) (s : Doc) :
    scanL f s = none ↔ ∀ q, f (s.drop q) = none := by
  induction s with
  | nil =>
    simp only [scanL, Option.map_eq_none', List.drop_nil]
    exact ⟨fun h _ => h, fun h => h 0⟩
  | cons c rest ih =>
    simp only [scanL]
    cases hf : f (c :: rest) with
    | some b =>
      constructor
      · intro h
        cases h
      · intro h
        have := h 0
        simp only [List.drop] at this
        rw [hf] at this
        cases this
    | none =>
      simp only [Option.map_eq_none']
      rw [ih]
      constructor
      · intro h q
        cases q with
        | zero => simpa using hf
        | succ q' => exact h q'
      · intro h q
        exact h (q + 1)

theorem prefixCS_length_le {p s : Doc} (h : prefixCS p s = true) : p.length ≤ s.length := by
  induction p generalizing s with
  | nil => simp
  | cons x ps ih =>
    cases s with
    | nil => simp [prefixCS] at h
    | cons c cs =>
      simp only [prefixCS, Bool.and_eq_true] at h
      simpa using ih h.2

theorem prefixCI_length_le {p s : Doc} (h : prefixCI p s = true) : p.length ≤ s.length := by
  induction p generalizing s with
  | nil => simp
  | cons x ps ih =>
    cases s with
    | nil => simp [prefixCI] at h
    | cons c cs =>
      simp only [prefixCI, Bool.and_eq_true] at h
      simpa using ih h.2

theorem prefixCS_append (p a b : Doc) :
    prefixCS p (a ++ b) =
      (prefixCS (p.take a.length) a && prefixCS (p.drop a.length) b) := by
  induction p generalizing a with
  | nil => simp [prefixCS]
  | cons x ps ih =>
    cases a with
    | nil => simp [prefixCS]
    | cons y as =>
      simp only [List.cons_append, prefixCS, List.take, List.drop]
      cases x == y with
      | false => simp
      | true => simpa using ih as

theorem prefixCI_append (p a b : Doc) :
    prefixCI p (a ++ b) =
      (prefixCI (p.take a.length) a && prefixCI (p.drop a.length) b) := by
  induction p generalizing a with
  | nil => simp [prefixCI]
  | cons x ps ih =>
    cases a with
    | nil => simp [prefixCI]
    | cons y as =>
      simp only [List.cons_append, prefixCI, List.take, List.drop]
      cases charCI x y with
      | false => simp
      | true => simpa using ih as

theorem prefixCS_append_of_le {p a : Doc} (b : Doc) (h : p.length ≤ a.length) :
    prefixCS p (a ++ b) = prefixCS p a := by
  rw [prefixCS_append, List.take_of_length_le h, List.drop_eq_nil_of_le h]
  simp [prefixCS]

theorem prefixCI_append_of_le {p a : Doc} (b : Doc) (h : p.length ≤ a.length) :
    prefixCI p (a ++ b) = prefixCI p a := by
  rw [prefixCI_append, List.take_of_length_le h, List.drop_eq_nil_of_le h]
  simp [prefixCI]

theorem wsCount_append_of_lt {a : Doc} (b : Doc) (h : wsCount a < a.length) :
    wsCount (a ++ b) = wsCount a := by
  induction a with
  | nil => simp at h
  | cons c rest ih =>
    cases hw : isWsChar c with
    | false => simp [wsCount, hw]
    | true =>
      have h' : wsCount rest < rest.length := by
        simp only [wsCount, hw, if_true, List.length_cons] at h
        omega
      simp [wsCount, hw, ih h']

theorem wsCount_append_of_all {a : Doc} (b : Doc) (h : ∀ ch ∈ a, isWsChar ch = true) :
    wsCount (a ++ b) = a.length + wsCount b := by
  induction a with
  | nil => simp
  | cons c rest ih =>
    have hc : isWsChar c = true := h c (by simp)
    have hr := ih (fun ch hch => h ch (by simp [hch]))
    simp only [List.cons_append, wsCount, hc, if_true, List.length_cons, List.append_eq]
    rw [hr]
    omega

theorem wsCount_le_length (a : Doc) : wsCount a ≤ a.length := by
  induction a with
  | nil => simp [wsCount]
  | cons c rest ih =>
    simp only [wsCount, List.length_cons]
    cases isWsChar c with
    | false => simp
    | true => simpa using ih

theorem findCharL_append_of_some {ch : Char} {a : Doc} {k : Nat} (b : Doc)
    (h : findCharL ch a = some k) : findCharL ch (a ++ b) = some k := by
  induction a generalizing k with
  | nil => simp [findCharL] at h
  | cons c rest ih =>
    cases hc : c == ch with
    | true =>
      simp only [findCharL, hc, if_true] at h
      simpa only [List.cons_append, findCharL, hc, if_true] using h
    | false =>
      simp only [findCharL, hc, Bool.false_eq_true, if_false, Option.map_eq_some'] at h
      obtain ⟨k', hk', he⟩ := h
      simp only [List.cons_append, findCharL, hc, Bool.false_eq_true, if_false, Option.map_eq_some']
      exact ⟨k', ih hk', he⟩

theorem findCharL_append_of_none {ch : Char} {a : Doc} (b : Doc)
    (h : findCharL ch a = none) :
    findCharL ch (a ++ b) = (findCharL ch b).map (· + a.length) := by
  induction a with
  | nil => simp [Option.map_id']
  | cons c rest ih =>
    cases hc : c == ch with
    | true => simp [findCharL, hc] at h
    | false =>
      simp only [findCharL, hc, Bool.false_eq_true, if_false, Option.map_eq_none'] at h
      have hr := ih h
      simp only [List.cons_append, findCharL, hc, Bool.false_eq_true, if_false, List.append_eq] at hr ⊢
      rw [hr]
      cases findCharL ch b with
      | none => simp
      | some k =>
        simp only [Option.map_some', List.length_cons]
        exact congrArg some (by omega)

theorem findCharL_eq_none_iff {ch : Char} {a : Doc} :
    findCharL ch a = none ↔ ∀ c ∈ a, (c == ch) = false := by
  induction a with
  | nil => simp [findCharL]
  | cons c rest ih =>
    cases hc : c == ch with
    | true =>
      constructor
      · intro h
        simp [findCharL, hc] at h
      · intro h
        exact absurd (h c (by simp)) (by simp [hc])
    | false =>
      simp only [findCharL, hc, Bool.false_eq_true, if_false, Option.map_eq_none']
      rw [ih]
      constructor
      · intro h c' hm
        rcases List.mem_cons.mp hm with he | hm'
        · rw [he]; exact hc
        · exact h c' hm'
      · intro h c' hm
        exact h c' (by simp [hm])

theorem findCharL_lt_length {ch : Char} {a : Doc} {k : Nat}
    (h : findCharL ch a = some k) : k < a.length := by
  induction a generalizing k with
  | nil => simp [findCharL] at h
  | cons c rest ih =>
    cases hc : c == ch with
    | true =>
      simp only [findCharL, hc, if_true, Option.some.injEq] at h
      subst h
      simp
    | false =>
      simp only [findCharL, hc, Bool.false_eq_true, if_false, Option.map_eq_some'] at h
      obtain ⟨k', hk', he⟩ := h
      subst he
      simpa using Nat.succ_lt_succ (ih hk')

/-- Reformulation of `findSubCI` occurrences through `scanL`. -/
theorem findSubCI_eq_some_iff (pat s : Doc) (k : Nat) :
    findSubCI pat s = some k ↔
      k ≤ s.length ∧ (∀ q < k, prefixCI pat (s.drop q) = false) ∧
        prefixCI pat (s.drop k) = true := by
  simp only [findSubCI, Option.map_eq_some']
  constructor
  · rintro ⟨⟨p, u⟩, hp, he⟩
    simp only at he
    subst he
    obtain ⟨h1, h2, h3⟩ := (scanL_eq_some_iff _ _ _ _).mp hp
    refine ⟨h1, fun q hq => ?_, ?_⟩
    · have := h2 q hq
      by_contra hc
      simp only [Bool.not_eq_false] at hc
      simp [hc] at this
    · by_contra hc
      simp only [Bool.not_eq_true] at hc
      simp [hc] at h3
  · rintro ⟨h1, h2, h3⟩
    refine ⟨(k, ()), (scanL_eq_some_iff _ _ _ _).mpr ⟨h1, fun q hq => ?_, by simp [h3]⟩, rfl⟩
    simp [h2 q hq]

theorem findSubCI_eq_none_iff (pat s : Doc) :
    findSubCI pat s = none ↔ ∀ q, prefixCI pat (s.drop q) = false := by
  simp only [findSubCI, Option.map_eq_none', scanL_eq_none_iff]
  constructor
  · intro h q
    have := h q
    by_contra hc
    simp only [Bool.not_eq_false] at hc
    simp [hc] at this
  · intro h q
    simp [h q]

theorem drop_append_ge (a b : Doc) (q : Nat) (h : a.length ≤ q) :
    (a ++ b).drop q = b.drop (q - a.length) := by
  conv_lhs => rw [show q = a.length + (q - a.length) from by omega]
  rw [List.drop_append]

theorem findSubCI_append_of_some {pat a : Doc} {k : Nat} (b : Doc)
    (h : findSubCI pat a = some k) : findSubCI pat (a ++ b) = some k := by
  obtain ⟨h1, h2, h3⟩ := (findSubCI_eq_some_iff pat a k).mp h
  have hfit : k + pat.length ≤ a.length := by
    have := prefixCI_length_le h3
    simp only [List.length_drop] at this
    omega
  refine (findSubCI_eq_some_iff pat (a ++ b) k).mpr ⟨by simp; omega, fun q hq => ?_, ?_⟩
  · rw [List.drop_append_of_le_length (by omega)]
    rw [prefixCI_append_of_le b (by simp only [List.length_drop]; omega)]
    exact h2 q hq
  · rw [List.drop_append_of_le_length (by omega)]
    rw [prefixCI_append_of_le b (by simp only [List.length_drop]; omega)]
    exact h3

/-- Shift lemma for `findSubCI` over an append whose left part admits no
(possibly boundary-crossing) occurrence. -/
theorem findSubCI_append_shift {pat a : Doc} (b : Doc)
    (h : ∀ i < a.length, prefixCI pat (a.drop i ++ b) = false) :
    findSubCI pat (a ++ b) = (findSubCI pat b).map (· + a.length) := by
  cases hb : findSubCI pat b with
  | none =>
    rw [findSubCI_eq_none_iff] at hb
    simp only [Option.map_none']
    rw [findSubCI_eq_none_iff]
    intro q
    rcases Nat.lt_or_ge q a.length with hq | hq
    · rw [List.drop_append_of_le_length (Nat.le_of_lt hq)]
      exact h q hq
    · rw [drop_append_ge a b q hq]
      exact hb (q - a.length)
  | some k =>
    obtain ⟨h1, h2, h3⟩ := (findSubCI_eq_some_iff pat b k).mp hb
    simp only [Option.map_some']
    refine (findSubCI_eq_some_iff pat (a ++ b) (k + a.length)).mpr
      ⟨by simp; omega, fun q hq => ?_, ?_⟩
    · rcases Nat.lt_or_ge q a.length with hqa | hqa
      · rw [List.drop_append_of_le_length (Nat.le_of_lt hqa)]
        exact h q hqa
      · rw [drop_append_ge a b q hqa]
        exact h2 (q - a.length) (by omega)
    · rw [drop_append_ge a b (k + a.length) (by omega)]
      simpa using h3

/-! ## Structural facts about the analyzers -/

/-- In the module-aware analyzer loop, `hasCreateBayImport` can only be set
in the instance-script branch, which also sets `hasScriptTag`. -/
theorem analyzeLoopM_script_of_import (content : Doc) :
    ∀ (fuel pos : Nat) (hm : Bool),
      (FileUtilsM.analyzeLoop content fuel pos hm).hasCreateBayImport = true →
      (FileUtilsM.analyzeLoop content fuel pos hm).hasScriptTag = true := by
  intro fuel
  induction fuel with
  | zero =>
    intro pos hm h
    exact absurd h (by simp [FileUtilsM.analyzeLoop])
  | succ n ih =>
    intro pos hm h
    revert h
    unfold FileUtilsM.analyzeLoop
    repeat' (first | split | dsimp only)
    all_goals intro h
    all_goals first
      | exact ih _ _ h
      | rfl
      | trivial

/-- Claim C6: if analyzing a document reports `hasCreateBayImport` and
`hasCreateBayCall` both true, the convergence driver performs zero
mutations: its output equals the input byte-for-byte. -/
theorem initConvergenceM_noop (d : Doc)
    (h1 : (FileUtilsM.analyzeSvelteFile d).hasCreateBayImport = true)
    (h2 : (FileUtilsM.analyzeSvelteFile d).hasCreateBayCall = true) :
    FileUtilsM.initConvergence d = d := by
  have hs : (FileUtilsM.analyzeSvelteFile d).hasScriptTag = true :=
    analyzeLoopM_script_of_import d (d.length + 1) 0 false h1
  simp only [FileUtilsM.initConvergence, hs, h1, h2, Bool.not_true, Bool.false_eq_true,
    if_false, Bool.and_self, if_true]

/-- Witness for C6 at a concrete fully-initialized layout. -/
theorem initConvergenceM_noop_witness :
    FileUtilsM.initConvergence
        "<script>\n\timport \x7b createBay \x7d from \x27svelte-bay\x27;\n\n\tcreateBay();\n</script>\n".toList =
      "<script>\n\timport \x7b createBay \x7d from \x27svelte-bay\x27;\n\n\tcreateBay();\n</script>\n".toList :=
  initConvergenceM_noop _ (by decide) (by decide)

/-- Claim C7: analyzing the output of the block-creation mutations on an
empty document reports all four facts true: `addScriptTagWithBay []` and the
`createLayoutWithBay` template both analyze to a fully-initialized state. -/
theorem blockCreation_completeness :
    ((FileUtils.analyzeSvelteFile (FileUtils.addScriptTagWithBay [])).hasScriptTag = true ∧
     (FileUtils.analyzeSvelteFile (FileUtils.addScriptTagWithBay [])).hasSvelteBayImport = true ∧
     (FileUtils.analyzeSvelteFile (FileUtils.addScriptTagWithBay [])).hasCreateBayImport = true ∧
     (FileUtils.analyzeSvelteFile (FileUtils.addScriptTagWithBay [])).hasCreateBayCall = true) ∧
    ((FileUtils.analyzeSvelteFile FileUtils.createLayoutWithBayContent).hasScriptTag = true ∧
     (FileUtils.analyzeSvelteFile FileUtils.createLayoutWithBayContent).hasSvelteBayImport = true ∧
     (FileUtils.analyzeSvelteFile FileUtils.createLayoutWithBayContent).hasCreateBayImport = true ∧
     (FileUtils.analyzeSvelteFile FileUtils.createLayoutWithBayContent).hasCreateBayCall = true) := by
  decide

/-- The analyzer on a document with no script-tag match: the untouched
initial report. -/
theorem analyzeS_of_no_tag (d : Doc) (h : findScriptTag d = none) :
    FileUtils.analyzeSvelteFile d = {} := by
  unfold FileUtils.analyzeSvelteFile
  rw [h]

/-- The analyzer on a document whose first script tag has no closing tag:
only the opening-tag facts are populated. -/
theorem analyzeS_no_close_aux (d : Doc) (p ℓ : Nat)
    (h1 : findScriptTag d = some (p, ℓ))
    (h2 : findSubCI closeLit (d.drop (p + ℓ)) = none) :
    FileUtils.analyzeSvelteFile d =
      { hasScriptTag := true
        scriptTagStart := (p : Int)
        scriptContentStart := ((p + ℓ : Nat) : Int) } := by
  unfold FileUtils.analyzeSvelteFile
  rw [h1]
  dsimp only
  rw [h2]

/-- Claim C10: on a document whose first `<script ...>` tag has no matching
`</script>`, the analyzer reports `hasScriptTag = true` with the tag-start
and content-start offsets set, while `scriptContentEnd` and `scriptTagEnd`
stay `-1` and every import/call fact stays false/absent — the
partially-populated report downstream mutations receive. -/
theorem analyzeS_dangling_script (d : Doc) (p ℓ : Nat)
    (h1 : findScriptTag d = some (p, ℓ))
    (h2 : findSubCI closeLit (d.drop (p + ℓ)) = none) :
    FileUtils.analyzeSvelteFile d =
      { hasScriptTag := true
        scriptTagStart := (p : Int)
        scriptContentStart := ((p + ℓ : Nat) : Int) } :=
  analyzeS_no_close_aux d p ℓ h1 h2

/-- Witness for C10 at the concrete document `<script>`. -/
theorem analyzeS_dangling_script_witness :
    FileUtils.analyzeSvelteFile "<script>".toList =
      { hasScriptTag := true
        scriptTagStart := ((0 : Nat) : Int)
        scriptContentStart := ((0 + 8 : Nat) : Int) } :=
  analyzeS_dangling_script "<script>".toList 0 8 (by decide) (by decide)

/-- Counterexample to claim C5 as stated: the input `<script>` is malformed
(an opening tag with no closing tag — one of the claim's own cases), yet the
report has the boolean fact `hasScriptTag = true` and present (non-`-1`)
offsets `scriptTagStart`/`scriptContentStart`, not the all-false/absent
report the claim asserts. -/
theorem analyzeS_malformed_counterexample :
    (FileUtils.analyzeSvelteFile "<script>".toList).hasScriptTag = true ∧
    (FileUtils.analyzeSvelteFile "<script>".toList).scriptTagStart ≠ -1 ∧
    (FileUtils.analyzeSvelteFile "<script>".toList).scriptContentStart ≠ -1 := by
  decide

/-- Claim C5, amended: the analyzer is total (it is a Lean function), and
degrades per construct: a document with no script-tag match yields the
all-false/absent report, and a document whose first script tag has no
closing tag yields a report whose import/call facts are all false, whose
content-end offsets stay `-1`, and whose optional import fields stay
absent (only the facts about the found opening tag are populated). -/
theorem analyzeS_degrades_per_construct :
    (∀ d : Doc, findScriptTag d = none → FileUtils.analyzeSvelteFile d = {}) ∧
    (∀ (d : Doc) (p ℓ : Nat), findScriptTag d = some (p, ℓ) →
      findSubCI closeLit (d.drop (p + ℓ)) = none →
      ((FileUtils.analyzeSvelteFile d).hasCreateBayImport = false ∧
       (FileUtils.analyzeSvelteFile d).hasSvelteBayImport = false ∧
       (FileUtils.analyzeSvelteFile d).hasCreateBayCall = false ∧
       (FileUtils.analyzeSvelteFile d).scriptContentEnd = -1 ∧
       (FileUtils.analyzeSvelteFile d).scriptTagEnd = -1 ∧
       (FileUtils.analyzeSvelteFile d).svelteBayImportLine = none ∧
       (FileUtils.analyzeSvelteFile d).svelteBayImportStart = none ∧
       (FileUtils.analyzeSvelteFile d).svelteBayImportEnd = none)) := by
  constructor
  · exact analyzeS_of_no_tag
  · intro d p ℓ h1 h2
    rw [analyzeS_no_close_aux d p ℓ h1 h2]
    exact ⟨rfl, rfl, rfl, rfl, rfl, rfl, rfl, rfl⟩

/-- Witness for the amended C5 at two concrete malformed inputs. -/
theorem analyzeS_degrades_witness :
    FileUtils.analyzeSvelteFile "<p>x</p>".toList = {} ∧
    (FileUtils.analyzeSvelteFile "<script>".toList).hasCreateBayImport = false :=
  ⟨analyzeS_degrades_per_construct.1 "<p>x</p>".toList (by decide),
   (analyzeS_degrades_per_construct.2 "<script>".toList 0 8 (by decide) (by decide)).1⟩

set_option maxRecDepth 100000 in
/-- Claim C8: the config injector on a document with an empty plugins list
and no svelte-bay/vite import inserts exactly one import line and
`plugins: [svelteBay()]` with no comma; on a document with
`plugins: [a(), b()]` it produces `plugins: [a(), b(), svelteBay()]` with
exactly one inserted comma.  Both stated as full-output equalities. -/
theorem addVitePlugin_scenarios :
    Vite.addVitePlugin
        "export default defineConfig(\x7b\n\tplugins: []\n\x7d);\n".toList =
      "import \x7b svelteBay \x7d from \x27svelte-bay/vite\x27;\nexport default defineConfig(\x7b\n\tplugins: [svelteBay()]\n\x7d);\n".toList ∧
    Vite.addVitePlugin
        "import \x7b sveltekit \x7d from \x27@sveltejs/kit/vite\x27;\n\nexport default defineConfig(\x7b\n\tplugins: [sveltekit(), enhancedImages()]\n\x7d);\n".toList =
      "import \x7b sveltekit \x7d from \x27@sveltejs/kit/vite\x27;\nimport \x7b svelteBay \x7d from \x27svelte-bay/vite\x27;\n\nexport default defineConfig(\x7b\n\tplugins: [sveltekit(), enhancedImages(), svelteBay()]\n\x7d);\n".toList := by
  decide

/-- The first line record starts at the argument offset. -/
theorem lineRecords_head_start (s : Doc) (i : Nat) :
    ∃ L t, Vite.lineRecords s i = (i, L) :: t := by
  cases s with
  | nil => exact ⟨[], [], rfl⟩
  | cons c rest =>
    rw [Vite.lineRecords]
    cases hc : c == '\n' || c == '\r' with
    | true => exact ⟨[], Vite.lineRecords rest (i + 1), by simp [hc]⟩
    | false =>
      obtain ⟨L', t', h'⟩ := lineRecords_head_start rest (i + 1)
      refine ⟨c :: L', t', ?_⟩
      simp [hc, h']

/-- Every line record lies inside the document: start plus line length is
bounded by the scan offset plus the document length. -/
theorem lineRecords_bound (s : Doc) (i : Nat) :
    ∀ r ∈ Vite.lineRecords s i, r.1 + r.2.length ≤ i + s.length := by
  induction s generalizing i with
  | nil =>
    intro r hr
    simp only [Vite.lineRecords, List.mem_singleton] at hr
    subst hr
    simp
  | cons c rest ih =>
    intro r hr
    rw [Vite.lineRecords] at hr
    cases hc : c == '\n' || c == '\r' with
    | true =>
      simp only [hc, if_true, List.mem_cons] at hr
      rcases hr with he | hm
      · subst he; simp
      · have := ih (i + 1) r hm
        simp only [List.length_cons]
        omega
    | false =>
      obtain ⟨L', t', h'⟩ := lineRecords_head_start rest (i + 1)
      simp only [hc, Bool.false_eq_true, if_false, h', List.mem_cons] at hr
      rcases hr with he | hm
      · subst he
        have := ih (i + 1) (i + 1, L') (by rw [h']; simp)
        simp only [List.length_cons] at *
        omega
      · have := ih (i + 1) r (by rw [h']; simp [hm])
        simp only [List.length_cons]
        omega

/-- Claim C9: when no `plugins: [...]` field can be located (in the content
after the import step), `addVitePlugin` performs only the import step and
returns normally: the output equals the import-step output; if the
svelte-bay/vite import is already present the document is untouched, and
otherwise the output is the document with exactly one import statement
spliced in at one position, the rest byte-for-byte unchanged. -/
theorem addVitePlugin_degraded (c : Doc)
    (h : Vite.findPlugins (Vite.importStep c) = none) :
    Vite.addVitePlugin c = Vite.importStep c ∧
    (Vite.hasVipImport c = true → Vite.addVitePlugin c = c) ∧
    (Vite.hasVipImport c = false →
      (∃ n, n ≤ c.length ∧
          Vite.addVitePlugin c = c.take n ++ Vite.vipInsertText ++ c.drop n) ∨
        Vite.addVitePlugin c = Vite.vipTopText ++ c) := by
  have hmain : Vite.addVitePlugin c = Vite.importStep c := by
    unfold Vite.addVitePlugin
    dsimp only
    rw [h]
  refine ⟨hmain, fun hv => ?_, fun hv => ?_⟩
  · rw [hmain]
    unfold Vite.importStep
    rw [hv]
    simp
  · rw [hmain]
    unfold Vite.importStep
    rw [hv]
    simp only [Bool.false_eq_true, if_false]
    cases hl : ((Vite.lineRecords c 0).filter (fun r => Vite.importLineQualifies r.2)).getLast? with
    | none => right; rfl
    | some r =>
      left
      refine ⟨r.1 + r.2.length, ?_, by cases r; rfl⟩
      have hmem : r ∈ (Vite.lineRecords c 0).filter (fun q => Vite.importLineQualifies q.2) :=
        List.mem_of_mem_getLast? hl
      have hmem2 : r ∈ Vite.lineRecords c 0 := List.mem_of_mem_filter hmem
      simpa using lineRecords_bound c 0 r hmem2

/-- Witness for C9 at a concrete config with no plugins array. -/
theorem addVitePlugin_degraded_witness :
    Vite.addVitePlugin "export default defineConfig(\x7b\x7d);\n".toList =
      Vite.importStep "export default defineConfig(\x7b\x7d);\n".toList :=
  (addVitePlugin_degraded _ (by decide)).1

/-! ## Shift lemmas over segments without tag starts -/

theorem scanL_append_shift {α : Type} (f : Doc → Option α) (a b : Doc)
    (hf : ∀ i < a.length, f (a.drop i ++ b) = none) :
    scanL f (a ++ b) = (scanL f b).map (fun p => (p.1 + a.length, p.2)) := by
  cases hb : scanL f b with
  | none =>
    rw [scanL_eq_none_iff] at hb
    simp only [Option.map_none']
    rw [scanL_eq_none_iff]
    intro q
    rcases Nat.lt_or_ge q a.length with hq | hq
    · rw [List.drop_append_of_le_length (Nat.le_of_lt hq)]
      exact hf q hq
    · rw [drop_append_ge a b q hq]
      exact hb _
  | some pv =>
    obtain ⟨p, v⟩ := pv
    obtain ⟨h1, h2, h3⟩ := (scanL_eq_some_iff f b p v).mp hb
    simp only [Option.map_some']
    refine (scanL_eq_some_iff f (a ++ b) (p + a.length) v).mpr
      ⟨by simp; omega, fun q hq => ?_, ?_⟩
    · rcases Nat.lt_or_ge q a.length with hqa | hqa
      · rw [List.drop_append_of_le_length (Nat.le_of_lt hqa)]
        exact hf q hqa
      · rw [drop_append_ge a b q hqa]
        exact h2 _ (by omega)
    · rw [drop_append_ge a b _ (by omega)]
      simpa using h3

theorem prefixCI_head_false {p0 x : Char} (pr xs : Doc) (h : charCI p0 x = false) :
    prefixCI (p0 :: pr) (x :: xs) = false := by
  simp [prefixCI, h]

theorem noTagStart_drop {a : Doc} (h : noTagStart a = true) {i : Nat} (hi : i < a.length) :
    ∃ x xs, a.drop i = x :: xs ∧ charCI '<' x = false := by
  refine ⟨a[i], a.drop (i + 1), List.drop_eq_getElem_cons hi, ?_⟩
  have := (List.all_eq_true.mp h) a[i] (a.getElem_mem hi)
  simpa using this

theorem scriptTagHere_head_none {x : Char} (xs : Doc) (h : charCI '<' x = false) :
    scriptTagHere (x :: xs) = none := by
  have hp : prefixCI scriptLit (x :: xs) = false := by
    rw [show scriptLit = '<' :: "script".toList from rfl]
    exact prefixCI_head_false _ _ h
  simp [scriptTagHere, hp]

theorem prefixCI_close_head_false {x : Char} (xs : Doc) (h : charCI '<' x = false) :
    prefixCI closeLit (x :: xs) = false := by
  rw [show closeLit = '<' :: "/script>".toList from rfl]
  exact prefixCI_head_false _ _ h

theorem scriptTagHere_in_close (X : Doc) : ∀ i < closeLit.length,
    scriptTagHere (closeLit.drop i ++ X) = none := by
  intro i hi
  have h9 : closeLit.length = 9 := rfl
  rw [h9] at hi
  interval_cases i <;> rfl

theorem findScriptTag_shift_noTag {a : Doc} (b : Doc) (h : noTagStart a = true) :
    findScriptTag (a ++ b) = (findScriptTag b).map (fun p => (p.1 + a.length, p.2)) := by
  apply scanL_append_shift
  intro i hi
  obtain ⟨x, xs, hx, hcx⟩ := noTagStart_drop h hi
  rw [hx, List.cons_append]
  exact scriptTagHere_head_none _ hcx

theorem findScriptTag_shift_close (b : Doc) :
    findScriptTag (closeLit ++ b) = (findScriptTag b).map (fun p => (p.1 + 9, p.2)) := by
  have := scanL_append_shift scriptTagHere closeLit b (scriptTagHere_in_close b)
  simpa using this

theorem findSubCI_close_shift_noTag {a : Doc} (b : Doc) (h : noTagStart a = true) :
    findSubCI closeLit (a ++ b) = (findSubCI closeLit b).map (· + a.length) := by
  apply findSubCI_append_shift
  intro i hi
  obtain ⟨x, xs, hx, hcx⟩ := noTagStart_drop h hi
  rw [hx, List.cons_append]
  exact prefixCI_close_head_false _ hcx

theorem findSubCI_close_self (b : Doc) : findSubCI closeLit (closeLit ++ b) = some 0 := by
  refine (findSubCI_eq_some_iff _ _ _).mpr ⟨Nat.zero_le _, by omega, ?_⟩
  rw [List.drop_zero, prefixCI_append_of_le b (by decide)]
  decide

theorem findSubCI_close_at_seg {a : Doc} (b : Doc) (h : noTagStart a = true) :
    findSubCI closeLit (a ++ (closeLit ++ b)) = some a.length := by
  rw [findSubCI_close_shift_noTag _ h, findSubCI_close_self]
  simp

/-! ## Step lemmas for the module-aware analyzer loop -/

theorem analyzeLoopM_step_none (content : Doc) (fuel pos : Nat) (hm : Bool)
    (hfind : findScriptTag (content.drop pos) = none) :
    FileUtilsM.analyzeLoop content (fuel + 1) pos hm = { hasModuleScriptTag := hm } := by
  conv_lhs => rw [FileUtilsM.analyzeLoop]
  rw [hfind]
  rfl

theorem analyzeLoopM_step_module (content : Doc) (fuel pos : Nat) (hm : Bool)
    (i' len k : Nat)
    (hfind : findScriptTag (content.drop pos) = some (i', len))
    (hclose : findSubCI closeLit (content.drop (pos + i' + len)) = some k)
    (hctx : anyCtx ((content.drop (pos + i')).take len) = true) :
    FileUtilsM.analyzeLoop content (fuel + 1) pos hm =
      FileUtilsM.analyzeLoop content fuel (pos + i' + len) true := by
  conv_lhs => rw [FileUtilsM.analyzeLoop]
  rw [hfind]
  dsimp only [Option.map_some']
  rw [hclose, hctx]
  rfl

theorem findScriptTag_none_noTag {a : Doc} (h : noTagStart a = true) :
    findScriptTag a = none := by
  apply (scanL_eq_none_iff _ _).mpr
  intro q
  rcases Nat.lt_or_ge q a.length with hq | hq
  · obtain ⟨x, xs, hx, hcx⟩ := noTagStart_drop h hq
    rw [hx]
    exact scriptTagHere_head_none _ hcx
  · rw [List.drop_eq_nil_of_le hq]
    rfl

theorem drop_len_plus (a b : Doc) (n : Nat) : (a ++ b).drop (a.length + n) = b.drop n :=
  List.drop_append n

theorem take_len_plus (a b : Doc) (n : Nat) : (a ++ b).take (a.length + n) = a ++ b.take n :=
  List.take_append n

/-- The script-tag regex on the module tag: the whole tag, length 25. -/
theorem scriptTagHere_modTag (X : Doc) : scriptTagHere (moduleTagText ++ X) = some 25 := rfl

/-- The script-tag regex on the plain tag: length 8. -/
theorem scriptTagHere_plain (X : Doc) : scriptTagHere (plainTag ++ X) = some 8 := rfl

theorem findScriptTag_here0 {s : Doc} {L : Nat} (h : scriptTagHere s = some L) :
    findScriptTag s = some (0, L) :=
  (scanL_eq_some_iff _ _ _ _).mpr ⟨Nat.zero_le _, by omega, h⟩

theorem findModuleBlock_here0 {s : Doc} {L : Nat} (h : moduleBlockHere s = some L) :
    findModuleBlock s = some (0, L) :=
  (scanL_eq_some_iff _ _ _ _).mpr ⟨Nat.zero_le _, by omega, h⟩

/-- The module-block regex on a full module block (tag, `<`-free body,
closing tag) followed by anything: the block, of length `34 + c.length`. -/
theorem moduleBlockHere_at_block (c Y : Doc) (hc : noTagStart c = true) :
    moduleBlockHere (moduleTagText ++ (c ++ (closeLit ++ Y))) = some (34 + c.length) := by
  have hred : moduleBlockHere (moduleTagText ++ (c ++ (closeLit ++ Y))) =
      (match findSubCI closeLit (c ++ (closeLit ++ Y)) with
       | some k => some (7 + 1 + 16 + 1 + k + 9)
       | none => none) := rfl
  rw [hred, findSubCI_close_at_seg _ hc]
  exact congrArg some (by omega)

theorem analyzeLoopM_step_instance (content : Doc) (fuel pos : Nat) (hm : Bool)
    (i' len k : Nat)
    (hfind : findScriptTag (content.drop pos) = some (i', len))
    (hclose : findSubCI closeLit (content.drop (pos + i' + len)) = some k)
    (hctx : anyCtx ((content.drop (pos + i')).take len) = false) :
    (FileUtilsM.analyzeLoop content (fuel + 1) pos hm).hasScriptTag = true ∧
    (FileUtilsM.analyzeLoop content (fuel + 1) pos hm).hasModuleScriptTag = hm ∧
    (FileUtilsM.analyzeLoop content (fuel + 1) pos hm).scriptTagStart =
      ((pos + i' : Nat) : Int) := by
  rw [FileUtilsM.analyzeLoop]
  rw [hfind]
  dsimp only [Option.map_some']
  rw [hclose, hctx]
  simp only [Bool.false_eq_true, if_false]
  cases findImport (((content.drop (pos + i' + len))).take k) with
  | none => exact ⟨rfl, rfl, rfl⟩
  | some t => exact ⟨rfl, rfl, rfl⟩

/-- Module-only document: the analyzer records the module script separately
and reports no instance script at all. -/
theorem analyzeM_module_only (c rest : Doc)
    (hc : noTagStart c = true) (hrest : noTagStart rest = true) :
    FileUtilsM.analyzeSvelteFile (moduleTagText ++ (c ++ (closeLit ++ rest))) =
      { hasModuleScriptTag := true } := by
  have hfind : findScriptTag ((moduleTagText ++ (c ++ (closeLit ++ rest))).drop 0) =
      some (0, 25) := by
    rw [List.drop_zero]
    exact findScriptTag_here0 (scriptTagHere_modTag _)
  have hclose : findSubCI closeLit ((moduleTagText ++ (c ++ (closeLit ++ rest))).drop (0 + 0 + 25)) =
      some c.length := by
    rw [show ((moduleTagText ++ (c ++ (closeLit ++ rest))).drop (0 + 0 + 25)) =
      c ++ (closeLit ++ rest) from rfl]
    exact findSubCI_close_at_seg _ hc
  have hctx : anyCtx (((moduleTagText ++ (c ++ (closeLit ++ rest))).drop (0 + 0)).take 25) =
      true := by
    rw [show (((moduleTagText ++ (c ++ (closeLit ++ rest))).drop (0 + 0)).take 25) =
      moduleTagText from rfl]
    decide
  have hfind2 : findScriptTag ((moduleTagText ++ (c ++ (closeLit ++ rest))).drop (0 + 0 + 25)) =
      none := by
    rw [show ((moduleTagText ++ (c ++ (closeLit ++ rest))).drop (0 + 0 + 25)) =
      c ++ (closeLit ++ rest) from rfl]
    rw [findScriptTag_shift_noTag _ hc, findScriptTag_shift_close,
      findScriptTag_none_noTag hrest]
    rfl
  obtain ⟨m, hm⟩ : ∃ m, (moduleTagText ++ (c ++ (closeLit ++ rest))).length = m + 1 :=
    ⟨(moduleTagText ++ (c ++ (closeLit ++ rest))).length - 1, by
      simp only [List.length_append]
      have h25 : moduleTagText.length = 25 := rfl
      omega⟩
  unfold FileUtilsM.analyzeSvelteFile
  rw [analyzeLoopM_step_module _ _ 0 false 0 25 c.length hfind hclose hctx, hm,
    analyzeLoopM_step_none _ _ _ _ hfind2]

/-- Module script followed by an instance script: the analyzer reports the
instance script, with its tag start strictly after the module block, and
still records the module script. -/
theorem analyzeM_module_then_instance (c mid e post : Doc)
    (hc : noTagStart c = true) (hmid : noTagStart mid = true) (he : noTagStart e = true) :
    (FileUtilsM.analyzeSvelteFile
        (moduleTagText ++ (c ++ (closeLit ++ (mid ++ (plainTag ++ (e ++ (closeLit ++ post)))))))).hasScriptTag = true ∧
    (FileUtilsM.analyzeSvelteFile
        (moduleTagText ++ (c ++ (closeLit ++ (mid ++ (plainTag ++ (e ++ (closeLit ++ post)))))))).hasModuleScriptTag = true ∧
    (FileUtilsM.analyzeSvelteFile
        (moduleTagText ++ (c ++ (closeLit ++ (mid ++ (plainTag ++ (e ++ (closeLit ++ post)))))))).scriptTagStart =
      ((34 + c.length + mid.length : Nat) : Int) := by
  have h25 : moduleTagText.length = 25 := rfl
  have h9 : closeLit.length = 9 := rfl
  have h8 : plainTag.length = 8 := rfl
  have hfind : findScriptTag ((moduleTagText ++ (c ++ (closeLit ++ (mid ++ (plainTag ++ (e ++ (closeLit ++ post))))))).drop 0) =
      some (0, 25) := by
    rw [List.drop_zero]
    exact findScriptTag_here0 (scriptTagHere_modTag _)
  have hclose : findSubCI closeLit ((moduleTagText ++ (c ++ (closeLit ++ (mid ++ (plainTag ++ (e ++ (closeLit ++ post))))))).drop (0 + 0 + 25)) =
      some c.length := by
    rw [show ((moduleTagText ++ (c ++ (closeLit ++ (mid ++ (plainTag ++ (e ++ (closeLit ++ post))))))).drop (0 + 0 + 25)) =
      c ++ (closeLit ++ (mid ++ (plainTag ++ (e ++ (closeLit ++ post))))) from rfl]
    exact findSubCI_close_at_seg _ hc
  have hctx : anyCtx (((moduleTagText ++ (c ++ (closeLit ++ (mid ++ (plainTag ++ (e ++ (closeLit ++ post))))))).drop (0 + 0)).take 25) =
      true := by
    rw [show (((moduleTagText ++ (c ++ (closeLit ++ (mid ++ (plainTag ++ (e ++ (closeLit ++ post))))))).drop (0 + 0)).take 25) =
      moduleTagText from rfl]
    decide
  have hfind2 : findScriptTag ((moduleTagText ++ (c ++ (closeLit ++ (mid ++ (plainTag ++ (e ++ (closeLit ++ post))))))).drop (0 + 0 + 25)) =
      some (0 + mid.length + 9 + c.length, 8) := by
    rw [show ((moduleTagText ++ (c ++ (closeLit ++ (mid ++ (plainTag ++ (e ++ (closeLit ++ post))))))).drop (0 + 0 + 25)) =
      c ++ (closeLit ++ (mid ++ (plainTag ++ (e ++ (closeLit ++ post))))) from rfl]
    rw [findScriptTag_shift_noTag _ hc, findScriptTag_shift_close,
      findScriptTag_shift_noTag _ hmid,
      findScriptTag_here0 (scriptTagHere_plain (e ++ (closeLit ++ post)))]
    rfl
  have hidx : 0 + 0 + 25 + (0 + mid.length + 9 + c.length) + 8 =
      moduleTagText.length + (c.length + (closeLit.length + (mid.length + (plainTag.length + 0)))) := by
    rw [h25, h9, h8]
    omega
  have hclose2 : findSubCI closeLit ((moduleTagText ++ (c ++ (closeLit ++ (mid ++ (plainTag ++ (e ++ (closeLit ++ post))))))).drop (0 + 0 + 25 + (0 + mid.length + 9 + c.length) + 8)) =
      some e.length := by
    rw [hidx, drop_len_plus, drop_len_plus, drop_len_plus, drop_len_plus, drop_len_plus,
      List.drop_zero]
    exact findSubCI_close_at_seg _ he
  have hidx2 : 0 + 0 + 25 + (0 + mid.length + 9 + c.length) =
      moduleTagText.length + (c.length + (closeLit.length + (mid.length + 0))) := by
    rw [h25, h9]
    omega
  have hctx2 : anyCtx (((moduleTagText ++ (c ++ (closeLit ++ (mid ++ (plainTag ++ (e ++ (closeLit ++ post))))))).drop (0 + 0 + 25 + (0 + mid.length + 9 + c.length))).take 8) =
      false := by
    rw [hidx2, drop_len_plus, drop_len_plus, drop_len_plus, drop_len_plus, List.drop_zero]
    rw [show (8 : Nat) = plainTag.length + 0 from rfl, take_len_plus]
    simp only [List.take_zero, List.append_nil]
    decide
  obtain ⟨m, hm⟩ : ∃ m, (moduleTagText ++ (c ++ (closeLit ++ (mid ++ (plainTag ++ (e ++ (closeLit ++ post))))))).length = m + 1 :=
    ⟨(moduleTagText ++ (c ++ (closeLit ++ (mid ++ (plainTag ++ (e ++ (closeLit ++ post))))))).length - 1, by
      simp only [List.length_append]
      rw [h25]
      omega⟩
  unfold FileUtilsM.analyzeSvelteFile
  rw [analyzeLoopM_step_module _ _ 0 false 0 25 c.length hfind hclose hctx, hm]
  obtain ⟨g1, g2, g3⟩ := analyzeLoopM_step_instance
    (moduleTagText ++ (c ++ (closeLit ++ (mid ++ (plainTag ++ (e ++ (closeLit ++ post))))))) m
    (0 + 0 + 25) true (0 + mid.length + 9 + c.length) 8 e.length hfind2 hclose2 hctx2
  refine ⟨g1, g2, ?_⟩
  rw [g3]
  exact congrArg _ (by omega)

/-- Claim C3: a module-scoped first script is never treated as the primary
block.  (a) A document that is exactly a module block (with `<`-free body)
followed by `<`-free text analyzes to `hasModuleScriptTag = true` with every
other fact at its default — in particular `hasScriptTag = false`.  (b) If a
separate instance script follows, `hasScriptTag` is true, the module block
is still recorded, and the primary tag-start offset points at the instance
tag after the module block, never at the module tag. -/
theorem moduleScript_not_primary :
    (∀ c rest : Doc, noTagStart c = true → noTagStart rest = true →
      FileUtilsM.analyzeSvelteFile (moduleTagText ++ (c ++ (closeLit ++ rest))) =
        { hasModuleScriptTag := true }) ∧
    (∀ c mid e post : Doc, noTagStart c = true → noTagStart mid = true →
      noTagStart e = true →
      (FileUtilsM.analyzeSvelteFile
          (moduleTagText ++ (c ++ (closeLit ++ (mid ++ (plainTag ++ (e ++ (closeLit ++ post)))))))).hasScriptTag = true ∧
      (FileUtilsM.analyzeSvelteFile
          (moduleTagText ++ (c ++ (closeLit ++ (mid ++ (plainTag ++ (e ++ (closeLit ++ post)))))))).hasModuleScriptTag = true ∧
      (FileUtilsM.analyzeSvelteFile
          (moduleTagText ++ (c ++ (closeLit ++ (mid ++ (plainTag ++ (e ++ (closeLit ++ post)))))))).scriptTagStart =
        ((34 + c.length + mid.length : Nat) : Int)) :=
  ⟨analyzeM_module_only, analyzeM_module_then_instance⟩

/-- Claim C4: on a document that is a module block (with `<`-free body)
followed by `<`-free text, `addScriptTagWithBay` inserts the synthesized
instance block strictly after the module block's end offset (at offset
`36 + c.length`, past the block end `34 + c.length`), and the module
block's original text is byte-for-byte unchanged (it is exactly the first
`34 + c.length` bytes of the output). -/
theorem moduleBlock_noninterference (c rest : Doc)
    (hc : noTagStart c = true) (hrest : noTagStart rest = true) :
    FileUtilsM.addScriptTagWithBay (moduleTagText ++ (c ++ (closeLit ++ rest))) =
      moduleTagText ++ (c ++ (closeLit ++
        ("\n\n".toList ++ (FileUtils.scriptBlockText ++ trimStartL rest)))) ∧
    (FileUtilsM.addScriptTagWithBay (moduleTagText ++ (c ++ (closeLit ++ rest)))).take
        (34 + c.length) = moduleTagText ++ (c ++ closeLit) ∧
    (FileUtilsM.addScriptTagWithBay (moduleTagText ++ (c ++ (closeLit ++ rest)))).drop
        (36 + c.length) = FileUtils.scriptBlockText ++ trimStartL rest := by
  have h25 : moduleTagText.length = 25 := rfl
  have h9 : closeLit.length = 9 := rfl
  have htake : (moduleTagText ++ (c ++ (closeLit ++ rest))).take (0 + (34 + c.length)) =
      moduleTagText ++ (c ++ closeLit) := by
    rw [show 0 + (34 + c.length) =
      moduleTagText.length + (c.length + (closeLit.length + 0)) from by rw [h25, h9]; omega]
    rw [take_len_plus, take_len_plus, take_len_plus]
    simp
  have hdrop : (moduleTagText ++ (c ++ (closeLit ++ rest))).drop (0 + (34 + c.length)) =
      rest := by
    rw [show 0 + (34 + c.length) =
      moduleTagText.length + (c.length + (closeLit.length + 0)) from by rw [h25, h9]; omega]
    rw [drop_len_plus, drop_len_plus, drop_len_plus, List.drop_zero]
  have hmain : FileUtilsM.addScriptTagWithBay (moduleTagText ++ (c ++ (closeLit ++ rest))) =
      moduleTagText ++ (c ++ (closeLit ++
        ("\n\n".toList ++ (FileUtils.scriptBlockText ++ trimStartL rest)))) := by
    unfold FileUtilsM.addScriptTagWithBay
    rw [findModuleBlock_here0 (moduleBlockHere_at_block c rest hc)]
    dsimp only
    rw [htake, hdrop]
    simp [List.append_assoc]
  refine ⟨hmain, ?_, ?_⟩
  · rw [hmain]
    rw [show 34 + c.length =
      moduleTagText.length + (c.length + (closeLit.length + 0)) from by rw [h25, h9]; omega]
    rw [take_len_plus, take_len_plus, take_len_plus]
    simp
  · rw [hmain]
    rw [show 36 + c.length =
      moduleTagText.length + (c.length + (closeLit.length + 2)) from by rw [h25, h9]; omega]
    rw [drop_len_plus, drop_len_plus, drop_len_plus]
    rfl

/-- Witness for C4 at a concrete module-only layout. -/
theorem moduleBlock_noninterference_witness :
    FileUtilsM.addScriptTagWithBay
        (moduleTagText ++ ("\n\texport const ssr = false;\n".toList ++ (closeLit ++ "\n\n".toList))) =
      moduleTagText ++ ("\n\texport const ssr = false;\n".toList ++ (closeLit ++
        ("\n\n".toList ++ (FileUtils.scriptBlockText ++
          trimStartL "\n\n".toList)))) :=
  (moduleBlock_noninterference _ _ (by decide) (by decide)).1

/-- Witness for C3 at concrete documents. -/
theorem moduleScript_not_primary_witness :
    FileUtilsM.analyzeSvelteFile
        (moduleTagText ++ ("\n\texport const x = 1;\n".toList ++ (closeLit ++ "\n".toList))) =
      { hasModuleScriptTag := true } ∧
    (FileUtilsM.analyzeSvelteFile
        (moduleTagText ++ (" a ".toList ++ (closeLit ++ ("\n".toList ++ (plainTag ++ (" b ".toList ++ (closeLit ++ "\n".toList)))))))).hasScriptTag = true :=
  ⟨moduleScript_not_primary.1 _ _ (by decide) (by decide),
   (moduleScript_not_primary.2 _ _ _ _ (by decide) (by decide) (by decide)).1⟩

/-! ## Agreement, window and splice lemmas for the convergence proof -/
open SvelteBay

theorem scanL_head {α : Type} (f : Doc → Option α) (s : Doc) (a : α)
    (h : f s = some a) : scanL f s = some (0, a) := by
  cases s with
  | nil => simp [scanL, h]
  | cons c rest => simp [scanL, h]

theorem getElem?_take_agree {u v : Doc} {n : Nat} (h : u.take n = v.take n)
    {i : Nat} (hi : i < n) : u[i]? = v[i]? := by
  have h1 : (u.take n)[i]? = u[i]? := List.getElem?_take_of_lt hi
  have h2 : (v.take n)[i]? = v[i]? := List.getElem?_take_of_lt hi
  rw [← h1, ← h2, h]

theorem take_agree_drop {u v : Doc} {n : Nat} (h : u.take n = v.take n)
    (m : Nat) : (u.drop m).take (n - m) = (v.drop m).take (n - m) := by
  rw [← List.drop_take, ← List.drop_take, h]

theorem prefixCS_congr_take {p : Doc} : ∀ {u v : Doc},
    u.take p.length = v.take p.length → prefixCS p u = prefixCS p v := by
  induction p with
  | nil => intro u v h; rfl
  | cons x ps ih =>
    intro u v h
    cases u with
    | nil =>
      cases v with
      | nil => rfl
      | cons cv vs => simp at h
    | cons cu us =>
      cases v with
      | nil => simp at h
      | cons cv vs =>
        simp only [List.length_cons, List.take_succ_cons, List.cons.injEq] at h
        rw [prefixCS, prefixCS, h.1, ih h.2]

theorem prefixCI_congr_take {p : Doc} : ∀ {u v : Doc},
    u.take p.length = v.take p.length → prefixCI p u = prefixCI p v := by
  induction p with
  | nil => intro u v h; rfl
  | cons x ps ih =>
    intro u v h
    cases u with
    | nil =>
      cases v with
      | nil => rfl
      | cons cv vs => simp at h
    | cons cu us =>
      cases v with
      | nil => simp at h
      | cons cv vs =>
        simp only [List.length_cons, List.take_succ_cons, List.cons.injEq] at h
        rw [prefixCI, prefixCI, h.1, ih h.2]

theorem wsCount_congr_take : ∀ {w : Nat} {u v : Doc},
    wsCount u = w → w < u.length → u.take (w + 1) = v.take (w + 1) → wsCount v = w := by
  intro w
  induction w with
  | zero =>
    intro u v hw hl h
    cases u with
    | nil => simp at hl
    | cons c us =>
      have hc : isWsChar c = false := by
        by_contra hc
        rw [Bool.not_eq_false] at hc
        simp [wsCount, hc] at hw
      cases v with
      | nil => simp at h
      | cons cv vs =>
        simp only [List.take_succ_cons, List.take_zero, List.cons.injEq] at h
        rw [← h.1] at *
        simp [wsCount, hc]
  | succ n ih =>
    intro u v hw hl h
    cases u with
    | nil => simp at hl
    | cons c us =>
      have hc : isWsChar c = true := by
        by_contra hc
        rw [Bool.not_eq_true] at hc
        simp [wsCount, hc] at hw
      have hw' : wsCount us = n := by
        simp only [wsCount, hc, if_true] at hw
        omega
      cases v with
      | nil => simp at h
      | cons cv vs =>
        simp only [List.take_succ_cons, List.cons.injEq] at h
        rw [← h.1]
        have := ih hw' (by simp at hl; omega) h.2
        simp [wsCount, hc, this]

theorem findCharL_congr_take {ch : Char} : ∀ {g : Nat} {u v : Doc},
    findCharL ch u = some g → u.take (g + 1) = v.take (g + 1) → findCharL ch v = some g := by
  intro g
  induction g with
  | zero =>
    intro u v hg h
    cases u with
    | nil => simp [findCharL] at hg
    | cons c us =>
      have hc : (c == ch) = true := by
        by_contra hc
        rw [Bool.not_eq_true] at hc
        simp only [findCharL, hc, Bool.false_eq_true, if_false, Option.map_eq_some'] at hg
        obtain ⟨k, _, hk⟩ := hg
        omega
      cases v with
      | nil => simp at h
      | cons cv vs =>
        simp only [List.take_succ_cons, List.take_zero, List.cons.injEq] at h
        rw [← h.1]
        simp [findCharL, hc]
  | succ n ih =>
    intro u v hg h
    cases u with
    | nil => simp [findCharL] at hg
    | cons c us =>
      have hc : (c == ch) = false := by
        by_contra hc
        rw [Bool.not_eq_false] at hc
        simp [findCharL, hc] at hg
      simp only [findCharL, hc, Bool.false_eq_true, if_false, Option.map_eq_some'] at hg
      obtain ⟨k, hk, hke⟩ := hg
      have hkn : k = n := by omega
      subst hkn
      cases v with
      | nil => simp at h
      | cons cv vs =>
        simp only [List.take_succ_cons, List.cons.injEq] at h
        rw [← h.1]
        simp only [findCharL, hc, Bool.false_eq_true, if_false, ih hk h.2, Option.map_some']

theorem findCharL_eq_some_iff {ch : Char} : ∀ {t : Doc} {g : Nat},
    findCharL ch t = some g ↔
      t[g]? = some ch ∧ ∀ i < g, ∀ c, t[i]? = some c → (c == ch) = false := by
  intro t
  induction t with
  | nil => intro g; simp [findCharL]
  | cons c rest ih =>
    intro g
    cases hc : c == ch with
    | true =>
      simp only [findCharL, hc, if_true]
      constructor
      · intro h
        obtain rfl : (0 : Nat) = g := by simpa using h
        refine ⟨by simpa using (beq_iff_eq.mp hc), by omega⟩
      · rintro ⟨h1, h2⟩
        cases g with
        | zero => rfl
        | succ n =>
          have := h2 0 (by omega) c (by simp)
          rw [hc] at this
          exact absurd this (by simp)
    | false =>
      simp only [findCharL, hc, Bool.false_eq_true, if_false, Option.map_eq_some']
      constructor
      · rintro ⟨k, hk, rfl⟩
        obtain ⟨h1, h2⟩ := (@ih k).mp hk
        refine ⟨by simpa using h1, ?_⟩
        intro i hi cc hcc
        cases i with
        | zero =>
          simp only [List.getElem?_cons_zero, Option.some.injEq] at hcc
          exact hcc ▸ hc
        | succ m =>
          simp only [List.getElem?_cons_succ] at hcc
          exact h2 m (by omega) cc hcc
      · rintro ⟨h1, h2⟩
        cases g with
        | zero =>
          simp only [List.getElem?_cons_zero, Option.some.injEq] at h1
          rw [h1] at hc
          simp at hc
        | succ n =>
          refine ⟨n, (@ih n).mpr ⟨by simpa using h1, ?_⟩, rfl⟩
          intro i hi cc hcc
          exact h2 (i + 1) (by omega) cc (by simpa using hcc)

theorem findCharL_some_of_mem {ch : Char} {t : Doc} (h : ch ∈ t) :
    ∃ j, findCharL ch t = some j := by
  induction t with
  | nil => simp at h
  | cons c rest ih =>
    cases hc : c == ch with
    | true => exact ⟨0, by simp [findCharL, hc]⟩
    | false =>
      have hm : ch ∈ rest := by
        rcases List.mem_cons.mp h with he | hm
        · rw [he] at hc; simp at hc
        · exact hm
      obtain ⟨j, hj⟩ := ih hm
      exact ⟨j + 1, by simp [findCharL, hc, hj]⟩


theorem jsSlice_nat_none (s : Doc) (a : Nat) : jsSlice s ((a : Nat) : Int) none = s.drop a := by
  simp only [jsSlice, inf_eq_min, sup_eq_max]
  rw [if_neg (by omega : ¬ ((a:Int) < 0))]
  split
  · rename_i hlt
    have h1 : (min (a : Int) (s.length : Int)).toNat = a := by omega
    rw [h1]
    apply List.take_of_length_le
    simp only [List.length_drop]
    omega
  · rename_i hlt
    have : s.length ≤ a := by omega
    rw [List.drop_eq_nil_of_le this]

theorem jsSlice_zero_nat (s : Doc) (a : Nat) (h : a ≤ s.length) :
    jsSlice s 0 (some ((a : Nat) : Int)) = s.take a := by
  simp only [jsSlice, inf_eq_min, sup_eq_max]
  rw [if_neg (by omega : ¬ ((0:Int) < 0)), if_neg (by omega : ¬ ((a:Int) < 0))]
  split
  · rename_i hlt
    have h0 : (min (0 : Int) (s.length : Int)).toNat = 0 := by omega
    have h1 : ((min (a : Int) (s.length : Int)) - (min (0 : Int) (s.length : Int))).toNat = a := by
      omega
    rw [h0, h1, List.drop_zero]
  · rename_i hlt
    have : a = 0 := by omega
    simp [this]

theorem jsSlice_nat_nat (s : Doc) (a b : Nat) (hab : a ≤ b) (hb : b ≤ s.length) :
    jsSlice s ((a : Nat) : Int) (some ((b : Nat) : Int)) = (s.drop a).take (b - a) := by
  simp only [jsSlice, inf_eq_min, sup_eq_max]
  rw [if_neg (by omega : ¬ ((a:Int) < 0)), if_neg (by omega : ¬ ((b:Int) < 0))]
  split
  · rename_i hlt
    have h3 : (min (a : Int) (s.length : Int)).toNat = a := by omega
    have h4 : ((min (b : Int) (s.length : Int)) - (min (a : Int) (s.length : Int))).toNat = b - a := by
      omega
    rw [h3, h4]
  · rename_i hlt
    have : b = a := by omega
    simp [this]

theorem prefixCI_take_large {pat t : Doc} {m : Nat} (hm : pat.length ≤ m) :
    prefixCI pat (t.take m) = prefixCI pat t := by
  apply prefixCI_congr_take
  rw [List.take_take, min_eq_left hm]

theorem prefixCS_take_large {pat t : Doc} {m : Nat} (hm : pat.length ≤ m) :
    prefixCS pat (t.take m) = prefixCS pat t := by
  apply prefixCS_congr_take
  rw [List.take_take, min_eq_left hm]

theorem closeFreeIn_of_leftmost {X : Doc} {k : Nat}
    (h : findSubCI closeLit X = some k) : closeFreeIn (X.take k) := by
  obtain ⟨h1, h2, h3⟩ := (findSubCI_eq_some_iff _ _ _).mp h
  intro q hq
  rw [List.length_take] at hq
  rw [List.drop_take]
  rw [prefixCI_take_large (by rw [show closeLit.length = 9 from rfl]; omega)]
  exact h2 q (by omega)

theorem closeFreeIn_take {s : Doc} (h : closeFreeIn s) (n : Nat) :
    closeFreeIn (s.take n) := by
  intro q hq
  rw [List.length_take] at hq
  rw [List.drop_take]
  rw [prefixCI_take_large (by rw [show closeLit.length = 9 from rfl]; omega)]
  exact h q (by omega)

theorem closeFreeIn_append {s t : Doc} (hs : closeFreeIn s) (ht : closeFreeIn t)
    (hcross : ∀ m, 1 ≤ m → m ≤ 8 → m ≤ s.length →
      prefixCI (closeLit.take m) (s.drop (s.length - m)) = false ∨
      prefixCI (closeLit.drop m) t = false) :
    closeFreeIn (s ++ t) := by
  intro q hq
  rw [List.length_append] at hq
  rcases Nat.lt_or_ge q s.length with hql | hql
  · rw [List.drop_append_of_le_length (Nat.le_of_lt hql)]
    rcases le_or_lt (q + 9) s.length with hfit | hfit
    · rw [prefixCI_append_of_le t (by simp only [List.length_drop]; rw [show closeLit.length = 9 from rfl]; omega)]
      exact hs q hfit
    · have hm1 : 1 ≤ s.length - q := by omega
      have hm8 : s.length - q ≤ 8 := by omega
      rcases hcross (s.length - q) hm1 hm8 (by omega) with hl | hr
      · rw [prefixCI_append]
        rw [show s.length - (s.length - q) = q from by omega] at hl
        rw [List.length_drop, hl]
        simp
      · rw [prefixCI_append, List.length_drop, hr]
        simp
  · rw [drop_append_ge s t q hql]
    exact ht (q - s.length) (by omega)

theorem closeFreeIn_noTag_append {a b : Doc} (ha : noTagStart a = true)
    (hb : closeFreeIn b) : closeFreeIn (a ++ b) := by
  intro q hq
  rw [List.length_append] at hq
  rcases Nat.lt_or_ge q a.length with hql | hql
  · obtain ⟨x, xs, hx, hcx⟩ := noTagStart_drop ha hql
    rw [List.drop_append_of_le_length (Nat.le_of_lt hql), hx, List.cons_append]
    exact prefixCI_close_head_false _ hcx
  · rw [drop_append_ge a b q hql]
    exact hb (q - a.length) (by omega)

theorem lower_of_charCI_lt {x : Char} (h : charCI '<' x = true) : lowerChar x = '<' := by
  rw [charCI, show lowerChar '<' = '<' from rfl] at h
  exact (beq_iff_eq.mp h).symm

theorem closeDrop_of_close {after : Doc} (hafter : prefixCI closeLit after = true) :
    ∀ m, 1 ≤ m → m ≤ 8 → prefixCI (closeLit.drop m) after = false := by
  cases after with
  | nil => intro m h1 h8; exact absurd hafter (by simp [prefixCI, closeLit])
  | cons a0 rest =>
    have hc : charCI '<' a0 = true := by
      rw [show closeLit = '<' :: "/script>".toList from rfl, prefixCI, Bool.and_eq_true] at hafter
      exact hafter.1
    have hl := lower_of_charCI_lt hc
    intro m h1 h8
    have hval : ∀ (c : Char) (tl : Doc), (lowerChar c == '<') = false →
        prefixCI (c :: tl) (a0 :: rest) = false := by
      intro c tl hcc
      apply prefixCI_head_false
      rw [charCI, hl]
      exact hcc
    interval_cases m
    · exact hval '/' _ (by decide)
    · exact hval 's' _ (by decide)
    · exact hval 'c' _ (by decide)
    · exact hval 'r' _ (by decide)
    · exact hval 'i' _ (by decide)
    · exact hval 'p' _ (by decide)
    · exact hval 't' _ (by decide)
    · exact hval '>' _ (by decide)

theorem findSubCI_close_splice {sc2 after : Doc} (hfree : closeFreeIn sc2)
    (hafter : prefixCI closeLit after = true) :
    findSubCI closeLit (sc2 ++ after) = some sc2.length := by
  have h9 : closeLit.length = 9 := rfl
  refine (findSubCI_eq_some_iff _ _ _).mpr ⟨by simp, ?_, ?_⟩
  · intro q hq
    rcases le_or_lt (q + 9) sc2.length with hfit | hfit
    · rw [List.drop_append_of_le_length (by omega)]
      rw [prefixCI_append_of_le after (by simp only [List.length_drop]; omega)]
      exact hfree q hfit
    · rw [List.drop_append_of_le_length (Nat.le_of_lt hq)]
      rw [prefixCI_append]
      rw [List.length_drop]
      rw [closeDrop_of_close hafter (sc2.length - q) (by omega) (by omega)]
      simp
  · rw [List.drop_left]
    exact hafter


theorem getElem?_append_lt {l1 l2 : Doc} {n : Nat} (h : n < l1.length) :
    (l1 ++ l2)[n]? = l1[n]? := by
  rw [List.getElem?_append]
  rw [if_pos h]

theorem mem_of_getElem?_eq {l : Doc} {n : Nat} {a : Char} (h : l[n]? = some a) : a ∈ l := by
  obtain ⟨hlt, he⟩ := List.getElem?_eq_some_iff.mp h
  rw [← he]
  exact l.getElem_mem hlt

theorem scriptTagHere_some_bounds {s : Doc} {L : Nat} (h : scriptTagHere s = some L) :
    8 ≤ L ∧ L ≤ s.length := by
  unfold scriptTagHere at h
  split at h
  · rename_i hpre
    split at h
    · exact absurd h (by simp)
    · rename_i c rest heq
      have hlen : 7 < s.length := by
        have : (s.drop 7).length = rest.length + 1 := by rw [heq]; simp
        simp only [List.length_drop] at this
        omega
      have hrest : rest = s.drop 8 := by
        have := congrArg List.tail heq
        simpa [List.tail_drop] using this.symm
      split at h
      · simp only [Option.some.injEq] at h
        omega
      · split at h
        · split at h
          · rename_i k hk
            simp only [Option.some.injEq] at h
            have := findCharL_lt_length hk
            rw [hrest] at this
            simp only [List.length_drop] at this
            omega
          · exact absurd h (by simp)
        · exact absurd h (by simp)
  · exact absurd h (by simp)

theorem scriptTagHere_congr_take {s t : Doc} {L : Nat} (h : scriptTagHere s = some L)
    (hag : s.take L = t.take L) : scriptTagHere t = some L := by
  obtain ⟨hL8, hLs⟩ := scriptTagHere_some_bounds h
  have hpre7 : s.take 7 = t.take 7 := by
    have h1 : (s.take L).take 7 = (t.take L).take 7 := by rw [hag]
    rwa [List.take_take, List.take_take, show min 7 L = 7 from by omega] at h1
  unfold scriptTagHere at h ⊢
  split at h
  · rename_i hpre
    have hpret : prefixCI scriptLit t = true := by
      rw [← @prefixCI_congr_take scriptLit _ _ hpre7]
      exact hpre
    rw [if_pos hpret]
    split at h
    · exact absurd h (by simp)
    · rename_i c rest heq
      have hc7 : s[7]? = some c := by
        rw [← List.head?_drop, heq]
        rfl
      have hrest : rest = s.drop 8 := by
        have := congrArg List.tail heq
        simpa [List.tail_drop] using this.symm
      have hct : t[7]? = some c := by
        rw [← getElem?_take_agree hag (by omega), hc7]
      have h7t : 7 < t.length := by
        rcases List.getElem?_eq_some_iff.mp hct with ⟨hlt, _⟩
        exact hlt
      have hdt : t.drop 7 = c :: t.drop 8 := by
        have := List.drop_eq_getElem_cons h7t
        rw [this]
        congr 1
        have := List.getElem?_eq_some_iff.mp hct
        obtain ⟨_, he⟩ := this
        exact he
      rw [hdt]
      change (if (c == '>') = true then some 8
        else if isWsChar c = true then
          (match findCharL '>' (t.drop 8) with
            | some k => some (9 + k)
            | none => none)
        else none) = some L
      split at h
      · rename_i hgt
        rw [if_pos hgt]
        exact h
      · rename_i hgt
        rw [if_neg hgt]
        split at h
        · rename_i hws
          rw [if_pos hws]
          split at h
          · rename_i k hk
            simp only [Option.some.injEq] at h
            have hagd : (s.drop 8).take (k + 1) = (t.drop 8).take (k + 1) := by
              have := take_agree_drop hag 8
              rw [show L - 8 = k + 1 from by omega] at this
              exact this
            rw [hrest] at hk
            rw [findCharL_congr_take hk hagd]
            change some (9 + k) = some L
            rw [h]
          · exact absurd h (by simp)
        · rename_i hws
          rw [if_neg hws]
          exact h
  · exact absurd h (by simp)

theorem scriptTagHere_last_gt {s : Doc} {L : Nat} (h : scriptTagHere s = some L) :
    s[L - 1]? = some '>' := by
  unfold scriptTagHere at h
  split at h
  · rename_i hpre
    split at h
    · exact absurd h (by simp)
    · rename_i c rest heq
      have hc7 : s[7]? = some c := by
        rw [← List.head?_drop, heq]
        rfl
      have hrest : rest = s.drop 8 := by
        have := congrArg List.tail heq
        simpa [List.tail_drop] using this.symm
      split at h
      · rename_i hgt
        simp only [Option.some.injEq] at h
        rw [← h]
        simp only [show (8 : Nat) - 1 = 7 from rfl]
        rw [hc7, beq_iff_eq.mp hgt]
      · split at h
        · split at h
          · rename_i k hk
            simp only [Option.some.injEq] at h
            rw [hrest] at hk
            have := (findCharL_eq_some_iff.mp hk).1
            rw [List.getElem?_drop] at this
            rw [← h]
            rw [show 9 + k - 1 = 8 + k from by omega]
            exact this
          · exact absurd h (by simp)
        · exact absurd h (by simp)
  · exact absurd h (by simp)

theorem scriptTagHere_none_congr {Pq Y Y' : Doc} (h9 : 9 ≤ Pq.length)
    (hnone : scriptTagHere (Pq ++ Y) = none) (hgt : '>' ∈ Pq.drop 8) :
    scriptTagHere (Pq ++ Y') = none := by
  have h7 : (7 : Nat) ≤ Pq.length := by omega
  have hpre : prefixCI scriptLit (Pq ++ Y) = prefixCI scriptLit Pq :=
    prefixCI_append_of_le Y (by rw [show scriptLit.length = 7 from rfl]; omega)
  have hpre' : prefixCI scriptLit (Pq ++ Y') = prefixCI scriptLit Pq :=
    prefixCI_append_of_le Y' (by rw [show scriptLit.length = 7 from rfl]; omega)
  cases hp : prefixCI scriptLit Pq with
  | false =>
    unfold scriptTagHere
    rw [hpre', hp]
    simp
  | true =>
    have h7lt : 7 < Pq.length := by omega
    have hdq : Pq.drop 7 = Pq[7] :: Pq.drop 8 := List.drop_eq_getElem_cons h7lt
    have hdY : (Pq ++ Y).drop 7 = Pq[7] :: (Pq.drop 8 ++ Y) := by
      rw [List.drop_append_of_le_length h7, hdq, List.cons_append]
    have hdY' : (Pq ++ Y').drop 7 = Pq[7] :: (Pq.drop 8 ++ Y') := by
      rw [List.drop_append_of_le_length h7, hdq, List.cons_append]
    unfold scriptTagHere at hnone ⊢
    rw [hpre, hp] at hnone
    rw [hpre', hp]
    simp only [if_true] at hnone ⊢
    rw [hdY] at hnone
    rw [hdY']
    cases hg : Pq[7] == '>' with
    | true => simp [hg] at hnone
    | false =>
      simp only [hg, Bool.false_eq_true, if_false] at hnone ⊢
      cases hws : isWsChar Pq[7] with
      | true =>
        simp only [hws, if_true] at hnone
        obtain ⟨j, hj⟩ := @findCharL_some_of_mem '>' (Pq.drop 8 ++ Y)
          (List.mem_append_left Y hgt)
        rw [hj] at hnone
        simp at hnone
      | false =>
        simp only [hws, Bool.false_eq_true, if_false]

theorem findScriptTag_congr_suffix (P Y Y' : Doc) (i len : Nat)
    (hfit : i + len ≤ P.length) (h : findScriptTag (P ++ Y) = some (i, len)) :
    findScriptTag (P ++ Y') = some (i, len) := by
  obtain ⟨h1, h2, h3⟩ := (scanL_eq_some_iff _ _ _ _).mp h
  have hiP : i ≤ P.length := by omega
  rw [List.drop_append_of_le_length hiP] at h3
  obtain ⟨hL8, _⟩ := scriptTagHere_some_bounds h3
  have hlenP : len ≤ P.length - i := by omega
  refine (scanL_eq_some_iff _ _ _ _).mpr ⟨by simp; omega, ?_, ?_⟩
  · intro q hq
    have hqP : q < P.length := by omega
    rw [List.drop_append_of_le_length (Nat.le_of_lt hqP)]
    have hnq := h2 q hq
    rw [List.drop_append_of_le_length (Nat.le_of_lt hqP)] at hnq
    apply @scriptTagHere_none_congr _ Y _
    · simp only [List.length_drop]
      omega
    · exact hnq
    · have hgi : P[i + len - 1]? = some '>' := by
        have := scriptTagHere_last_gt h3
        rw [getElem?_append_lt (by simp only [List.length_drop]; omega)] at this
        rw [List.getElem?_drop] at this
        rw [show i + (len - 1) = i + len - 1 from by omega] at this
        exact this
      rw [List.drop_drop]
      have hidx : (q + 8) + (i + len - 1 - (q + 8)) = i + len - 1 := by omega
      have hmm : (P.drop (q + 8))[i + len - 1 - (q + 8)]? = some '>' := by
        rw [List.getElem?_drop, hidx]
        exact hgi
      exact mem_of_getElem?_eq hmm
  · rw [List.drop_append_of_le_length hiP]
    exact scriptTagHere_congr_take h3 (by
      rw [List.take_append_of_le_length (by simp only [List.length_drop]; omega),
        List.take_append_of_le_length (by simp only [List.length_drop]; omega)])


theorem drop_cons_of_getElem? {l : Doc} {n : Nat} {c : Char} (h : l[n]? = some c) :
    l.drop n = c :: l.drop (n + 1) := by
  obtain ⟨hlt, he⟩ := List.getElem?_eq_some_iff.mp h
  rw [List.drop_eq_getElem_cons hlt, he]

theorem importHere_spec_of_some {s : Doc} {L : Nat} {cap : Doc}
    (h : importHere s = some (L, cap)) : ∃ w1 kk w2 w3, ImportHereSpec s L cap w1 kk w2 w3 := by
  simp only [importHere] at h
  split at h
  case isFalse => exact absurd h (by simp)
  case isTrue hpre =>
  split at h
  case isTrue => exact absurd h (by simp)
  case isFalse hw1 =>
  have hw1' : 1 ≤ wsCount (s.drop 6) := by
    simp only [beq_iff_eq] at hw1
    omega
  split at h
  case h_2 => exact absurd h (by simp)
  case h_1 c s2 heq =>
  rw [List.drop_drop] at heq
  have hc6 : s[6 + wsCount (s.drop 6)]? = some c := by
    rw [← List.head?_drop, heq]
    rfl
  have hs2 : s2 = s.drop (7 + wsCount (s.drop 6)) := by
    have := congrArg List.tail heq
    simp only [List.tail_cons, List.tail_drop] at this
    rw [← this]
    congr 1
    omega
  split at h
  case isFalse => exact absurd h (by simp)
  case isTrue hbrace =>
  split at h
  case h_2 => exact absurd h (by simp)
  case h_1 kk hkk =>
  split at h
  case isTrue => exact absurd h (by simp)
  case isFalse hkk0 =>
  have hkk0' : 1 ≤ kk := by
    simp only [beq_iff_eq] at hkk0
    omega
  split at h
  case isTrue => exact absurd h (by simp)
  case isFalse hw2 =>
  have hw2' : 1 ≤ wsCount (s2.drop (kk + 1)) := by
    simp only [beq_iff_eq] at hw2
    omega
  split at h
  case isFalse => exact absurd h (by simp)
  case isTrue hfrom =>
  split at h
  case isTrue => exact absurd h (by simp)
  case isFalse hw3 =>
  have hw3' : 1 ≤ wsCount ((s2.drop (kk + 1)).drop (wsCount (s2.drop (kk + 1))) |>.drop 4) := by
    simp only [beq_iff_eq] at hw3
    omega
  split at h
  case h_2 => exact absurd h (by simp)
  case h_1 q1 s6 hq1eq =>
  split at h
  case isFalse => exact absurd h (by simp)
  case isTrue hq1 =>
  split at h
  case isFalse => exact absurd h (by simp)
  case isTrue hsv =>
  split at h
  case h_2 => exact absurd h (by simp)
  case h_1 q2 rest2 hq2eq =>
  split at h
  case isFalse => exact absurd h (by simp)
  case isTrue hq2 =>
  simp only [Option.some.injEq, Prod.mk.injEq] at h
  obtain ⟨hL, hcap⟩ := h
  refine ⟨wsCount (s.drop 6), kk, wsCount (s2.drop (kk + 1)),
    wsCount ((s2.drop (kk + 1)).drop (wsCount (s2.drop (kk + 1))) |>.drop 4), ?_⟩
  set w1 := wsCount (s.drop 6) with hw1def
  have hs3 : s2.drop (kk + 1) = s.drop (8 + w1 + kk) := by
    rw [hs2, List.drop_drop]
    congr 1
    omega
  set w2 := wsCount (s2.drop (kk + 1)) with hw2def
  have hs4 : (s2.drop (kk + 1)).drop w2 = s.drop (8 + w1 + kk + w2) := by
    rw [hs3, List.drop_drop]
  have hs5 : ((s2.drop (kk + 1)).drop w2).drop 4 = s.drop (12 + w1 + kk + w2) := by
    rw [hs4, List.drop_drop]
    congr 1
    omega
  set w3 := wsCount (((s2.drop (kk + 1)).drop w2).drop 4) with hw3def
  have hq1pos : s[12 + w1 + kk + w2 + w3]? = some q1 := by
    rw [← List.head?_drop]
    have : (((s2.drop (kk + 1)).drop w2).drop 4).drop w3 = s.drop (12 + w1 + kk + w2 + w3) := by
      rw [hs5, List.drop_drop]
    rw [← this, hq1eq]
    rfl
  have hs6 : s6 = s.drop (13 + w1 + kk + w2 + w3) := by
    have := congrArg List.tail hq1eq
    simp only [List.tail_cons] at this
    rw [← this, hs5, List.drop_drop, List.tail_drop]
    congr 1
    omega
  have hq2pos : s[23 + w1 + kk + w2 + w3]? = some q2 := by
    rw [← List.head?_drop]
    have : s6.drop 10 = s.drop (23 + w1 + kk + w2 + w3) := by
      rw [hs6, List.drop_drop]
      congr 1
      omega
    rw [← this, hq2eq]
    rfl
  refine ⟨hpre, rfl, hw1', by rw [← beq_iff_eq.mp hbrace]; exact hc6, by rw [← hs2]; exact hkk,
    hkk0', by rw [← hs3], hw2', by rw [← hs4]; exact hfrom, by rw [← hs5], hw3',
    ⟨q1, hq1pos, hq1⟩, by rw [← hs6]; exact hsv, ⟨q2, hq2pos, hq2⟩, by omega, ?_⟩
  rw [← hcap, hs2]

theorem importHere_some_of_spec {s : Doc} {L : Nat} {cap : Doc} (w1 kk w2 w3 : Nat)
    (h : ImportHereSpec s L cap w1 kk w2 w3) : importHere s = some (L, cap) := by
  obtain ⟨hpre, hw1v, hw1, hbrace, hkk, hkk1, hw2v, hw2, hfrom, hw3v, hw3,
    ⟨q1, hq1p, hq1⟩, hsv, ⟨q2, hq2p, hq2⟩, hL, hcap⟩ := h
  simp only [importHere]
  rw [if_pos hpre, hw1v]
  rw [show (w1 == 0) = false from by simp; omega]
  simp only [Bool.false_eq_true, if_false]
  rw [List.drop_drop, drop_cons_of_getElem? hbrace]
  simp only
  rw [if_pos (by simp : ('\x7b' == '\x7b') = true)]
  rw [show 6 + w1 + 1 = 7 + w1 from by omega]
  rw [hkk]
  simp only
  rw [show (kk == 0) = false from by simp; omega]
  simp only [Bool.false_eq_true, if_false]
  rw [List.drop_drop, show 7 + w1 + (kk + 1) = 8 + w1 + kk from by omega, hw2v]
  rw [show (w2 == 0) = false from by simp; omega]
  simp only [Bool.false_eq_true, if_false]
  rw [List.drop_drop, show 8 + w1 + kk + w2 = 8 + w1 + kk + w2 from rfl]
  rw [if_pos hfrom]
  rw [List.drop_drop, show 8 + w1 + kk + w2 + 4 = 12 + w1 + kk + w2 from by omega, hw3v]
  rw [show (w3 == 0) = false from by simp; omega]
  simp only [Bool.false_eq_true, if_false]
  rw [List.drop_drop, show 12 + w1 + kk + w2 + w3 = 12 + w1 + kk + w2 + w3 from rfl]
  rw [drop_cons_of_getElem? hq1p]
  simp only
  rw [if_pos hq1]
  rw [show 12 + w1 + kk + w2 + w3 + 1 = 13 + w1 + kk + w2 + w3 from by omega]
  rw [if_pos hsv]
  rw [List.drop_drop, show 13 + w1 + kk + w2 + w3 + 10 = 23 + w1 + kk + w2 + w3 from by omega]
  rw [drop_cons_of_getElem? hq2p]
  simp only
  rw [if_pos hq2]
  rw [hcap]
  refine congrArg some ?_
  rw [Prod.mk.injEq]
  exact ⟨by omega, rfl⟩


theorem take_agree_of_le {u v : Doc} {n m : Nat} (h : u.take n = v.take n) (hm : m ≤ n) :
    u.take m = v.take m := by
  have h2 := congrArg (List.take m) h
  rwa [List.take_take, List.take_take, show min m n = m from by omega] at h2

theorem importHere_bounds {s : Doc} {L : Nat} {cap : Doc}
    (h : importHere s = some (L, cap)) : 28 ≤ L ∧ L ≤ s.length := by
  obtain ⟨w1, kk, w2, w3, hpre, hw1v, hw1, hbrace, hkk, hkk1, hw2v, hw2, hfrom, hw3v, hw3,
    ⟨q1, hq1p, hq1⟩, hsv, ⟨q2, hq2p, hq2⟩, hL, hcap⟩ := importHere_spec_of_some h
  obtain ⟨hlt, _⟩ := List.getElem?_eq_some_iff.mp hq2p
  omega

theorem importHere_congr_take {s t : Doc} {L : Nat} {cap : Doc}
    (h : importHere s = some (L, cap)) (hag : s.take L = t.take L) :
    importHere t = some (L, cap) := by
  obtain ⟨w1, kk, w2, w3, hpre, hw1v, hw1, hbrace, hkk, hkk1, hw2v, hw2, hfrom, hw3v, hw3,
    ⟨q1, hq1p, hq1⟩, hsv, ⟨q2, hq2p, hq2⟩, hL, hcap⟩ := importHere_spec_of_some h
  have hq2lt : 23 + w1 + kk + w2 + w3 < s.length := (List.getElem?_eq_some_iff.mp hq2p).1
  have hbl : 6 + w1 < s.length := (List.getElem?_eq_some_iff.mp hbrace).1
  have hq1lt : 12 + w1 + kk + w2 + w3 < s.length := (List.getElem?_eq_some_iff.mp hq1p).1
  have hfroml := prefixCS_length_le hfrom
  rw [show fromLit.length = 4 from rfl, List.length_drop] at hfroml
  apply importHere_some_of_spec w1 kk w2 w3
  refine ⟨?_, ?_, hw1, ?_, ?_, hkk1, ?_, hw2, ?_, ?_, hw3, ⟨q1, ?_, hq1⟩, ?_, ⟨q2, ?_, hq2⟩, hL, ?_⟩
  · rw [← @prefixCS_congr_take importLit _ _
      (take_agree_of_le hag (by rw [show importLit.length = 6 from rfl]; omega))]
    exact hpre
  · exact wsCount_congr_take hw1v (by simp only [List.length_drop]; omega)
      (by have := take_agree_drop hag 6
          exact take_agree_of_le this (by omega))
  · rw [← getElem?_take_agree hag (by omega)]
    exact hbrace
  · exact findCharL_congr_take hkk
      (by have := take_agree_drop hag (7 + w1)
          exact take_agree_of_le this (by omega))
  · exact wsCount_congr_take hw2v (by simp only [List.length_drop]; omega)
      (by have := take_agree_drop hag (8 + w1 + kk)
          exact take_agree_of_le this (by omega))
  · rw [← @prefixCS_congr_take fromLit _ _
      (by have := take_agree_drop hag (8 + w1 + kk + w2)
          exact @take_agree_of_le (s.drop (8 + w1 + kk + w2)) _ _ _ this
            (by rw [show fromLit.length = 4 from rfl]; omega))]
    exact hfrom
  · exact wsCount_congr_take hw3v (by simp only [List.length_drop]; omega)
      (by have := take_agree_drop hag (12 + w1 + kk + w2)
          exact take_agree_of_le this (by omega))
  · rw [← getElem?_take_agree hag (by omega)]
    exact hq1p
  · rw [← @prefixCS_congr_take svelteBayLit _ _
      (by have := take_agree_drop hag (13 + w1 + kk + w2 + w3)
          exact @take_agree_of_le (s.drop (13 + w1 + kk + w2 + w3)) _ _ _ this
            (by rw [show svelteBayLit.length = 10 from rfl]; omega))]
    exact hsv
  · rw [← getElem?_take_agree hag (by omega)]
    exact hq2p
  · rw [hcap]
    have hgr := take_agree_of_le (take_agree_drop hag (7 + w1))
      (show kk ≤ L - (7 + w1) from by omega)
    rw [hgr]

theorem importHere_last_quote {s : Doc} {L : Nat} {cap : Doc}
    (h : importHere s = some (L, cap)) :
    ∃ qc, s[L - 1]? = some qc ∧ isQuoteChar qc = true := by
  obtain ⟨w1, kk, w2, w3, hpre, hw1v, hw1, hbrace, hkk, hkk1, hw2v, hw2, hfrom, hw3v, hw3,
    ⟨q1, hq1p, hq1⟩, hsv, ⟨q2, hq2p, hq2⟩, hL, hcap⟩ := importHere_spec_of_some h
  refine ⟨q2, ?_, hq2⟩
  rw [show L - 1 = 23 + w1 + kk + w2 + w3 from by omega]
  exact hq2p

theorem importHere_append_of_some {s : Doc} {L : Nat} {cap : Doc} (t : Doc)
    (h : importHere s = some (L, cap)) : importHere (s ++ t) = some (L, cap) := by
  have hle := (importHere_bounds h).2
  exact importHere_congr_take h (List.take_append_of_le_length hle).symm

theorem importHere_restrict {s t : Doc} {L : Nat} {cap : Doc}
    (h : importHere (s ++ t) = some (L, cap)) (hle : L ≤ s.length) :
    importHere s = some (L, cap) :=
  importHere_congr_take h (List.take_append_of_le_length hle)

theorem findImport_append_noquote {s t : Doc} {j l2 : Nat} {cap : Doc}
    (h : findImport s = some (j, l2, cap)) (ht : ∀ c ∈ t, isQuoteChar c = false) :
    findImport (s ++ t) = some (j, l2, cap) := by
  obtain ⟨h1, h2, h3⟩ := (scanL_eq_some_iff _ _ _ _).mp h
  have hjb := (importHere_bounds h3).2
  rw [List.length_drop] at hjb
  have hjs : j ≤ s.length := by
    have := (importHere_bounds h3).1
    omega
  refine (scanL_eq_some_iff _ _ _ _).mpr ⟨by simp; omega, ?_, ?_⟩
  · intro q hq
    rw [List.drop_append_of_le_length (by omega)]
    cases himp : importHere (s.drop q ++ t) with
    | none => rfl
    | some p =>
      obtain ⟨L', c'⟩ := p
      exfalso
      obtain ⟨qc, hqc, hqcq⟩ := importHere_last_quote himp
      rcases Nat.lt_or_ge (L' - 1) (s.drop q).length with hin | hout
      · have : importHere (s.drop q) = some (L', c') := by
          apply importHere_restrict himp
          have := (importHere_bounds himp).1
          omega
        rw [h2 q hq] at this
        exact absurd this (by simp)
      · rw [List.getElem?_append_right hout] at hqc
        have := ht qc (mem_of_getElem?_eq hqc)
        rw [this] at hqcq
        exact absurd hqcq (by simp)
  · rw [List.drop_append_of_le_length hjs]
    exact importHere_append_of_some t h3

/-! ## Convergence-case lemmas for the simple driver -/

theorem analyzeS_prepend (d : Doc) :
    FileUtils.analyzeSvelteFile (FileUtils.scriptBlockText ++ d) =
      { hasScriptTag := true, scriptTagStart := 0, scriptTagEnd := 74,
        scriptContentStart := 8, scriptContentEnd := 65,
        hasCreateBayImport := true, hasSvelteBayImport := true,
        svelteBayImportLine :=
          some "import \x7b createBay \x7d from \x27svelte-bay\x27".toList,
        svelteBayImportStart := some 10, svelteBayImportEnd := some 48,
        hasCreateBayCall := true } := by
  have hsh : scriptTagHere (FileUtils.scriptBlockText ++ d) = some 8 := by
    rw [show FileUtils.scriptBlockText ++ d = plainTag ++
      ("\n\timport \x7b createBay \x7d from \x27svelte-bay\x27;\n\n\tcreateBay();\n</script>\n\n".toList ++ d) from rfl]
    exact scriptTagHere_plain _
  have h1 : findScriptTag (FileUtils.scriptBlockText ++ d) = some (0, 8) :=
    scanL_head _ _ _ hsh
  have hdrop : (FileUtils.scriptBlockText ++ d).drop (0 + 8) =
      "\n\timport \x7b createBay \x7d from \x27svelte-bay\x27;\n\n\tcreateBay();\n</script>\n\n".toList ++ d := rfl
  have h2 : findSubCI closeLit
      ("\n\timport \x7b createBay \x7d from \x27svelte-bay\x27;\n\n\tcreateBay();\n</script>\n\n".toList ++ d) =
      some 57 := findSubCI_append_of_some d (by decide)
  have htake :
      ("\n\timport \x7b createBay \x7d from \x27svelte-bay\x27;\n\n\tcreateBay();\n</script>\n\n".toList ++ d).take 57 =
      "\n\timport \x7b createBay \x7d from \x27svelte-bay\x27;\n\n\tcreateBay();\n".toList := rfl
  unfold FileUtils.analyzeSvelteFile
  rw [h1]
  dsimp only
  rw [hdrop, h2]
  dsimp only
  rw [htake]
  decide

theorem analyzeS_import_imp_tag (d : Doc)
    (h : (FileUtils.analyzeSvelteFile d).hasCreateBayImport = true) :
    (FileUtils.analyzeSvelteFile d).hasScriptTag = true := by
  revert h
  unfold FileUtils.analyzeSvelteFile
  repeat' (first | split | dsimp only)
  all_goals intro h
  all_goals first | rfl | trivial | exact absurd h (by simp)

theorem initConvergence_noop (d : Doc)
    (h1 : (FileUtils.analyzeSvelteFile d).hasCreateBayImport = true)
    (h2 : (FileUtils.analyzeSvelteFile d).hasCreateBayCall = true) :
    FileUtils.initConvergence d = d := by
  have hs := analyzeS_import_imp_tag d h1
  simp only [FileUtils.initConvergence, hs, h1, h2, Bool.not_true, Bool.false_eq_true,
    if_false, Bool.and_self, if_true]

theorem initConvergence_no_tag (d : Doc)
    (h : (FileUtils.analyzeSvelteFile d).hasScriptTag = false) :
    FileUtils.initConvergence d = FileUtils.scriptBlockText ++ d := by
  simp only [FileUtils.initConvergence, h, Bool.not_false, if_true]
  rfl

theorem convergence_no_tag_case (d : Doc)
    (h : (FileUtils.analyzeSvelteFile d).hasScriptTag = false) :
    (FileUtils.analyzeSvelteFile (FileUtils.initConvergence d)).hasCreateBayImport = true ∧
    (FileUtils.analyzeSvelteFile (FileUtils.initConvergence d)).hasCreateBayCall = true := by
  rw [initConvergence_no_tag d h, analyzeS_prepend d]
  exact ⟨rfl, rfl⟩

theorem analyzeS_wf_imp (d : Doc) (i len k j l2 : Nat) (cap : Doc)
    (hws : findScriptTag d = some (i, len))
    (hcl : findSubCI closeLit (d.drop (i + len)) = some k)
    (himp : findImport ((d.drop (i + len)).take k) = some (j, l2, cap)) :
    FileUtils.analyzeSvelteFile d =
      { hasScriptTag := true
        scriptTagStart := (i : Int)
        scriptContentStart := ((i + len : Nat) : Int)
        scriptContentEnd := ((i + len + k : Nat) : Int)
        scriptTagEnd := ((i + len + k + 9 : Nat) : Int)
        hasCreateBayCall := hasCall ((d.drop (i + len)).take k)
        hasSvelteBayImport := true
        svelteBayImportLine := some ((((d.drop (i + len)).take k).drop j).take l2)
        svelteBayImportStart := some ((i + len + j : Nat) : Int)
        svelteBayImportEnd := some ((i + len + j + l2 : Nat) : Int)
        hasCreateBayImport := ((splitComma cap).map trimL).contains createBayLit } := by
  unfold FileUtils.analyzeSvelteFile
  rw [hws]
  dsimp only
  rw [hcl]
  dsimp only
  rw [himp]

theorem analyzeS_wf_noimp (d : Doc) (i len k : Nat)
    (hws : findScriptTag d = some (i, len))
    (hcl : findSubCI closeLit (d.drop (i + len)) = some k)
    (himp : findImport ((d.drop (i + len)).take k) = none) :
    FileUtils.analyzeSvelteFile d =
      { hasScriptTag := true
        scriptTagStart := (i : Int)
        scriptContentStart := ((i + len : Nat) : Int)
        scriptContentEnd := ((i + len + k : Nat) : Int)
        scriptTagEnd := ((i + len + k + 9 : Nat) : Int)
        hasCreateBayCall := hasCall ((d.drop (i + len)).take k) } := by
  unfold FileUtils.analyzeSvelteFile
  rw [hws]
  dsimp only
  rw [hcl]
  dsimp only
  rw [himp]

theorem hasCall_append_right {b : Doc} (a : Doc) (h : hasCall b = true) :
    hasCall (a ++ b) = true := by
  induction a with
  | nil => simpa using h
  | cons c a2 ih =>
    rw [List.cons_append]
    show (callHere (c :: (a2 ++ b)) || hasCall (a2 ++ b)) = true
    rw [ih]
    simp

theorem take_left_len (a b : Doc) : (a ++ b).take a.length = a := by
  rw [show a.length = a.length + 0 from by omega, take_len_plus]
  simp

theorem drop_left_of_len {a : Doc} (b : Doc) {n : Nat} (h : a.length = n) :
    (a ++ b).drop n = b := by
  rw [← h]
  exact List.drop_left a b

theorem take_left_of_len {a : Doc} (b : Doc) {n : Nat} (h : a.length = n) :
    (a ++ b).take n = a := by
  rw [← h]
  exact take_left_len a b

theorem convergence_call_case (d : Doc) (i len k j l2 : Nat) (cap : Doc)
    (hws : findScriptTag d = some (i, len))
    (hcl : findSubCI closeLit (d.drop (i + len)) = some k)
    (himp : findImport ((d.drop (i + len)).take k) = some (j, l2, cap)) :
    (FileUtils.analyzeSvelteFile
        (FileUtils.addCreateBayCall d (FileUtils.analyzeSvelteFile d))).hasCreateBayImport =
      ((splitComma cap).map trimL).contains createBayLit ∧
    (FileUtils.analyzeSvelteFile
        (FileUtils.addCreateBayCall d (FileUtils.analyzeSvelteFile d))).hasCreateBayCall = true := by
  obtain ⟨h1s, h2s, h3s⟩ := (scanL_eq_some_iff _ _ _ _).mp hws
  obtain ⟨hL8, hLb⟩ := scriptTagHere_some_bounds h3s
  rw [List.length_drop] at hLb
  have hil : i + len ≤ d.length := by omega
  obtain ⟨hc1, hc2, hc3⟩ := (findSubCI_eq_some_iff _ _ _).mp hcl
  have hc9 := prefixCI_length_le hc3
  rw [show closeLit.length = 9 from rfl, List.length_drop, List.length_drop] at hc9
  have hk9 : i + len + k + 9 ≤ d.length := by omega
  have hPlen : (d.take (i + len)).length = i + len := by
    rw [List.length_take]
    omega
  have hsclen : ((d.drop (i + len)).take k).length = k := by
    rw [List.length_take, List.length_drop]
    omega
  have hafter : (d.drop (i + len)).drop k = d.drop (i + len + k) := by
    rw [List.drop_drop]
  have hXdec : d.drop (i + len) = (d.drop (i + len)).take k ++ d.drop (i + len + k) := by
    rw [← hafter, List.take_append_drop]
  have hd : d = d.take (i + len) ++ ((d.drop (i + len)).take k ++ d.drop (i + len + k)) := by
    rw [← hXdec, List.take_append_drop]
  have hc3' : prefixCI closeLit (d.drop (i + len + k)) = true := by
    rw [← hafter]
    exact hc3
  have hout : FileUtils.addCreateBayCall d (FileUtils.analyzeSvelteFile d) =
      d.take (i + len) ++
        (((d.drop (i + len)).take k ++ FileUtils.callText) ++ d.drop (i + len + k)) := by
    rw [analyzeS_wf_imp d i len k j l2 cap hws hcl himp]
    unfold FileUtils.addCreateBayCall
    dsimp only
    rw [jsSlice_zero_nat d (i + len) hil,
      jsSlice_nat_nat d (i + len) (i + len + k) (by omega) (by omega),
      jsSlice_nat_none d (i + len + k)]
    rw [show i + len + k - (i + len) = k from by omega]
    simp only [List.append_assoc]
  have htag : findScriptTag (d.take (i + len) ++
      (((d.drop (i + len)).take k ++ FileUtils.callText) ++ d.drop (i + len + k))) =
      some (i, len) := by
    apply findScriptTag_congr_suffix (d.take (i + len))
      ((d.drop (i + len)).take k ++ d.drop (i + len + k)) _ i len (by omega)
    rw [← hXdec, List.take_append_drop]
    exact hws
  have hdropP : (d.take (i + len) ++
      (((d.drop (i + len)).take k ++ FileUtils.callText) ++ d.drop (i + len + k))).drop (i + len) =
      ((d.drop (i + len)).take k ++ FileUtils.callText) ++ d.drop (i + len + k) := by
    exact drop_left_of_len _ hPlen
  have hctfree : closeFreeIn FileUtils.callText := by
    intro q hq
    rw [show FileUtils.callText.length = 16 from by decide] at hq
    have hq5 : q ≤ 7 := by omega
    interval_cases q <;> decide
  have hscq : closeFreeIn ((d.drop (i + len)).take k ++ FileUtils.callText) := by
    apply closeFreeIn_append (closeFreeIn_of_leftmost hcl) hctfree
    intro m h1 h8 hm
    exact Or.inr (by interval_cases m <;> decide)
  have hcl2 : findSubCI closeLit (((d.drop (i + len)).take k ++ FileUtils.callText) ++
      d.drop (i + len + k)) = some (k + 16) := by
    have := findSubCI_close_splice hscq hc3'
    rwa [List.length_append, hsclen, show FileUtils.callText.length = 16 from by decide] at this
  have htk : (((d.drop (i + len)).take k ++ FileUtils.callText) ++
      d.drop (i + len + k)).take (k + 16) = (d.drop (i + len)).take k ++ FileUtils.callText := by
    apply take_left_of_len
    rw [List.length_append, hsclen, show FileUtils.callText.length = 16 from by decide]
  have himp2 : findImport ((((d.drop (i + len)).take k ++ FileUtils.callText) ++
      d.drop (i + len + k)).take (k + 16)) = some (j, l2, cap) := by
    rw [htk]
    exact findImport_append_noquote himp (by decide)
  rw [hout]
  rw [analyzeS_wf_imp _ i len (k + 16) j l2 cap htag (by rw [hdropP]; exact hcl2) (by rw [hdropP]; exact himp2)]
  refine ⟨rfl, ?_⟩
  show hasCall ((d.take (i + len) ++
    (((d.drop (i + len)).take k ++ FileUtils.callText) ++ d.drop (i + len + k))).drop (i + len) |>.take (k + 16)) = true
  rw [hdropP, htk]
  exact hasCall_append_right _ (by decide)

theorem hasCall_append_of_none {a b : Doc}
    (h : ∀ q < a.length, callHere (a.drop q ++ b) = false) :
    hasCall (a ++ b) = hasCall b := by
  induction a with
  | nil => simp
  | cons c a2 ih =>
    rw [List.cons_append]
    show (callHere (c :: (a2 ++ b)) || hasCall (a2 ++ b)) = hasCall b
    have h0 := h 0 (by simp)
    rw [List.drop_zero, List.cons_append] at h0
    rw [h0]
    rw [ih (fun q hq => by
      have := h (q + 1) (by simp; omega)
      simpa using this)]
    simp

theorem callHere_newImp_drop (q : Nat) (hq : q < 41) (X : Doc) :
    callHere (FileUtils.newImportText.drop q ++ X) = false := by
  interval_cases q <;> rfl

theorem hasCall_newImp (X : Doc) :
    hasCall (FileUtils.newImportText ++ X) = hasCall X := by
  apply hasCall_append_of_none
  intro q hq
  rw [show FileUtils.newImportText.length = 41 from by decide] at hq
  exact callHere_newImp_drop q hq X

theorem findImport_newImp (X : Doc) :
    findImport (FileUtils.newImportText ++ X) = some (2, 38, " createBay ".toList) := by
  refine (scanL_eq_some_iff _ _ _ _).mpr
    ⟨by rw [List.length_append, show FileUtils.newImportText.length = 41 from by decide]; omega,
     ?_, ?_⟩
  · intro q hq
    interval_cases q
    · rw [show (FileUtils.newImportText ++ X).drop 0 =
        '\n' :: ("\timport \x7b createBay \x7d from \x27svelte-bay\x27;".toList ++ X) from rfl]
      rfl
    · rw [show (FileUtils.newImportText ++ X).drop 1 =
        '\t' :: ("import \x7b createBay \x7d from \x27svelte-bay\x27;".toList ++ X) from rfl]
      rfl
  · rw [show (FileUtils.newImportText ++ X).drop 2 =
      "import \x7b createBay \x7d from \x27svelte-bay\x27;".toList ++ X from rfl]
    exact importHere_append_of_some X (by decide)

theorem initConvergence_eq_noop_branch (d : Doc)
    (ht : (FileUtils.analyzeSvelteFile d).hasScriptTag = true)
    (hi : (FileUtils.analyzeSvelteFile d).hasCreateBayImport = true)
    (hc : (FileUtils.analyzeSvelteFile d).hasCreateBayCall = true) :
    FileUtils.initConvergence d = d := by
  simp only [FileUtils.initConvergence, ht, hi, hc, Bool.not_true, Bool.false_eq_true,
    if_false, Bool.and_self, if_true]

theorem initConvergence_eq_call_branch (d : Doc)
    (ht : (FileUtils.analyzeSvelteFile d).hasScriptTag = true)
    (hi : (FileUtils.analyzeSvelteFile d).hasCreateBayImport = true)
    (hc : (FileUtils.analyzeSvelteFile d).hasCreateBayCall = false) :
    FileUtils.initConvergence d =
      FileUtils.addCreateBayCall d (FileUtils.analyzeSvelteFile d) := by
  simp only [FileUtils.initConvergence, ht, hi, hc, Bool.not_true, Bool.and_false,
    Bool.false_eq_true, if_false]

theorem initConvergence_eq_import_branch (d : Doc)
    (ht : (FileUtils.analyzeSvelteFile d).hasScriptTag = true)
    (hi : (FileUtils.analyzeSvelteFile d).hasCreateBayImport = false) :
    FileUtils.initConvergence d =
      (if (FileUtils.analyzeSvelteFile
            (FileUtils.addCreateBayImport d (FileUtils.analyzeSvelteFile d))).hasCreateBayCall
       then FileUtils.addCreateBayImport d (FileUtils.analyzeSvelteFile d)
       else FileUtils.addCreateBayCall
            (FileUtils.addCreateBayImport d (FileUtils.analyzeSvelteFile d))
            (FileUtils.analyzeSvelteFile
              (FileUtils.addCreateBayImport d (FileUtils.analyzeSvelteFile d)))) := by
  simp only [FileUtils.initConvergence, ht, hi, Bool.not_false, Bool.false_and,
    Bool.false_eq_true, if_false, if_true]
  cases hcall : (FileUtils.analyzeSvelteFile
      (FileUtils.addCreateBayImport d (FileUtils.analyzeSvelteFile d))).hasCreateBayCall with
  | true => simp [hcall]
  | false => simp [hcall]

theorem convergence_noimp_case (d : Doc) (i len k : Nat)
    (hws : findScriptTag d = some (i, len))
    (hcl : findSubCI closeLit (d.drop (i + len)) = some k)
    (himp : findImport ((d.drop (i + len)).take k) = none) :
    (FileUtils.analyzeSvelteFile (FileUtils.initConvergence d)).hasCreateBayImport = true ∧
    (FileUtils.analyzeSvelteFile (FileUtils.initConvergence d)).hasCreateBayCall = true := by
  obtain ⟨h1s, h2s, h3s⟩ := (scanL_eq_some_iff _ _ _ _).mp hws
  obtain ⟨hL8, hLb⟩ := scriptTagHere_some_bounds h3s
  rw [List.length_drop] at hLb
  have hil : i + len ≤ d.length := by omega
  obtain ⟨hc1, hc2, hc3⟩ := (findSubCI_eq_some_iff _ _ _).mp hcl
  have hc9 := prefixCI_length_le hc3
  rw [show closeLit.length = 9 from rfl, List.length_drop, List.length_drop] at hc9
  have hPlen : (d.take (i + len)).length = i + len := by
    rw [List.length_take]
    omega
  have hsclen : ((d.drop (i + len)).take k).length = k := by
    rw [List.length_take, List.length_drop]
    omega
  have hafter : (d.drop (i + len)).drop k = d.drop (i + len + k) := by
    rw [List.drop_drop]
  have hXdec : d.drop (i + len) = (d.drop (i + len)).take k ++ d.drop (i + len + k) := by
    rw [← hafter, List.take_append_drop]
  have hc3' : prefixCI closeLit (d.drop (i + len + k)) = true := by
    rw [← hafter]
    exact hc3
  have hrec := analyzeS_wf_noimp d i len k hws hcl himp
  have ht : (FileUtils.analyzeSvelteFile d).hasScriptTag = true := by rw [hrec]
  have hi : (FileUtils.analyzeSvelteFile d).hasCreateBayImport = false := by rw [hrec]
  have hc1eq : FileUtils.addCreateBayImport d (FileUtils.analyzeSvelteFile d) =
      d.take (i + len) ++
        ((FileUtils.newImportText ++ (d.drop (i + len)).take k) ++ d.drop (i + len + k)) := by
    rw [hrec]
    unfold FileUtils.addCreateBayImport
    dsimp only
    rw [jsSlice_zero_nat d (i + len) hil, jsSlice_nat_none d (i + len)]
    conv_lhs => rw [hXdec]
    simp only [List.append_assoc]
  have hnIlen : (FileUtils.newImportText ++ (d.drop (i + len)).take k).length = 41 + k := by
    rw [List.length_append, hsclen, show FileUtils.newImportText.length = 41 from by decide]
  have htag2 : findScriptTag (d.take (i + len) ++
      ((FileUtils.newImportText ++ (d.drop (i + len)).take k) ++ d.drop (i + len + k))) =
      some (i, len) := by
    apply findScriptTag_congr_suffix (d.take (i + len))
      ((d.drop (i + len)).take k ++ d.drop (i + len + k)) _ i len (by omega)
    rw [← hXdec, List.take_append_drop]
    exact hws
  have hdropP2 : (d.take (i + len) ++
      ((FileUtils.newImportText ++ (d.drop (i + len)).take k) ++ d.drop (i + len + k))).drop
        (i + len) =
      (FileUtils.newImportText ++ (d.drop (i + len)).take k) ++ d.drop (i + len + k) :=
    drop_left_of_len _ hPlen
  have hscfree2 : closeFreeIn (FileUtils.newImportText ++ (d.drop (i + len)).take k) :=
    closeFreeIn_noTag_append (by decide) (closeFreeIn_of_leftmost hcl)
  have hcl2 : findSubCI closeLit ((FileUtils.newImportText ++ (d.drop (i + len)).take k) ++
      d.drop (i + len + k)) = some (41 + k) := by
    have := findSubCI_close_splice hscfree2 hc3'
    rwa [hnIlen] at this
  have htk2 : ((FileUtils.newImportText ++ (d.drop (i + len)).take k) ++
      d.drop (i + len + k)).take (41 + k) =
      FileUtils.newImportText ++ (d.drop (i + len)).take k :=
    take_left_of_len _ hnIlen
  have himp2 : findImport (((FileUtils.newImportText ++ (d.drop (i + len)).take k) ++
      d.drop (i + len + k)).take (41 + k)) = some (2, 38, " createBay ".toList) := by
    rw [htk2]
    exact findImport_newImp _
  have hupd := analyzeS_wf_imp
    (d.take (i + len) ++
      ((FileUtils.newImportText ++ (d.drop (i + len)).take k) ++ d.drop (i + len + k)))
    i len (41 + k) 2 38 " createBay ".toList htag2
    (by rw [hdropP2]; exact hcl2) (by rw [hdropP2]; exact himp2)
  have hcallupd : (FileUtils.analyzeSvelteFile
      (d.take (i + len) ++
        ((FileUtils.newImportText ++ (d.drop (i + len)).take k) ++
          d.drop (i + len + k)))).hasCreateBayCall =
      hasCall ((d.drop (i + len)).take k) := by
    rw [hupd]
    show hasCall (((d.take (i + len) ++
      ((FileUtils.newImportText ++ (d.drop (i + len)).take k) ++
        d.drop (i + len + k))).drop (i + len)).take (41 + k)) = _
    rw [hdropP2, htk2]
    exact hasCall_newImp _
  have himpupd : (FileUtils.analyzeSvelteFile
      (d.take (i + len) ++
        ((FileUtils.newImportText ++ (d.drop (i + len)).take k) ++
          d.drop (i + len + k)))).hasCreateBayImport = true := by
    rw [hupd]
    show ((splitComma " createBay ".toList).map trimL).contains createBayLit = true
    decide
  rw [initConvergence_eq_import_branch d ht hi, hc1eq]
  cases hcall : hasCall ((d.drop (i + len)).take k) with
  | true =>
    rw [if_pos (by rw [hcallupd]; exact hcall)]
    refine ⟨himpupd, ?_⟩
    rw [hcallupd]
    exact hcall
  | false =>
    rw [if_neg (by rw [hcallupd, hcall]; exact fun h => absurd h (by simp))]
    have := convergence_call_case
      (d.take (i + len) ++
        ((FileUtils.newImportText ++ (d.drop (i + len)).take k) ++ d.drop (i + len + k)))
      i len (41 + k) 2 38 " createBay ".toList htag2
      (by rw [hdropP2]; exact hcl2) (by rw [hdropP2]; exact himp2)
    refine ⟨?_, this.2⟩
    rw [this.1]
    decide


/-! ## The import-merge rebuild (claim C2) -/

/-- `importHere` on a rebuilt two-symbol import reduces to locating the
closing brace of the capture. -/
theorem importHere_mergedTwo_red (A B : Doc) :
    importHere (mergedTwo A B) =
      match findCharL '\x7d' (mergedTwoS2 A B) with
      | some k => importHereCont A B k
      | none => none := rfl

theorem importHereTail_concrete (s2 : Doc) (k : Nat) :
    importHereTail s2 k (" from \x27svelte-bay\x27".toList) =
      some (6 + 1 + 1 + k + 1 + 1 + 4 + 1 + 1 + 10 + 1, s2.take k) := rfl

theorem mergedImportText_two (A B : Doc) :
    FileUtils.mergedImportText [A, B] = mergedTwo A B := by
  unfold FileUtils.mergedImportText
  rw [show (([A, B] : List Doc).length == 0) = false from rfl]
  simp only [Bool.false_eq_true, if_false, joinCommaSp, List.append_assoc]
  rfl

theorem splitComma_cons_comma (ys : Doc) : splitComma (',' :: ys) = [] :: splitComma ys := by
  simp [splitComma]

theorem splitComma_append_nocomma {xs ys : Doc} {hd : Doc} {tl : List Doc}
    (h : ∀ c ∈ xs, (c == ',') = false) (hys : splitComma ys = hd :: tl) :
    splitComma (xs ++ ys) = (xs ++ hd) :: tl := by
  induction xs with
  | nil => simpa using hys
  | cons c rest ih =>
    have hc : (c == ',') = false := h c (by simp)
    have hr := ih (fun c' hc' => h c' (by simp [hc']))
    simp only [List.cons_append, splitComma, hc, Bool.false_eq_true, if_false, List.append_eq]
    rw [hr]

theorem splitComma_nocomma {xs : Doc} (h : ∀ c ∈ xs, (c == ',') = false) :
    splitComma xs = [xs] := by
  have h0 : splitComma ([] : Doc) = [] :: [] := rfl
  have := splitComma_append_nocomma h h0
  simpa using this

theorem symbolClean_no_brace {A : Doc} (h : symbolClean A = true) :
    findCharL '\x7d' A = none := by
  rw [findCharL_eq_none_iff]
  intro c hc
  have := (List.all_eq_true.mp h) c hc
  simp only [Bool.and_eq_true, Bool.not_eq_true'] at this
  exact this.2

theorem symbolClean_no_comma {A : Doc} (h : symbolClean A = true) :
    ∀ c ∈ A, (c == ',') = false := by
  intro c hc
  have := (List.all_eq_true.mp h) c hc
  simp only [Bool.and_eq_true, Bool.not_eq_true'] at this
  exact this.1

theorem trimStartL_cons_ws {c : Char} (s : Doc) (hc : isWsChar c = true) :
    trimStartL (c :: s) = trimStartL s := by
  simp [trimStartL, List.dropWhile_cons, hc]

theorem trimEndL_append_ws {c : Char} (s : Doc) (hc : isWsChar c = true) :
    trimEndL (s ++ [c]) = trimEndL s := by
  simp [trimEndL, List.dropWhile_cons, hc]

theorem trimL_sp (A : Doc) (h1 : trimStartL A = A) (h2 : trimEndL A = A) :
    trimL (' ' :: A) = A := by
  unfold trimL
  rw [trimStartL_cons_ws A (by decide), h1, h2]

theorem dropWhile_length_le (p : Char → Bool) (l : Doc) :
    (l.dropWhile p).length ≤ l.length := by
  induction l with
  | nil => simp
  | cons c r ih =>
    rw [List.dropWhile_cons]
    split
    · exact le_trans ih (by simp)
    · simp

theorem head_not_ws_of_trimStartL {b : Char} {B2 : Doc} (h : trimStartL (b :: B2) = b :: B2) :
    isWsChar b = false := by
  by_contra hb
  rw [Bool.not_eq_false] at hb
  rw [trimStartL, List.dropWhile_cons, if_pos hb] at h
  have := dropWhile_length_le isWsChar B2
  rw [h] at this
  simp at this

theorem trimL_sp_wrap (B : Doc) (h1 : trimStartL B = B) (h2 : trimEndL B = B) :
    trimL (' ' :: (B ++ [' '])) = B := by
  unfold trimL
  rw [trimStartL_cons_ws _ (by decide)]
  cases B with
  | nil => decide
  | cons b B2 =>
    have hb : isWsChar b = false := head_not_ws_of_trimStartL h1
    have hstep : trimStartL ((b :: B2) ++ [' ']) = (b :: B2) ++ [' '] := by
      simp [trimStartL, List.dropWhile_cons, hb]
    rw [hstep, trimEndL_append_ws _ (by decide), h2]

theorem findCharL_mergedTwoS2 (A B : Doc) (hA : symbolClean A = true) (hB : symbolClean B = true) :
    findCharL '\x7d' (mergedTwoS2 A B) = some (A.length + B.length + 15) := by
  have h1 : findCharL '\x7d' (B ++ " \x7d from \x27svelte-bay\x27".toList) = some (1 + B.length) := by
    rw [findCharL_append_of_none _ (symbolClean_no_brace hB)]
    rfl
  have h2 : findCharL '\x7d' (", ".toList ++ (B ++ " \x7d from \x27svelte-bay\x27".toList)) =
      some (1 + B.length + 2) := by
    rw [findCharL_append_of_none _ (by decide), h1]
    rfl
  have h3 : findCharL '\x7d' (A ++ (", ".toList ++ (B ++ " \x7d from \x27svelte-bay\x27".toList))) =
      some (1 + B.length + 2 + A.length) := by
    rw [findCharL_append_of_none _ (symbolClean_no_brace hA), h2]
    rfl
  have h12 : ((" createBay, ".toList : Doc)).length = 12 := rfl
  unfold mergedTwoS2
  rw [findCharL_append_of_none _ (by decide), h3]
  simp only [Option.map_some']
  exact congrArg some (by rw [h12]; omega)

theorem importHereCont_eval (A B : Doc) :
    importHereCont A B (A.length + B.length + 15) =
      some (6 + 1 + 1 + (A.length + B.length + 15) + 1 + 1 + 4 + 1 + 1 + 10 + 1,
        " createBay, ".toList ++ (A ++ (", ".toList ++ (B ++ [' '])))) := by
  have hk0 : ((A.length + B.length + 15 : Nat) == 0) = false := by
    simp
  have h12 : ((" createBay, ".toList : Doc)).length = 12 := rfl
  have hc2 : (((", ".toList : Doc))).length = 2 := rfl
  have hdrop : (mergedTwoS2 A B).drop (A.length + B.length + 15 + 1) =
      " from \x27svelte-bay\x27".toList := by
    unfold mergedTwoS2
    rw [show A.length + B.length + 15 + 1 =
      ((" createBay, ".toList : Doc)).length +
        (A.length + ((((", ".toList : Doc))).length + (B.length + 2))) from by rw [h12, hc2]; omega]
    rw [drop_len_plus, drop_len_plus, drop_len_plus, drop_len_plus]
    rfl
  have htake : (mergedTwoS2 A B).take (A.length + B.length + 15) =
      " createBay, ".toList ++ (A ++ (", ".toList ++ (B ++ [' ']))) := by
    unfold mergedTwoS2
    rw [show A.length + B.length + 15 =
      ((" createBay, ".toList : Doc)).length +
        (A.length + ((((", ".toList : Doc))).length + (B.length + 1))) from by rw [h12, hc2]; omega]
    rw [take_len_plus, take_len_plus, take_len_plus, take_len_plus]
    rfl
  unfold importHereCont
  rw [hk0]
  simp only [Bool.false_eq_true, if_false]
  rw [hdrop, importHereTail_concrete, htake]

theorem importHere_mergedTwo (A B : Doc) (hA : symbolClean A = true) (hB : symbolClean B = true) :
    importHere (mergedTwo A B) =
      some (6 + 1 + 1 + (A.length + B.length + 15) + 1 + 1 + 4 + 1 + 1 + 10 + 1,
        " createBay, ".toList ++ (A ++ (", ".toList ++ (B ++ [' '])))) := by
  rw [importHere_mergedTwo_red, findCharL_mergedTwoS2 A B hA hB]
  exact importHereCont_eval A B

theorem mergedTwo_symbols (A B : Doc) (hA : symbolClean A = true) (hB : symbolClean B = true)
    (hA1 : trimStartL A = A) (hA2 : trimEndL A = A)
    (hB1 : trimStartL B = B) (hB2 : trimEndL B = B) :
    (importHere (mergedTwo A B)).map (fun p => (splitComma p.2).map trimL) =
      some [createBayLit, A, B] := by
  rw [importHere_mergedTwo A B hA hB, Option.map_some']
  refine congrArg some ?_
  have hcap : (" createBay, ".toList ++ (A ++ (", ".toList ++ (B ++ [' '])))) =
      " createBay".toList ++ (',' :: (' ' :: (A ++ (',' :: (' ' :: (B ++ [' '])))))) := rfl
  have hwrapno : ∀ c ∈ (' ' :: (B ++ [' '])), (c == ',') = false := by
    intro c hc
    rcases List.mem_cons.mp hc with rfl | hc2
    · rfl
    · rcases List.mem_append.mp hc2 with hb | hl
      · exact symbolClean_no_comma hB c hb
      · rw [List.mem_singleton.mp hl]
        rfl
  have hsB : splitComma (' ' :: (B ++ [' '])) = [' ' :: (B ++ [' '])] :=
    splitComma_nocomma hwrapno
  have hsB2 : splitComma (',' :: (' ' :: (B ++ [' ']))) = [] :: [' ' :: (B ++ [' '])] := by
    rw [splitComma_cons_comma, hsB]
  have hAno : ∀ c ∈ (' ' :: A), (c == ',') = false := by
    intro c hc
    rcases List.mem_cons.mp hc with rfl | hc2
    · rfl
    · exact symbolClean_no_comma hA c hc2
  have hsA : splitComma ((' ' :: A) ++ (',' :: (' ' :: (B ++ [' '])))) =
      (' ' :: A) :: [' ' :: (B ++ [' '])] := by
    have := splitComma_append_nocomma hAno hsB2
    simpa using this
  have hsA2 : splitComma (',' :: ((' ' :: A) ++ (',' :: (' ' :: (B ++ [' ']))))) =
      [] :: ((' ' :: A) :: [' ' :: (B ++ [' '])]) := by
    rw [splitComma_cons_comma, hsA]
  have hc10 : ∀ c ∈ (" createBay".toList : Doc), (c == ',') = false := by decide
  have hsTop := splitComma_append_nocomma hc10 hsA2
  rw [hcap]
  rw [show ((" createBay".toList : Doc) ++ (',' :: (' ' :: (A ++ (',' :: (' ' :: (B ++ [' '])))))) : Doc) =
    (" createBay".toList : Doc) ++ (',' :: ((' ' :: A) ++ (',' :: (' ' :: (B ++ [' ']))))) from rfl]
  rw [hsTop]
  simp only [List.map_cons, List.map_nil, List.append_nil]
  rw [trimL_sp A hA1 hA2, trimL_sp_wrap B hB1 hB2]
  rw [show trimL ((" createBay".toList : Doc)) = createBayLit from by decide]

/-! ## Pieces, trims and the rebuilt import of the merge step -/

theorem prefixCS_iff_take {pat : Doc} : ∀ {s : Doc}, prefixCS pat s = true ↔ s.take pat.length = pat := by
  induction pat with
  | nil => intro s; simp [prefixCS]
  | cons x ps ih =>
    intro s
    cases s with
    | nil => simp [prefixCS]
    | cons c cs =>
      rw [prefixCS, Bool.and_eq_true, List.length_cons, List.take_succ_cons]
      rw [ih]
      constructor
      · rintro ⟨h1, h2⟩
        rw [beq_iff_eq.mp h1, h2]
      · intro h
        simp only [List.cons.injEq] at h
        exact ⟨beq_iff_eq.mpr h.1.symm, h.2⟩

theorem wsCount_ws_at : ∀ {t : Doc} {w : Nat}, wsCount t = w →
    ∀ i < w, ∃ ch, t[i]? = some ch ∧ isWsChar ch = true := by
  intro t
  induction t with
  | nil => intro w hw i hi; simp [wsCount] at hw; omega
  | cons c rest ih =>
    intro w hw i hi
    cases hc : isWsChar c with
    | false => simp [wsCount, hc] at hw; omega
    | true =>
      simp only [wsCount, hc, if_true] at hw
      cases i with
      | zero => exact ⟨c, by simp, hc⟩
      | succ m =>
        obtain ⟨ch, h1, h2⟩ := @ih (w - 1) (by omega) m (by omega)
        exact ⟨ch, by simpa using h1, h2⟩

theorem splitComma_ne_nil (s : Doc) : splitComma s ≠ [] := by
  induction s with
  | nil => simp [splitComma]
  | cons c rest ih =>
    cases hc : c == ',' with
    | true => simp [splitComma, hc]
    | false =>
      simp only [splitComma, hc, Bool.false_eq_true, if_false]
      cases hs : splitComma rest with
      | nil => simp
      | cons hh tt => simp

theorem splitComma_pieces_nocomma : ∀ {s : Doc}, ∀ p ∈ splitComma s, ∀ c ∈ p, (c == ',') = false := by
  intro s
  induction s with
  | nil => intro p hp c hc; simp [splitComma] at hp; subst hp; simp at hc
  | cons x rest ih =>
    intro p hp c hc
    cases hx : x == ',' with
    | true =>
      simp only [splitComma, hx, if_true, List.mem_cons] at hp
      rcases hp with rfl | hp2
      · simp at hc
      · exact ih p hp2 c hc
    | false =>
      simp only [splitComma, hx, Bool.false_eq_true, if_false] at hp
      cases hs : splitComma rest with
      | nil => exact absurd hs (splitComma_ne_nil rest)
      | cons hh tt =>
        rw [hs] at hp
        simp only [List.mem_cons] at hp
        rcases hp with rfl | hp2
        · rcases List.mem_cons.mp hc with rfl | hc2
          · exact hx
          · exact ih hh (by rw [hs]; simp) c hc2
        · exact ih p (by rw [hs]; simp [hp2]) c hc

theorem splitComma_head_pref : ∀ {s : Doc} {hd : Doc} {tl : List Doc},
    splitComma s = hd :: tl → hd <+: s := by
  intro s
  induction s with
  | nil =>
    intro hd tl h
    simp only [splitComma, List.cons.injEq] at h
    rw [← h.1]
  | cons x rest ih =>
    intro hd tl h
    cases hx : x == ',' with
    | true =>
      simp only [splitComma, hx, if_true, List.cons.injEq] at h
      rw [← h.1]
      exact List.nil_prefix
    | false =>
      simp only [splitComma, hx, Bool.false_eq_true, if_false] at h
      cases hs : splitComma rest with
      | nil => exact absurd hs (splitComma_ne_nil rest)
      | cons hh tt =>
        rw [hs] at h
        simp only [List.cons.injEq] at h
        rw [← h.1]
        exact List.cons_prefix_cons.mpr ⟨rfl, ih hs⟩

theorem splitComma_pieces_within : ∀ {s : Doc}, ∀ p ∈ splitComma s, p <:+: s := by
  intro s
  induction s with
  | nil =>
    intro p hp
    simp only [splitComma, List.mem_singleton] at hp
    rw [hp]
  | cons x rest ih =>
    intro p hp
    cases hx : x == ',' with
    | true =>
      simp only [splitComma, hx, if_true, List.mem_cons] at hp
      rcases hp with rfl | hp2
      · exact List.nil_infix
      · exact List.infix_cons (ih p hp2)
    | false =>
      simp only [splitComma, hx, Bool.false_eq_true, if_false] at hp
      cases hs : splitComma rest with
      | nil => exact absurd hs (splitComma_ne_nil rest)
      | cons hh tt =>
        rw [hs] at hp
        simp only [List.mem_cons] at hp
        rcases hp with rfl | hp2
        · exact (List.cons_prefix_cons.mpr ⟨rfl, splitComma_head_pref hs⟩).isInfix
        · exact List.infix_cons (ih p (by rw [hs]; simp [hp2]))

theorem dropWhile_head_false {p : Char → Bool} : ∀ {l : Doc} {c : Char} {t : Doc},
    l.dropWhile p = c :: t → p c = false := by
  intro l
  induction l with
  | nil => intro c t h; simp at h
  | cons a l2 ih =>
    intro c t h
    rw [List.dropWhile_cons] at h
    split at h
    · exact ih h
    · rename_i ha
      simp only [List.cons.injEq] at h
      rw [← h.1]
      exact Bool.not_eq_true _ ▸ (by simpa using ha)

theorem trimStartL_suffix (s : Doc) : trimStartL s <:+ s :=
  List.dropWhile_suffix _

theorem trimEndL_pref (s : Doc) : trimEndL s <+: s := by
  unfold trimEndL
  have h : s.reverse.dropWhile isWsChar <:+ s.reverse := List.dropWhile_suffix isWsChar
  obtain ⟨u, hu⟩ := h
  refine ⟨u.reverse, ?_⟩
  have := congrArg List.reverse hu
  rw [List.reverse_append, List.reverse_reverse] at this
  rw [this]

theorem trimL_within (s : Doc) : trimL s <:+: s := by
  unfold trimL
  exact (trimEndL_pref (trimStartL s)).isInfix.trans (trimStartL_suffix s).isInfix

theorem trim_subset {s : Doc} {c : Char} (h : c ∈ trimL s) : c ∈ s :=
  (trimL_within s).subset h

theorem dropWhile_idem (p : Char → Bool) (l : Doc) :
    (l.dropWhile p).dropWhile p = l.dropWhile p := by
  cases hd : l.dropWhile p with
  | nil => rfl
  | cons c t =>
    rw [List.dropWhile_cons, dropWhile_head_false hd]
    simp

theorem trimEndL_idem (s : Doc) : trimEndL (trimEndL s) = trimEndL s := by
  unfold trimEndL
  rw [List.reverse_reverse, dropWhile_idem]

theorem trimEndL_trimL (s : Doc) : trimEndL (trimL s) = trimL s := by
  unfold trimL
  exact trimEndL_idem _

theorem trimStartL_trimL (s : Doc) : trimStartL (trimL s) = trimL s := by
  unfold trimL
  cases hq : trimStartL s with
  | nil => rfl
  | cons c q2 =>
    have hc : isWsChar c = false := dropWhile_head_false hq
    cases hte : trimEndL (c :: q2) with
    | nil => rfl
    | cons c2 r =>
      have hpr := trimEndL_pref (c :: q2)
      rw [hte] at hpr
      have hc2 : c2 = c := (List.cons_prefix_cons.mp hpr).1
      rw [hc2]
      unfold trimStartL
      rw [List.dropWhile_cons, hc]
      simp

theorem closeFreeIn_within {s e : Doc} (hs : closeFreeIn s) (he : e <:+: s) :
    closeFreeIn e := by
  obtain ⟨u, v, huv⟩ := he
  intro q hq
  have hidx : (s.drop (u.length + q)) = e.drop q ++ v := by
    rw [← huv]
    rw [show u ++ e ++ v = u ++ (e ++ v) from by simp [List.append_assoc]]
    rw [List.drop_append]
    rw [List.drop_append_of_le_length (by omega)]
  have hb : u.length + q + 9 ≤ s.length := by
    rw [← huv]
    simp only [List.length_append]
    omega
  have := hs (u.length + q) hb
  rw [hidx] at this
  rwa [prefixCI_append_of_le v
    (by simp only [List.length_drop]; rw [show closeLit.length = 9 from rfl]; omega)] at this

theorem closeFreeIn_drop {s : Doc} (h : closeFreeIn s) (n : Nat) :
    closeFreeIn (s.drop n) := by
  intro q hq
  rw [List.drop_drop]
  rw [List.length_drop] at hq
  exact h (n + q) (by omega)

theorem mem_take_getElem {l : Doc} {n : Nat} {c : Char} (h : c ∈ l.take n) :
    ∃ i, i < n ∧ l[i]? = some c := by
  obtain ⟨i, hi, he⟩ := List.mem_iff_getElem.mp h
  rw [List.length_take] at hi
  refine ⟨i, by omega, ?_⟩
  have h2 : (l.take n)[i]? = some c := by
    rw [List.getElem?_eq_some_iff]
    exact ⟨by rw [List.length_take]; omega, he⟩
  rwa [List.getElem?_take_of_lt (by omega)] at h2

theorem importHere_cap_no_brace {s : Doc} {L : Nat} {cap : Doc}
    (h : importHere s = some (L, cap)) : ∀ c ∈ cap, (c == '\x7d') = false := by
  obtain ⟨w1, kk, w2, w3, hpre, hw1v, hw1, hbrace, hkk, hkk1, hw2v, hw2, hfrom, hw3v, hw3,
    ⟨q1, hq1p, hq1⟩, hsv, ⟨q2, hq2p, hq2⟩, hL, hcap⟩ := importHere_spec_of_some h
  intro c hc
  rw [hcap] at hc
  obtain ⟨i, hi, he⟩ := mem_take_getElem hc
  obtain ⟨hbq, hno⟩ := findCharL_eq_some_iff.mp hkk
  exact hno i hi c he

theorem importHere_cap_within {s : Doc} {L : Nat} {cap : Doc}
    (h : importHere s = some (L, cap)) : cap <:+: s := by
  obtain ⟨w1, kk, w2, w3, hpre, hw1v, hw1, hbrace, hkk, hkk1, hw2v, hw2, hfrom, hw3v, hw3,
    ⟨q1, hq1p, hq1⟩, hsv, ⟨q2, hq2p, hq2⟩, hL, hcap⟩ := importHere_spec_of_some h
  rw [hcap]
  exact (List.IsPrefix.isInfix ⟨(s.drop (7 + w1)).drop kk,
    List.take_append_drop kk (s.drop (7 + w1))⟩).trans (s.drop_suffix (7 + w1)).isInfix

theorem join_no_brace : ∀ {imps : List Doc},
    (∀ e ∈ imps, ∀ c ∈ e, (c == '\x7d') = false) →
    ∀ c ∈ joinCommaSp imps, (c == '\x7d') = false := by
  intro imps
  induction imps with
  | nil => intro h c hc; simp [joinCommaSp] at hc
  | cons e rest ih =>
    intro h c hc
    cases rest with
    | nil =>
      rw [show joinCommaSp [e] = e from rfl] at hc
      exact h e (by simp) c hc
    | cons e2 r2 =>
      rw [show joinCommaSp (e :: e2 :: r2) = e ++ ", ".toList ++ joinCommaSp (e2 :: r2) from rfl]
        at hc
      rcases List.mem_append.mp hc with hc1 | hc2
      · rcases List.mem_append.mp hc1 with hce | hcs
        · exact h e (by simp) c hce
        · rcases List.mem_cons.mp hcs with rfl | hcs2
          · rfl
          · rw [List.mem_singleton.mp hcs2]
            rfl
      · exact ih (fun e2 he2 => h e2 (by simp [he2])) c hc2

theorem mergedImportText_nil_eq :
    FileUtils.mergedImportText [] = "import \x7b createBay \x7d from \x27svelte-bay\x27".toList := rfl

theorem mergedImportText_cons_eq (e : Doc) (rest : List Doc) :
    FileUtils.mergedImportText (e :: rest) =
      "import \x7b createBay, ".toList ++
        (joinCommaSp (e :: rest) ++ " \x7d from \x27svelte-bay\x27".toList) := by
  have h0 : FileUtils.mergedImportText (e :: rest) =
      "import \x7b createBay".toList ++
        ((", ".toList ++ joinCommaSp (e :: rest)) ++ " \x7d from \x27svelte-bay\x27".toList) := rfl
  rw [h0]
  simp only [List.append_assoc]
  rfl

theorem importHere_merged (imps : List Doc) (t : Doc)
    (hbr : ∀ e ∈ imps, ∀ c ∈ e, (c == '\x7d') = false) :
    importHere (FileUtils.mergedImportText imps ++ t) =
      some ((FileUtils.mergedImportText imps).length, mergedCap imps) := by
  cases imps with
  | nil =>
    rw [mergedImportText_nil_eq, show mergedCap [] = " createBay ".toList from rfl]
    rw [show ("import \x7b createBay \x7d from \x27svelte-bay\x27".toList : Doc).length = 38
      from by decide]
    exact importHere_append_of_some t (by decide)
  | cons e rest =>
    rw [mergedImportText_cons_eq]
    have hlen : ("import \x7b createBay, ".toList ++
        (joinCommaSp (e :: rest) ++ " \x7d from \x27svelte-bay\x27".toList)).length = 40 + (joinCommaSp (e :: rest)).length := by
      simp only [List.length_append]
      rw [show ("import \x7b createBay, ".toList : Doc).length = 20 from by decide,
        show (" \x7d from \x27svelte-bay\x27".toList : Doc).length = 20 from by decide]
      omega
    have hassoc : ("import \x7b createBay, ".toList ++
        (joinCommaSp (e :: rest) ++ " \x7d from \x27svelte-bay\x27".toList)) ++ t =
        "import \x7b createBay, ".toList ++ (joinCommaSp (e :: rest) ++ (" \x7d from \x27svelte-bay\x27".toList ++ t)) := by
      simp only [List.append_assoc]
    rw [hassoc, hlen]
    set s := "import \x7b createBay, ".toList ++ (joinCommaSp (e :: rest) ++ (" \x7d from \x27svelte-bay\x27".toList ++ t))
      with hs
    have hdrop20 : ∀ n, s.drop (20 + n) = (joinCommaSp (e :: rest) ++ (" \x7d from \x27svelte-bay\x27".toList ++ t)).drop n := by
      intro n
      rw [hs, show (20 : Nat) + n = ("import \x7b createBay, ".toList : Doc).length + n
        from by rw [show ("import \x7b createBay, ".toList : Doc).length = 20 from by decide]]
      exact drop_len_plus _ _ n
    have hdropJ : ∀ m, s.drop (20 + ((joinCommaSp (e :: rest)).length + m)) =
        (" \x7d from \x27svelte-bay\x27".toList ++ t).drop m := by
      intro m
      rw [hdrop20 ((joinCommaSp (e :: rest)).length + m)]
      exact drop_len_plus _ _ m
    have hkkval : findCharL '\x7d' (s.drop 8) = some (13 + (joinCommaSp (e :: rest)).length) := by
      rw [show s.drop 8 = " createBay, ".toList ++ (joinCommaSp (e :: rest) ++ (" \x7d from \x27svelte-bay\x27".toList ++ t))
        from rfl]
      rw [findCharL_append_of_none _ (by decide)]
      rw [findCharL_append_of_none _ (findCharL_eq_none_iff.mpr (join_no_brace hbr))]
      rw [findCharL_append_of_some t (show findCharL '\x7d' (" \x7d from \x27svelte-bay\x27".toList) =
        some 1 from rfl)]
      simp only [Option.map_some']
      refine congrArg some ?_
      rw [show (" createBay, ".toList : Doc).length = 12 from by decide]
      omega
    apply importHere_some_of_spec 1 (13 + (joinCommaSp (e :: rest)).length) 1 1
    refine ⟨rfl, rfl, by omega, rfl, hkkval, by omega, ?_, by omega, ?_, ?_, by omega,
      ⟨'\x27', ?_, rfl⟩, ?_, ⟨'\x27', ?_, rfl⟩, by omega, ?_⟩
    · rw [show 8 + 1 + (13 + (joinCommaSp (e :: rest)).length) = 20 + ((joinCommaSp (e :: rest)).length + 2) from by omega, hdropJ 2]
      rfl
    · rw [show 8 + 1 + (13 + (joinCommaSp (e :: rest)).length) + 1 = 20 + ((joinCommaSp (e :: rest)).length + 3) from by omega, hdropJ 3]
      rfl
    · rw [show 12 + 1 + (13 + (joinCommaSp (e :: rest)).length) + 1 = 20 + ((joinCommaSp (e :: rest)).length + 7) from by omega, hdropJ 7]
      rfl
    · rw [← List.head?_drop, show 12 + 1 + (13 + (joinCommaSp (e :: rest)).length) + 1 + 1 = 20 + ((joinCommaSp (e :: rest)).length + 8) from by omega,
        hdropJ 8]
      rfl
    · rw [show 13 + 1 + (13 + (joinCommaSp (e :: rest)).length) + 1 + 1 = 20 + ((joinCommaSp (e :: rest)).length + 9) from by omega, hdropJ 9]
      rfl
    · rw [← List.head?_drop, show 23 + 1 + (13 + (joinCommaSp (e :: rest)).length) + 1 + 1 = 20 + ((joinCommaSp (e :: rest)).length + 19) from by omega,
        hdropJ 19]
      rfl
    · rw [show mergedCap (e :: rest) = " createBay, ".toList ++ (joinCommaSp (e :: rest) ++ [' ']) from rfl]
      rw [show (7 : Nat) + 1 = 8 from rfl]
      rw [show s.drop 8 = " createBay, ".toList ++ (joinCommaSp (e :: rest) ++ (" \x7d from \x27svelte-bay\x27".toList ++ t))
        from rfl]
      rw [show (13 : Nat) + (joinCommaSp (e :: rest)).length = (" createBay, ".toList : Doc).length + ((joinCommaSp (e :: rest)).length + 1) from by
        rw [show (" createBay, ".toList : Doc).length = 12 from by decide]; omega]
      rw [take_len_plus]
      rw [take_len_plus]
      rfl

theorem splitTrim_join : ∀ (imps : List Doc), imps ≠ [] →
    (∀ e ∈ imps, ∀ c ∈ e, (c == ',') = false) →
    (∀ e ∈ imps, trimStartL e = e ∧ trimEndL e = e) →
    (splitComma (' ' :: (joinCommaSp imps ++ [' ']))).map trimL = imps := by
  intro imps
  induction imps with
  | nil => intro h; contradiction
  | cons e rest ih =>
    intro _ hcf htr
    cases rest with
    | nil =>
      rw [show joinCommaSp [e] = e from rfl]
      rw [splitComma_nocomma (by
        intro c hc
        rcases List.mem_cons.mp hc with rfl | hc2
        · rfl
        · rcases List.mem_append.mp hc2 with hce | hcl
          · exact hcf e (by simp) c hce
          · rw [List.mem_singleton.mp hcl]
            rfl)]
      simp only [List.map_cons, List.map_nil]
      rw [trimL_sp_wrap e (htr e (by simp)).1 (htr e (by simp)).2]
    | cons e2 r2 =>
      rw [show joinCommaSp (e :: e2 :: r2) = e ++ ", ".toList ++ joinCommaSp (e2 :: r2) from rfl]
      rw [show (' ' :: ((e ++ ", ".toList ++ joinCommaSp (e2 :: r2)) ++ [' ']) : Doc) =
          (' ' :: e) ++ (',' :: (' ' :: (joinCommaSp (e2 :: r2) ++ [' ']))) from by
        simp only [List.append_assoc, List.cons_append]
        rfl]
      rw [splitComma_append_nocomma (by
        intro c hc
        rcases List.mem_cons.mp hc with rfl | hc2
        · rfl
        · exact hcf e (by simp) c hc2) (splitComma_cons_comma _)]
      simp only [List.append_nil, List.map_cons]
      rw [trimL_sp e (htr e (by simp)).1 (htr e (by simp)).2]
      congr 1
      exact ih (by simp) (fun q hq => hcf q (by simp [hq])) (fun q hq => htr q (by simp [hq]))

theorem splitTrim_mergedCap (imps : List Doc)
    (hcf : ∀ e ∈ imps, ∀ c ∈ e, (c == ',') = false)
    (htr : ∀ e ∈ imps, trimStartL e = e ∧ trimEndL e = e) :
    (splitComma (mergedCap imps)).map trimL = createBayLit :: imps := by
  cases imps with
  | nil => decide
  | cons e rest =>
    rw [show mergedCap (e :: rest) =
        " createBay".toList ++ (',' :: (' ' :: (joinCommaSp (e :: rest) ++ [' ']))) from rfl]
    rw [splitComma_append_nocomma (by decide) (splitComma_cons_comma _)]
    simp only [List.append_nil, List.map_cons]
    rw [show trimL (" createBay".toList) = createBayLit from by decide]
    congr 1
    exact splitTrim_join (e :: rest) (by simp) hcf htr

theorem closeFreeIn_cons_nonTag {c : Char} {X : Doc} (hc : charCI '<' c = false)
    (h : closeFreeIn X) : closeFreeIn (c :: X) := by
  intro q hq
  cases q with
  | zero =>
    rw [List.drop_zero]
    exact prefixCI_close_head_false _ hc
  | succ m =>
    rw [show (c :: X).drop (m + 1) = X.drop m from rfl]
    exact h m (by simp at hq; omega)

theorem closeDrop_comma : ∀ m, 1 ≤ m → m ≤ 8 → ∀ X : Doc,
    prefixCI (closeLit.drop m) (',' :: X) = false := by
  intro m h1 h8 X
  interval_cases m <;> rfl

theorem closeFreeIn_join : ∀ {imps : List Doc}, (∀ e ∈ imps, closeFreeIn e) →
    closeFreeIn (joinCommaSp imps) := by
  intro imps
  induction imps with
  | nil => intro h q hq; simp [joinCommaSp] at hq
  | cons e rest ih =>
    intro h
    cases rest with
    | nil =>
      rw [show joinCommaSp [e] = e from rfl]
      exact h e (by simp)
    | cons e2 r2 =>
      rw [show joinCommaSp (e :: e2 :: r2) = e ++ (", ".toList ++ joinCommaSp (e2 :: r2))
        from by rw [show joinCommaSp (e :: e2 :: r2) =
          e ++ ", ".toList ++ joinCommaSp (e2 :: r2) from rfl]; simp [List.append_assoc]]
      apply closeFreeIn_append (h e (by simp))
      · rw [show (", ".toList ++ joinCommaSp (e2 :: r2) : Doc) =
          ',' :: (' ' :: joinCommaSp (e2 :: r2)) from rfl]
        exact closeFreeIn_cons_nonTag (by decide)
          (closeFreeIn_cons_nonTag (by decide) (ih (fun q hq => h q (by simp [hq]))))
      · intro m h1 h8 hm
        refine Or.inr ?_
        rw [show (", ".toList ++ joinCommaSp (e2 :: r2) : Doc) =
          ',' :: (' ' :: joinCommaSp (e2 :: r2)) from rfl]
        exact closeDrop_comma m h1 h8 _

theorem closeFreeIn_merged (imps : List Doc) (hE : ∀ e ∈ imps, closeFreeIn e) :
    closeFreeIn (FileUtils.mergedImportText imps) := by
  cases imps with
  | nil =>
    rw [mergedImportText_nil_eq]
    intro q hq
    rw [show ("import \x7b createBay \x7d from \x27svelte-bay\x27".toList : Doc).length = 38
      from by decide] at hq
    have : q ≤ 29 := by omega
    interval_cases q <;> decide
  | cons e rest =>
    rw [mergedImportText_cons_eq]
    apply closeFreeIn_noTag_append (by decide)
    apply closeFreeIn_append (closeFreeIn_join hE)
    · intro q hq
      rw [show (" \x7d from \x27svelte-bay\x27".toList : Doc).length = 20 from by decide] at hq
      have : q ≤ 11 := by omega
      interval_cases q <;> decide
    · intro m h1 h8 hm
      refine Or.inr ?_
      have : ∀ Y : Doc, prefixCI (closeLit.drop m) (' ' :: Y) = false := by
        intro Y
        interval_cases m <;> rfl
      exact this _

theorem merged_tail_block (imps : List Doc) : ∀ m, 1 ≤ m → m ≤ 8 →
    prefixCI (closeLit.take m)
      ((FileUtils.mergedImportText imps).drop ((FileUtils.mergedImportText imps).length - m)) =
      false := by
  intro m h1 h8
  cases imps with
  | nil =>
    rw [mergedImportText_nil_eq]
    rw [show ("import \x7b createBay \x7d from \x27svelte-bay\x27".toList : Doc).length = 38
      from by decide]
    interval_cases m <;> decide
  | cons e rest =>
    rw [mergedImportText_cons_eq]
    have hlen : ("import \x7b createBay, ".toList ++
        (joinCommaSp (e :: rest) ++ " \x7d from \x27svelte-bay\x27".toList)).length =
        40 + (joinCommaSp (e :: rest)).length := by
      simp only [List.length_append]
      rw [show ("import \x7b createBay, ".toList : Doc).length = 20 from by decide,
        show (" \x7d from \x27svelte-bay\x27".toList : Doc).length = 20 from by decide]
      omega
    rw [hlen]
    have hdr : ("import \x7b createBay, ".toList ++
        (joinCommaSp (e :: rest) ++ " \x7d from \x27svelte-bay\x27".toList)).drop
          (40 + (joinCommaSp (e :: rest)).length - m) =
        " \x7d from \x27svelte-bay\x27".toList.drop (20 - m) := by
      rw [show 40 + (joinCommaSp (e :: rest)).length - m =
        ("import \x7b createBay, ".toList : Doc).length +
          ((joinCommaSp (e :: rest)).length + (20 - m)) from by
        rw [show ("import \x7b createBay, ".toList : Doc).length = 20 from by decide]
        omega]
      rw [drop_len_plus, drop_len_plus]
    rw [hdr]
    interval_cases m <;> decide

/-! ## Suffix-swap stability of the leftmost import match -/

theorem prefixCS_getElem_at {pat s : Doc} (h : prefixCS pat s = true) {i : Nat}
    (hi : i < pat.length) : s[i]? = pat[i]? := by
  have ht := prefixCS_iff_take.mp h
  calc s[i]? = (s.take pat.length)[i]? := (List.getElem?_take_of_lt hi).symm
    _ = pat[i]? := by rw [ht]

theorem drop_plus_of_len {a : Doc} (b : Doc) {p : Nat} (hp : a.length = p) (n : Nat) :
    (a ++ b).drop (p + n) = b.drop n := by
  rw [← hp]
  exact drop_len_plus _ _ n

theorem getElem?_append_plus {a b : Doc} {p : Nat} (hp : a.length = p) (m : Nat) :
    (a ++ b)[p + m]? = b[m]? := by
  rw [List.getElem?_append_right (by omega)]
  congr 1
  omega

theorem importHere_swap_suffix {π olds news : Doc} {Lo Ln L : Nat} {co cn c : Doc}
    (hne : π ≠ [])
    (hold : importHere olds = some (Lo, co))
    (hnew : importHere news = some (Ln, cn))
    (hfake : importHere (π ++ news) = some (L, c)) :
    ∃ L2 c2, importHere (π ++ olds) = some (L2, c2) := by
  have hp0 : 1 ≤ π.length := by
    cases π with
    | nil => exact absurd rfl hne
    | cons a b => simp
  have huv : (π ++ news).take π.length = (π ++ olds).take π.length := by
    rw [take_left_len, take_left_len]
  obtain ⟨w1f, kkf, w2f, w3f, fpre, fw1v, fw1, fbrace, fkk, fkk1, fw2v, fw2, ffrom,
    fw3v, fw3, ⟨q1f, fq1p, fq1⟩, fsv, ⟨q2f, fq2p, fq2⟩, fL, fcap⟩ :=
    importHere_spec_of_some hfake
  obtain ⟨w1o, kko, w2o, w3o, opre, ow1v, ow1, obrace, okk, okk1, ow2v, ow2, ofrom,
    ow3v, ow3, ⟨q1o, oq1p, oq1⟩, osv, ⟨q2o, oq2p, oq2⟩, oL, ocap⟩ :=
    importHere_spec_of_some hold
  obtain ⟨nw1, nkk, nw2, nw3, npre, _⟩ := importHere_spec_of_some hnew
  have hnews0 : news[0]? = some 'i' := by
    rw [prefixCS_getElem_at npre (by rw [show importLit.length = 6 from rfl]; omega)]
    rfl
  have hup : ∀ m, (π ++ news)[π.length + m]? = news[m]? := fun m => getElem?_append_plus rfl m
  have hvp : ∀ m, (π ++ olds)[π.length + m]? = olds[m]? := fun m => getElem?_append_plus rfl m
  have hagree : ∀ m < π.length, (π ++ news)[m]? = (π ++ olds)[m]? :=
    fun m hm => getElem?_take_agree huv hm
  have hupi : (π ++ news)[π.length]? = some 'i' := by
    have := hup 0
    rw [Nat.add_zero] at this
    rw [this, hnews0]
  have hp6 : 6 ≤ π.length := by
    by_contra hcon
    push_neg at hcon
    have h1 : (π ++ news)[π.length]? = importLit[π.length]? :=
      prefixCS_getElem_at fpre (by rw [show importLit.length = 6 from rfl]; omega)
    rw [hupi] at h1
    have hp5 : π.length ≤ 5 := by omega
    interval_cases hq : π.length <;> exact absurd h1.symm (by decide)
  have hwsat := wsCount_ws_at fw1v
  have hb : 6 + w1f < π.length := by
    rcases Nat.lt_or_ge (π.length) (6 + w1f) with hlt | hge
    · obtain ⟨ch, hch, hwsch⟩ := hwsat (π.length - 6) (by omega)
      rw [List.getElem?_drop, show 6 + (π.length - 6) = π.length from by omega, hupi] at hch
      have : ch = 'i' := by simpa using hch.symm
      rw [this] at hwsch
      exact absurd hwsch (by decide)
    · rcases Nat.eq_or_lt_of_le hge with heq | hlt2
      · rw [← heq] at hupi
        rw [hupi] at fbrace
        exact absurd fbrace (by simp)
      · omega
  obtain ⟨fk1, fk2⟩ := findCharL_eq_some_iff.mp fkk
  rcases Nat.lt_or_ge (7 + w1f + kkf) π.length with hD1 | hD2
  · -- the whole fake match sits inside the shared prefix
    have d1a : 8 + w1f + kkf + w2f ≤ π.length := by
      by_contra hcon
      push_neg at hcon
      obtain ⟨ch, hch, hwsch⟩ := wsCount_ws_at fw2v (π.length - (8 + w1f + kkf)) (by omega)
      rw [List.getElem?_drop,
        show 8 + w1f + kkf + (π.length - (8 + w1f + kkf)) = π.length from by omega,
        hupi] at hch
      have : ch = 'i' := by simpa using hch.symm
      rw [this] at hwsch
      exact absurd hwsch (by decide)
    have d1b : 8 + w1f + kkf + w2f + 4 ≤ π.length := by
      by_contra hcon
      push_neg at hcon
      have h1 : (π ++ news)[π.length]? = fromLit[π.length - (8 + w1f + kkf + w2f)]? := by
        have := @prefixCS_getElem_at _ _ ffrom
          (π.length - (8 + w1f + kkf + w2f))
          (by rw [show fromLit.length = 4 from rfl]; omega)
        rw [List.getElem?_drop,
          show 8 + w1f + kkf + w2f + (π.length - (8 + w1f + kkf + w2f)) = π.length from by omega]
          at this
        exact this
      rw [hupi] at h1
      have ht4 : π.length - (8 + w1f + kkf + w2f) ≤ 3 := by omega
      interval_cases hq : (π.length - (8 + w1f + kkf + w2f)) <;>
        exact absurd h1.symm (by decide)
    have d1c : 12 + w1f + kkf + w2f + w3f ≤ π.length := by
      by_contra hcon
      push_neg at hcon
      obtain ⟨ch, hch, hwsch⟩ := wsCount_ws_at fw3v (π.length - (12 + w1f + kkf + w2f))
        (by omega)
      rw [List.getElem?_drop,
        show 12 + w1f + kkf + w2f + (π.length - (12 + w1f + kkf + w2f)) = π.length from by omega,
        hupi] at hch
      have : ch = 'i' := by simpa using hch.symm
      rw [this] at hwsch
      exact absurd hwsch (by decide)
    have d1d : 12 + w1f + kkf + w2f + w3f < π.length := by
      rcases Nat.eq_or_lt_of_le d1c with heq | h
      · rw [heq, hupi] at fq1p
        have : q1f = 'i' := by simpa using fq1p.symm
        rw [this] at fq1
        exact absurd fq1 (by decide)
      · exact h
    have d1e : 13 + w1f + kkf + w2f + w3f + 10 ≤ π.length := by
      by_contra hcon
      push_neg at hcon
      have h1 : (π ++ news)[π.length]? =
          svelteBayLit[π.length - (13 + w1f + kkf + w2f + w3f)]? := by
        have := @prefixCS_getElem_at _ _ fsv
          (π.length - (13 + w1f + kkf + w2f + w3f))
          (by rw [show svelteBayLit.length = 10 from rfl]; omega)
        rw [List.getElem?_drop,
          show 13 + w1f + kkf + w2f + w3f + (π.length - (13 + w1f + kkf + w2f + w3f)) =
            π.length from by omega] at this
        exact this
      rw [hupi] at h1
      have ht9 : π.length - (13 + w1f + kkf + w2f + w3f) ≤ 9 := by omega
      interval_cases hq : (π.length - (13 + w1f + kkf + w2f + w3f)) <;>
        exact absurd h1.symm (by decide)
    have d1f : 23 + w1f + kkf + w2f + w3f < π.length := by
      rcases Nat.eq_or_lt_of_le (show 23 + w1f + kkf + w2f + w3f ≤ π.length from by omega)
        with heq | h
      · rw [heq, hupi] at fq2p
        have : q2f = 'i' := by simpa using fq2p.symm
        rw [this] at fq2
        exact absurd fq2 (by decide)
      · exact h
    refine ⟨L, c, importHere_congr_take hfake (take_agree_of_le huv (by omega))⟩
  · -- the fake capture reaches into the spliced region: rebuild via the old match
    have ob1 : olds[7 + w1o + kko]? = some '\x7d' := by
      obtain ⟨h1, _⟩ := findCharL_eq_some_iff.mp okk
      rw [List.getElem?_drop] at h1
      exact h1
    have ob2 : ∀ m2 < 7 + w1o + kko, ∀ ch, olds[m2]? = some ch → (ch == '\x7d') = false := by
      intro m2 hm2 ch hch
      rcases Nat.lt_or_ge m2 6 with hz1 | hz
      · have h2 : importLit[m2]? = some ch := by
          rw [← @prefixCS_getElem_at _ _ opre m2
            (by rw [show importLit.length = 6 from rfl]; omega), hch]
        interval_cases m2
        all_goals first
          | (rw [show importLit[0]? = some 'i' from rfl] at h2
             rw [← Option.some.inj h2])
          | (rw [show importLit[1]? = some 'm' from rfl] at h2
             rw [← Option.some.inj h2])
          | (rw [show importLit[2]? = some 'p' from rfl] at h2
             rw [← Option.some.inj h2])
          | (rw [show importLit[3]? = some 'o' from rfl] at h2
             rw [← Option.some.inj h2])
          | (rw [show importLit[4]? = some 'r' from rfl] at h2
             rw [← Option.some.inj h2])
          | (rw [show importLit[5]? = some 't' from rfl] at h2
             rw [← Option.some.inj h2])
        all_goals rfl
      · rcases Nat.lt_or_ge m2 (6 + w1o) with hz2 | hz3
        · obtain ⟨ch2, hch2, hws2⟩ := wsCount_ws_at ow1v (m2 - 6) (by omega)
          rw [List.getElem?_drop, show 6 + (m2 - 6) = m2 from by omega] at hch2
          rw [hch] at hch2
          have hcc : ch2 = ch := by simpa using hch2.symm
          rw [hcc] at hws2
          by_contra hbc
          rw [Bool.not_eq_false] at hbc
          rw [beq_iff_eq.mp hbc] at hws2
          exact absurd hws2 (by decide)
        · rcases Nat.eq_or_lt_of_le hz3 with heq | hgt
          · rw [heq] at obrace
            rw [hch] at obrace
            have : '\x7b' = ch := by simpa using obrace.symm
            rw [← this]
            rfl
          · obtain ⟨_, hno⟩ := findCharL_eq_some_iff.mp okk
            refine hno (m2 - (7 + w1o)) (by omega) ch ?_
            rw [List.getElem?_drop, show 7 + w1o + (m2 - (7 + w1o)) = m2 from by omega]
            exact hch
    have hvdrop : ∀ n, (π ++ olds).drop (π.length + n) = olds.drop n :=
      fun n => drop_plus_of_len olds rfl n
    have h7f : 7 + w1f ≤ π.length := by omega
    refine ⟨24 + w1f + (π.length - (7 + w1f) + (7 + w1o + kko)) + w2o + w3o,
      ((π ++ olds).drop (7 + w1f)).take (π.length - (7 + w1f) + (7 + w1o + kko)),
      importHere_some_of_spec w1f (π.length - (7 + w1f) + (7 + w1o + kko))
        w2o w3o ⟨?_, ?_, fw1, ?_, ?_, by omega, ?_, ow2, ?_, ?_, ow3,
          ⟨q1o, ?_, oq1⟩, ?_, ⟨q2o, ?_, oq2⟩, rfl, rfl⟩⟩
    · rw [← @prefixCS_congr_take importLit _ _
        (take_agree_of_le huv (by rw [show importLit.length = 6 from rfl]; omega))]
      exact fpre
    · refine wsCount_congr_take fw1v ?_ ?_
      · have := (List.getElem?_eq_some_iff.mp fbrace).1
        simp only [List.length_drop]
        omega
      · exact take_agree_of_le (take_agree_drop huv 6) (by omega)
    · rw [← hagree (6 + w1f) (by omega)]
      exact fbrace
    · refine findCharL_eq_some_iff.mpr ⟨?_, ?_⟩
      · rw [List.getElem?_drop,
          show 7 + w1f + (π.length - (7 + w1f) + (7 + w1o + kko)) =
            π.length + (7 + w1o + kko) from by omega, hvp]
        exact ob1
      · intro m2 hm2 ch hch
        rw [List.getElem?_drop] at hch
        rcases Nat.lt_or_ge (7 + w1f + m2) π.length with hz1 | hz2
        · refine fk2 m2 (by omega) ch ?_
          rw [List.getElem?_drop, hagree (7 + w1f + m2) hz1]
          exact hch
        · rw [List.getElem?_append_right (by omega)] at hch
          exact ob2 (7 + w1f + m2 - π.length) (by omega) ch hch
    · rw [show 8 + w1f + (π.length - (7 + w1f) + (7 + w1o + kko)) =
        π.length + (8 + w1o + kko) from by omega, hvdrop]
      exact ow2v
    · rw [show 8 + w1f + (π.length - (7 + w1f) + (7 + w1o + kko)) + w2o =
        π.length + (8 + w1o + kko + w2o) from by omega, hvdrop]
      exact ofrom
    · rw [show 12 + w1f + (π.length - (7 + w1f) + (7 + w1o + kko)) + w2o =
        π.length + (12 + w1o + kko + w2o) from by omega, hvdrop]
      exact ow3v
    · rw [show 12 + w1f + (π.length - (7 + w1f) + (7 + w1o + kko)) + w2o + w3o =
        π.length + (12 + w1o + kko + w2o + w3o) from by omega, hvp]
      exact oq1p
    · rw [show 13 + w1f + (π.length - (7 + w1f) + (7 + w1o + kko)) + w2o + w3o =
        π.length + (13 + w1o + kko + w2o + w3o) from by omega, hvdrop]
      exact osv
    · rw [show 23 + w1f + (π.length - (7 + w1f) + (7 + w1o + kko)) + w2o + w3o =
        π.length + (23 + w1o + kko + w2o + w3o) from by omega, hvp]
      exact oq2p

/-! ## Re-analysis of the merged rewrite (convergence, merge branch) -/

theorem mergedImportText_head (imps : List Doc) :
    ∃ Y, FileUtils.mergedImportText imps = 'i' :: ('m' :: Y) := by
  cases imps with
  | nil =>
    refine ⟨"port \x7b createBay \x7d from \x27svelte-bay\x27".toList, ?_⟩
    rw [mergedImportText_nil_eq]
    rfl
  | cons e rest =>
    refine ⟨"port \x7b createBay, ".toList ++
      (joinCommaSp (e :: rest) ++ " \x7d from \x27svelte-bay\x27".toList), ?_⟩
    rw [mergedImportText_cons_eq]
    rfl

theorem closeDrop_impHead (Y : Doc) : ∀ m, 1 ≤ m → m ≤ 8 →
    prefixCI (closeLit.drop m) ('i' :: ('m' :: Y)) = false := by
  intro m h1 h8
  interval_cases m <;> rfl

theorem merged_reanalysis (d : Doc) (i len k j l2 : Nat) (cap : Doc) (imps : List Doc)
    (hws : findScriptTag d = some (i, len))
    (hcl : findSubCI closeLit (d.drop (i + len)) = some k)
    (himp : findImport ((d.drop (i + len)).take k) = some (j, l2, cap))
    (hbr : ∀ e ∈ imps, ∀ c ∈ e, (c == '\x7d') = false)
    (hCF : ∀ e ∈ imps, closeFreeIn e) :
    findScriptTag (d.take (i + len + j) ++
        (FileUtils.mergedImportText imps ++ d.drop (i + len + j + l2))) = some (i, len) ∧
    findSubCI closeLit ((d.take (i + len + j) ++
        (FileUtils.mergedImportText imps ++ d.drop (i + len + j + l2))).drop (i + len)) =
      some (j + (FileUtils.mergedImportText imps).length + (k - (j + l2))) ∧
    findImport (((d.take (i + len + j) ++
        (FileUtils.mergedImportText imps ++ d.drop (i + len + j + l2))).drop (i + len)).take
          (j + (FileUtils.mergedImportText imps).length + (k - (j + l2)))) =
      some (j, (FileUtils.mergedImportText imps).length, mergedCap imps) := by
  obtain ⟨h1s, h2s, h3s⟩ := (scanL_eq_some_iff _ _ _ _).mp hws
  obtain ⟨hL8, hLb⟩ := scriptTagHere_some_bounds h3s
  rw [List.length_drop] at hLb
  have hil : i + len ≤ d.length := by omega
  obtain ⟨hc1b, hc2b, hc3b⟩ := (findSubCI_eq_some_iff _ _ _).mp hcl
  have hc9 := prefixCI_length_le hc3b
  rw [show closeLit.length = 9 from rfl, List.length_drop, List.length_drop] at hc9
  have hPlen : (d.take (i + len)).length = i + len := by
    rw [List.length_take]
    omega
  have hsclen : ((d.drop (i + len)).take k).length = k := by
    rw [List.length_take, List.length_drop]
    omega
  obtain ⟨hj1, hj2, hj3⟩ := (scanL_eq_some_iff _ _ _ _).mp himp
  rw [hsclen] at hj1
  have hjb := (importHere_bounds hj3).2
  rw [List.length_drop, hsclen] at hjb
  have hj28 := (importHere_bounds hj3).1
  have hjlk : j + l2 ≤ k := by omega
  have htakeJlen : (((d.drop (i + len)).take k).take j).length = j := by
    rw [List.length_take, hsclen]
    omega
  have hafter : (d.drop (i + len)).drop k = d.drop (i + len + k) := by
    rw [List.drop_drop]
  have hXdec : d.drop (i + len) = (d.drop (i + len)).take k ++ d.drop (i + len + k) := by
    rw [← hafter, List.take_append_drop]
  have hclose' : prefixCI closeLit (d.drop (i + len + k)) = true := by
    rw [← hafter]
    exact hc3b
  have hscTj : ((d.drop (i + len)).take k).take j = (d.drop (i + len)).take j := by
    rw [List.take_take, show min j k = j from by omega]
  have hTj : d.take (i + len + j) = d.take (i + len) ++ (d.drop (i + len)).take j := by
    have h0 := take_len_plus (d.take (i + len)) (d.drop (i + len)) j
    rw [List.take_append_drop, hPlen] at h0
    exact h0
  have hdd : (d.drop (i + len)).drop (j + l2) = d.drop (i + len + j + l2) := by
    rw [List.drop_drop, show i + len + (j + l2) = i + len + j + l2 from by omega]
  have hDjl : d.drop (i + len + j + l2) =
      ((d.drop (i + len)).take k).drop (j + l2) ++ d.drop (i + len + k) := by
    rw [← hdd]
    conv_lhs => rw [hXdec]
    rw [List.drop_append_of_le_length (by rw [hsclen]; omega)]
  have hc1form : d.take (i + len + j) ++
      (FileUtils.mergedImportText imps ++ d.drop (i + len + j + l2)) =
      d.take (i + len) ++
        ((((d.drop (i + len)).take k).take j ++
          (FileUtils.mergedImportText imps ++ ((d.drop (i + len)).take k).drop (j + l2))) ++
            d.drop (i + len + k)) := by
    rw [hTj, ← hscTj, hDjl]
    simp only [List.append_assoc]
  have hscNlen : ((((d.drop (i + len)).take k).take j ++
      (FileUtils.mergedImportText imps ++ ((d.drop (i + len)).take k).drop (j + l2)))).length =
      j + (FileUtils.mergedImportText imps).length + (k - (j + l2)) := by
    simp only [List.length_append, htakeJlen, List.length_drop, hsclen]
    omega
  have hscfree : closeFreeIn ((d.drop (i + len)).take k) := closeFreeIn_of_leftmost hcl
  have hfree : closeFreeIn (((d.drop (i + len)).take k).take j ++
      (FileUtils.mergedImportText imps ++ ((d.drop (i + len)).take k).drop (j + l2))) := by
    have hmid : closeFreeIn (FileUtils.mergedImportText imps ++
        ((d.drop (i + len)).take k).drop (j + l2)) := by
      apply closeFreeIn_append (closeFreeIn_merged imps hCF) (closeFreeIn_drop hscfree (j + l2))
      intro m h1 h8 hm
      exact Or.inl (merged_tail_block imps m h1 h8)
    apply closeFreeIn_append (closeFreeIn_take hscfree j) hmid
    intro m h1 h8 hm
    obtain ⟨Y, hY⟩ := mergedImportText_head imps
    refine Or.inr ?_
    rw [hY, List.cons_append, List.cons_append]
    exact closeDrop_impHead _ m h1 h8
  have hcl2 : findSubCI closeLit
      ((((d.drop (i + len)).take k).take j ++
        (FileUtils.mergedImportText imps ++ ((d.drop (i + len)).take k).drop (j + l2))) ++
          d.drop (i + len + k)) =
      some (j + (FileUtils.mergedImportText imps).length + (k - (j + l2))) := by
    have h0 := findSubCI_close_splice hfree hclose'
    rwa [hscNlen] at h0
  have himpN : importHere (FileUtils.mergedImportText imps ++
      ((d.drop (i + len)).take k).drop (j + l2)) =
      some ((FileUtils.mergedImportText imps).length, mergedCap imps) :=
    importHere_merged imps _ hbr
  have himp2 : findImport ((((d.drop (i + len)).take k).take j ++
      (FileUtils.mergedImportText imps ++ ((d.drop (i + len)).take k).drop (j + l2)))) =
      some (j, (FileUtils.mergedImportText imps).length, mergedCap imps) := by
    refine (scanL_eq_some_iff _ _ _ _).mpr ⟨by rw [hscNlen]; omega, ?_, ?_⟩
    · intro q hq
      cases hfk : importHere ((((d.drop (i + len)).take k).take j ++
          (FileUtils.mergedImportText imps ++
            ((d.drop (i + len)).take k).drop (j + l2))).drop q) with
      | none => rfl
      | some p =>
        exfalso
        obtain ⟨L, c⟩ := p
        have hdq : ((((d.drop (i + len)).take k).take j ++
            (FileUtils.mergedImportText imps ++
              ((d.drop (i + len)).take k).drop (j + l2))).drop q) =
            (((d.drop (i + len)).take k).take j).drop q ++
              (FileUtils.mergedImportText imps ++
                ((d.drop (i + len)).take k).drop (j + l2)) :=
          List.drop_append_of_le_length (by rw [htakeJlen]; omega)
        rw [hdq] at hfk
        have hpi : (((d.drop (i + len)).take k).take j).drop q ≠ [] := by
          intro hnil
          have hc0 := congrArg List.length hnil
          rw [List.length_drop, htakeJlen] at hc0
          simp only [List.length_nil] at hc0
          omega
        obtain ⟨L2, c2, hb2⟩ := importHere_swap_suffix hpi hj3 himpN hfk
        have hreb : (((d.drop (i + len)).take k).take j).drop q ++
            ((d.drop (i + len)).take k).drop j = ((d.drop (i + len)).take k).drop q := by
          conv_rhs => rw [← List.take_append_drop j ((d.drop (i + len)).take k)]
          rw [List.drop_append_of_le_length (by rw [htakeJlen]; omega)]
        rw [hreb] at hb2
        rw [hj2 q (by omega)] at hb2
        exact absurd hb2 (by simp)
    · rw [drop_left_of_len _ htakeJlen]
      exact himpN
  refine ⟨?_, ?_, ?_⟩
  · rw [hc1form]
    apply findScriptTag_congr_suffix (d.take (i + len))
      ((d.drop (i + len)).take k ++ d.drop (i + len + k)) _ i len (by omega)
    rw [← hXdec, List.take_append_drop]
    exact hws
  · rw [hc1form, drop_left_of_len _ hPlen]
    exact hcl2
  · rw [hc1form, drop_left_of_len _ hPlen, take_left_of_len _ hscNlen]
    exact himp2

theorem convergence_merge_case (d : Doc) (i len k j l2 : Nat) (cap : Doc)
    (hws : findScriptTag d = some (i, len))
    (hcl : findSubCI closeLit (d.drop (i + len)) = some k)
    (himp : findImport ((d.drop (i + len)).take k) = some (j, l2, cap))
    (hno : ((splitComma cap).map trimL).contains createBayLit = false) :
    (FileUtils.analyzeSvelteFile (FileUtils.initConvergence d)).hasCreateBayImport = true ∧
    (FileUtils.analyzeSvelteFile (FileUtils.initConvergence d)).hasCreateBayCall = true := by
  obtain ⟨h1s, h2s, h3s⟩ := (scanL_eq_some_iff _ _ _ _).mp hws
  obtain ⟨hL8, hLb⟩ := scriptTagHere_some_bounds h3s
  rw [List.length_drop] at hLb
  have hil : i + len ≤ d.length := by omega
  obtain ⟨hc1b, hc2b, hc3b⟩ := (findSubCI_eq_some_iff _ _ _).mp hcl
  have hc9 := prefixCI_length_le hc3b
  rw [show closeLit.length = 9 from rfl, List.length_drop, List.length_drop] at hc9
  have hsclen : ((d.drop (i + len)).take k).length = k := by
    rw [List.length_take, List.length_drop]
    omega
  obtain ⟨hj1, hj2, hj3⟩ := (scanL_eq_some_iff _ _ _ _).mp himp
  rw [hsclen] at hj1
  have hjb := (importHere_bounds hj3).2
  rw [List.length_drop, hsclen] at hjb
  have hj28 := (importHere_bounds hj3).1
  have hjlk : j + l2 ≤ k := by omega
  have hrec := analyzeS_wf_imp d i len k j l2 cap hws hcl himp
  have ht : (FileUtils.analyzeSvelteFile d).hasScriptTag = true := by rw [hrec]
  have hi : (FileUtils.analyzeSvelteFile d).hasCreateBayImport = false := by
    rw [hrec]
    exact hno
  have hcapbr : ∀ c ∈ cap, (c == '\x7d') = false := importHere_cap_no_brace hj3
  have hcapinf : cap <:+: (d.drop (i + len)).take k :=
    (importHere_cap_within hj3).trans
      (List.drop_suffix j ((d.drop (i + len)).take k)).isInfix
  have hscfree : closeFreeIn ((d.drop (i + len)).take k) := closeFreeIn_of_leftmost hcl
  have hmem : ∀ e ∈ ((splitComma (trimL cap)).map trimL).filter
      (fun e => !(e == createBayLit)),
      ∃ p, p ∈ splitComma (trimL cap) ∧ e = trimL p := by
    intro e he
    obtain ⟨p, hp, hpe⟩ := List.mem_map.mp (List.mem_of_mem_filter he)
    exact ⟨p, hp, hpe.symm⟩
  have hbr : ∀ e ∈ ((splitComma (trimL cap)).map trimL).filter
      (fun e => !(e == createBayLit)), ∀ c ∈ e, (c == '\x7d') = false := by
    intro e he c hc
    obtain ⟨p, hp, rfl⟩ := hmem e he
    exact hcapbr c (trim_subset ((splitComma_pieces_within p hp).subset (trim_subset hc)))
  have hcf : ∀ e ∈ ((splitComma (trimL cap)).map trimL).filter
      (fun e => !(e == createBayLit)), ∀ c ∈ e, (c == ',') = false := by
    intro e he c hc
    obtain ⟨p, hp, rfl⟩ := hmem e he
    exact splitComma_pieces_nocomma p hp c (trim_subset hc)
  have htr : ∀ e ∈ ((splitComma (trimL cap)).map trimL).filter
      (fun e => !(e == createBayLit)), trimStartL e = e ∧ trimEndL e = e := by
    intro e he
    obtain ⟨p, hp, rfl⟩ := hmem e he
    exact ⟨trimStartL_trimL p, trimEndL_trimL p⟩
  have hCF : ∀ e ∈ ((splitComma (trimL cap)).map trimL).filter
      (fun e => !(e == createBayLit)), closeFreeIn e := by
    intro e he
    obtain ⟨p, hp, rfl⟩ := hmem e he
    exact closeFreeIn_within hscfree
      (((trimL_within p).trans (splitComma_pieces_within p hp)).trans
        ((trimL_within cap).trans hcapinf))
  have hdd : (d.drop (i + len)).drop j = d.drop (i + len + j) := by
    rw [List.drop_drop, show i + len + j = i + len + j from rfl]
  have hscdj : ((d.drop (i + len)).take k).drop j = (d.drop (i + len + j)).take (k - j) := by
    rw [List.drop_take, hdd]
  have hstmt : importHere ((d.drop (i + len + j)).take l2) = some (l2, cap) := by
    apply importHere_congr_take hj3
    rw [hscdj, List.take_take, show min l2 (k - j) = l2 from by omega,
      List.take_take, Nat.min_self]
  have hfindStmt : findImport ((d.drop (i + len + j)).take l2) = some (0, l2, cap) :=
    scanL_head importHere _ _ hstmt
  have hc1eq : FileUtils.addCreateBayImport d (FileUtils.analyzeSvelteFile d) =
      d.take (i + len + j) ++
        (FileUtils.mergedImportText (((splitComma (trimL cap)).map trimL).filter
            (fun e => !(e == createBayLit))) ++
          d.drop (i + len + j + l2)) := by
    rw [hrec]
    unfold FileUtils.addCreateBayImport
    dsimp only
    simp only [Option.getD_some]
    rw [jsSlice_zero_nat d (i + len + j) (by omega),
      jsSlice_nat_nat d (i + len + j) (i + len + j + l2) (by omega) (by omega),
      jsSlice_nat_none d (i + len + j + l2),
      show i + len + j + l2 - (i + len + j) = l2 from by omega]
    rw [hfindStmt]
    dsimp only
    simp only [List.append_assoc]
  obtain ⟨htag2, hcl2, himp2⟩ := merged_reanalysis d i len k j l2 cap
    (((splitComma (trimL cap)).map trimL).filter (fun e => !(e == createBayLit)))
    hws hcl himp hbr hCF
  have hupd := analyzeS_wf_imp _ i len
    (j + (FileUtils.mergedImportText (((splitComma (trimL cap)).map trimL).filter
      (fun e => !(e == createBayLit)))).length + (k - (j + l2)))
    j (FileUtils.mergedImportText (((splitComma (trimL cap)).map trimL).filter
      (fun e => !(e == createBayLit)))).length
    (mergedCap (((splitComma (trimL cap)).map trimL).filter (fun e => !(e == createBayLit))))
    htag2 hcl2 himp2
  have himpupd : (FileUtils.analyzeSvelteFile (d.take (i + len + j) ++
      (FileUtils.mergedImportText (((splitComma (trimL cap)).map trimL).filter
          (fun e => !(e == createBayLit))) ++
        d.drop (i + len + j + l2)))).hasCreateBayImport = true := by
    rw [hupd]
    show ((splitComma (mergedCap (((splitComma (trimL cap)).map trimL).filter
      (fun e => !(e == createBayLit))))).map trimL).contains createBayLit = true
    rw [splitTrim_mergedCap _ hcf htr]
    simp [List.contains_cons]
  rw [initConvergence_eq_import_branch d ht hi, hc1eq]
  rcases Bool.eq_false_or_eq_true ((FileUtils.analyzeSvelteFile (d.take (i + len + j) ++
      (FileUtils.mergedImportText (((splitComma (trimL cap)).map trimL).filter
          (fun e => !(e == createBayLit))) ++
        d.drop (i + len + j + l2)))).hasCreateBayCall) with hcallupd | hcallupd
  · rw [if_pos hcallupd]
    exact ⟨himpupd, hcallupd⟩
  · rw [if_neg (by rw [hcallupd]; simp)]
    have hcc := convergence_call_case
      (d.take (i + len + j) ++
        (FileUtils.mergedImportText (((splitComma (trimL cap)).map trimL).filter
            (fun e => !(e == createBayLit))) ++
          d.drop (i + len + j + l2)))
      i len
      (j + (FileUtils.mergedImportText (((splitComma (trimL cap)).map trimL).filter
        (fun e => !(e == createBayLit)))).length + (k - (j + l2)))
      j (FileUtils.mergedImportText (((splitComma (trimL cap)).map trimL).filter
        (fun e => !(e == createBayLit)))).length
      (mergedCap (((splitComma (trimL cap)).map trimL).filter (fun e => !(e == createBayLit))))
      htag2 hcl2 himp2
    refine ⟨?_, hcc.2⟩
    rw [hcc.1, splitTrim_mergedCap _ hcf htr]
    simp [List.contains_cons]

/-- Claim C2: when the analysis records an existing svelte-bay import whose
statement re-matches the import regex with capture entries `[A, B]` (after
the code's own `split`/`trim` pipeline) and `createBay` is absent from them,
`addCreateBayImport` rewrites exactly that import statement in place to the
merged one; re-parsing the merged statement with the same regex and pipeline
yields exactly the symbols `[createBay, A, B]` in that order, `createBay`
first, with no duplicates and neither `A` nor `B` lost. -/
theorem import_merge (content : Doc) (analysis : FileUtils.SvelteFileAnalysis) (is : Int)
    (A B : Doc) (j0 len0 : Nat) (cap : Doc)
    (himp : analysis.hasSvelteBayImport = true)
    (hstart : analysis.svelteBayImportStart = some is)
    (hfind : findImport (jsSlice content is analysis.svelteBayImportEnd) = some (j0, len0, cap))
    (hent : (splitComma (trimL cap)).map trimL = [A, B])
    (hA : A ≠ createBayLit) (hB : B ≠ createBayLit) (hAB : A ≠ B)
    (hAc : symbolClean A = true) (hBc : symbolClean B = true)
    (hA1 : trimStartL A = A) (hA2 : trimEndL A = A)
    (hB1 : trimStartL B = B) (hB2 : trimEndL B = B) :
    FileUtils.addCreateBayImport content analysis =
      jsSlice content 0 (some is) ++ FileUtils.mergedImportText [A, B] ++
        jsSlice content (analysis.svelteBayImportEnd.getD 0) none ∧
    (importHere (FileUtils.mergedImportText [A, B])).map
        (fun p => (splitComma p.2).map trimL) = some [createBayLit, A, B] ∧
    [createBayLit, A, B].Nodup := by
  have hA0 : (A == createBayLit) = false := by simp [hA]
  have hB0 : (B == createBayLit) = false := by simp [hB]
  refine ⟨?_, ?_, ?_⟩
  · unfold FileUtils.addCreateBayImport
    rw [himp, hstart]
    dsimp only
    rw [hfind]
    dsimp only
    rw [hent]
    simp only [List.filter, hA0, hB0, Bool.not_false]
  · rw [mergedImportText_two]
    exact mergedTwo_symbols A B hAc hBc hA1 hA2 hB1 hB2
  · refine List.nodup_cons.mpr ⟨?_, List.nodup_cons.mpr ⟨?_, List.nodup_singleton B⟩⟩
    · intro hmem
      rcases List.mem_cons.mp hmem with he | hm
      · exact hA he.symm
      · rw [List.mem_singleton] at hm
        exact hB hm.symm
    · rw [List.mem_singleton]
      exact hAB

set_option maxRecDepth 40000 in
/-- Witness for C2 at a concrete layout with an existing two-symbol import. -/
theorem import_merge_witness :
    FileUtils.addCreateBayImport
        "<script>\n\timport \x7b foo, bar \x7d from \x27svelte-bay\x27;\n\tfoo();\n</script>\n".toList
        (FileUtils.analyzeSvelteFile
          "<script>\n\timport \x7b foo, bar \x7d from \x27svelte-bay\x27;\n\tfoo();\n</script>\n".toList) =
      jsSlice
          "<script>\n\timport \x7b foo, bar \x7d from \x27svelte-bay\x27;\n\tfoo();\n</script>\n".toList
          0 (some 10) ++
        FileUtils.mergedImportText ["foo".toList, "bar".toList] ++
        jsSlice
          "<script>\n\timport \x7b foo, bar \x7d from \x27svelte-bay\x27;\n\tfoo();\n</script>\n".toList
          ((FileUtils.analyzeSvelteFile
            "<script>\n\timport \x7b foo, bar \x7d from \x27svelte-bay\x27;\n\tfoo();\n</script>\n".toList).svelteBayImportEnd.getD 0)
          none ∧
    (importHere (FileUtils.mergedImportText ["foo".toList, "bar".toList])).map
        (fun p => (splitComma p.2).map trimL) =
      some [createBayLit, "foo".toList, "bar".toList] ∧
    [createBayLit, "foo".toList, "bar".toList].Nodup :=
  import_merge _ _ 10 _ _ 0 37 " foo, bar ".toList (by decide) (by decide) (by decide)
    (by decide) (by decide) (by decide) (by decide) (by decide) (by decide) (by decide)
    (by decide) (by decide) (by decide)

/-! ## Convergence idempotence (claim C1) -/

theorem convergence_second_facts (d : Doc)
    (h : (FileUtils.analyzeSvelteFile d).hasScriptTag = false ∨
      (FileUtils.analyzeSvelteFile d).scriptContentEnd ≠ -1) :
    (FileUtils.analyzeSvelteFile (FileUtils.initConvergence d)).hasCreateBayImport = true ∧
    (FileUtils.analyzeSvelteFile (FileUtils.initConvergence d)).hasCreateBayCall = true := by
  cases hws : findScriptTag d with
  | none =>
    exact convergence_no_tag_case d (by rw [analyzeS_of_no_tag d hws])
  | some pr =>
    obtain ⟨i, len⟩ := pr
    cases hcl : findSubCI closeLit (d.drop (i + len)) with
    | none =>
      rcases h with hf | he
      · exact convergence_no_tag_case d hf
      · exfalso
        apply he
        rw [analyzeS_no_close_aux d i len hws hcl]
    | some k =>
      cases himp : findImport ((d.drop (i + len)).take k) with
      | none => exact convergence_noimp_case d i len k hws hcl himp
      | some tr =>
        obtain ⟨j, l2, cap⟩ := tr
        cases hcont : ((splitComma cap).map trimL).contains createBayLit with
        | false => exact convergence_merge_case d i len k j l2 cap hws hcl himp hcont
        | true =>
          have hrec := analyzeS_wf_imp d i len k j l2 cap hws hcl himp
          have ht : (FileUtils.analyzeSvelteFile d).hasScriptTag = true := by rw [hrec]
          have hit : (FileUtils.analyzeSvelteFile d).hasCreateBayImport = true := by
            rw [hrec]
            exact hcont
          cases hcall : (FileUtils.analyzeSvelteFile d).hasCreateBayCall with
          | true =>
            rw [initConvergence_noop d hit hcall]
            exact ⟨hit, hcall⟩
          | false =>
            rw [initConvergence_eq_call_branch d ht hit hcall]
            have hcc := convergence_call_case d i len k j l2 cap hws hcl himp
            exact ⟨by rw [hcc.1]; exact hcont, hcc.2⟩

/-- Claim C1 (amended): for every document `d` that either has no script tag
at all or whose first script tag has a matching `</script>` (the analyzer
reports `scriptContentEnd ≠ -1`), running the convergence sequence twice
produces a byte-identical document to running it once, and the second run
finds `hasCreateBayImport` and `hasCreateBayCall` both true on the first
run's output.  The restriction is necessary: on a document whose only
script tag is never closed the driver is not idempotent (see the
counterexample). -/
theorem convergence_idempotent (d : Doc)
    (h : (FileUtils.analyzeSvelteFile d).hasScriptTag = false ∨
      (FileUtils.analyzeSvelteFile d).scriptContentEnd ≠ -1) :
    (FileUtils.analyzeSvelteFile (FileUtils.initConvergence d)).hasCreateBayImport = true ∧
    (FileUtils.analyzeSvelteFile (FileUtils.initConvergence d)).hasCreateBayCall = true ∧
    FileUtils.initConvergence (FileUtils.initConvergence d) =
      FileUtils.initConvergence d := by
  have hf := convergence_second_facts d h
  exact ⟨hf.1, hf.2, initConvergence_noop _ hf.1 hf.2⟩

set_option maxRecDepth 100000 in
/-- Counterexample to C1 as stated: on the document `<script>` (an opening
tag with no matching close), the convergence driver is not idempotent —
running it twice produces a different byte sequence than running it once. -/
theorem convergence_idempotent_counterexample :
    FileUtils.initConvergence (FileUtils.initConvergence "<script>".toList) ≠
      FileUtils.initConvergence "<script>".toList := by decide

set_option maxRecDepth 400000 in
/-- Witness for amended C1 at a concrete layout with a closed script block
and an existing foreign import, exercising the merge path. -/
theorem convergence_idempotent_witness :
    ((FileUtils.analyzeSvelteFile
        "<script>\n\timport \x7b foo, bar \x7d from \x27svelte-bay\x27;\n\tfoo();\n</script>\n".toList).hasScriptTag = false ∨
      (FileUtils.analyzeSvelteFile
        "<script>\n\timport \x7b foo, bar \x7d from \x27svelte-bay\x27;\n\tfoo();\n</script>\n".toList).scriptContentEnd ≠ -1) ∧
    ((FileUtils.analyzeSvelteFile (FileUtils.initConvergence
        "<script>\n\timport \x7b foo, bar \x7d from \x27svelte-bay\x27;\n\tfoo();\n</script>\n".toList)).hasCreateBayImport = true ∧
      (FileUtils.analyzeSvelteFile (FileUtils.initConvergence
        "<script>\n\timport \x7b foo, bar \x7d from \x27svelte-bay\x27;\n\tfoo();\n</script>\n".toList)).hasCreateBayCall = true ∧
      FileUtils.initConvergence (FileUtils.initConvergence
        "<script>\n\timport \x7b foo, bar \x7d from \x27svelte-bay\x27;\n\tfoo();\n</script>\n".toList) =
        FileUtils.initConvergence
          "<script>\n\timport \x7b foo, bar \x7d from \x27svelte-bay\x27;\n\tfoo();\n</script>\n".toList) :=
  ⟨Or.inr (by decide),
    convergence_idempotent
      "<script>\n\timport \x7b foo, bar \x7d from \x27svelte-bay\x27;\n\tfoo();\n</script>\n".toList
      (Or.inr (by decide))⟩

end SvelteBay
